import Mathlib

/-!
# steamcli: cache and aggregation engine

A shallow embedding of the cache (`cache/games.go`, `cache/profiles.go`,
`cache/cache.go`), of the records it stores (`objects/json.go`,
`objects/xml.go`) and of the aggregator (`aggregator/aggregator.go`,
`aggregator/games.go`): registration, set algebra, and the reconciliation of
game details and tags.  The network and the file system are parameters of the
operations that use them.

Modelling conventions.

* A Go `map[K]V` is an association list `List (K × V)`.  Go leaves the order in
  which `range` visits a map unspecified; the order of the list is the order of
  that visit, and every statement quantifies over all lists, hence over all
  orders.  A list stands for a map when its keys are pairwise distinct; where a
  result depends on that, it is a hypothesis (`Nodup`).
* A Go `map[int]struct{}` (a set of IDs) is a `List Int`, read the same way.
  Inserting a key that is present changes nothing, a new key goes to the end,
  and `delete` drops the key.
* Pointers to records are modelled by the records themselves; a stored pointer
  is never nil, and a record stored under two keys is two equal records.
* `int` and `int64` values are only stored and compared, never computed with,
  so they are `Int`; where text is read back as a number (`strconv.Atoi`, the
  keys of an encoded map) the bounds of a Go `int` are explicit.
* A `time.Time` is the number of nanoseconds since a fixed instant, an `Int`;
  the fixed instant is the zero `time.Time`, so `IsZero` holds of `0` alone.
  A `time.Duration` is a number of nanoseconds.  The clock is read once per
  operation: `now` is a parameter.  Where the calendar year of an instant
  matters, it is the year in UTC.
* A Go `string` is a `String`, a sequence of runes: texts are valid UTF-8.
* Logging is left out.
-/

namespace Steamcli

/-! ## objects -/

/-- The `Price` member of `objects.JSONGame`. -/
structure JSONPrice where
  Currency : String := ""
  Initial : Int := 0
  Final : Int := 0
  DiscountPercent : Int := 0
  InitialFormatted : String := ""
  FinalFormatted : String := ""
deriving DecidableEq, Repr

/-- The `Platforms` member of `objects.JSONGame`. -/
structure JSONPlatforms where
  Windows : Bool := false
  Mac : Bool := false
  Linux : Bool := false
deriving DecidableEq, Repr

/-- One element of the `Categories` member of `objects.JSONGame`. -/
structure JSONCategory where
  ID : Int := 0
  Description : String := ""
deriving DecidableEq, Repr

/-- The dynamic value of the member `RequiredAgeDummy`, an `interface{}`: no
value, a string, a Go `int`, or a `float64` as the JSON decoder makes one of a
number.  Only whole numbers are modelled: `float n` is the `float64` of value
`n`.  The other dynamic types are left out. -/
inductive AgeDummy where
  | nil
  | text (s : String)
  | int (n : Int)
  | float (n : Int)
deriving DecidableEq, Repr

/-- The record `objects.JSONGame`.  `Tags` is `none` for a nil slice; `Type_`
is the member `Type`. -/
structure JSONGame where
  Invalid : Bool := false
  Type_ : String := ""
  Name : String := ""
  AppID : Int := 0
  RequiredAge : Int := 0
  RequiredAgeDummy : AgeDummy := AgeDummy.nil
  Description : String := ""
  DescriptionShort : String := ""
  SupportedLanguages : String := ""
  Website : String := ""
  Developers : List String := []
  Publishers : List String := []
  Price : JSONPrice := {}
  Platforms : JSONPlatforms := {}
  Categories : List JSONCategory := []
  Tags : Option (List String) := none
  Updated : Int := 0
deriving DecidableEq, Repr

/-- The elements a `range` over the `Tags` slice visits: none for a nil slice. -/
def JSONGame.tagList (g : JSONGame) : List String := g.Tags.getD []

/-- The type `objects.JSONGameList`. -/
abbrev JSONGameList := List JSONGame

/-- The record `xml.Name`. -/
structure xml.Name where
  Space : String := ""
  Local : String := ""
deriving DecidableEq, Repr

/-- The record `objects.XMLProfileGame`. -/
structure XMLProfileGame where
  XMLName : xml.Name := {}
  Name : String := ""
  AppID : Int := 0
  LinkStore : String := ""
  LinkStats : String := ""
  LinksStatsGlobal : String := ""
  PlaytimeTwoWeeks : String := ""
  PlaytimeTotal : String := ""
deriving DecidableEq, Repr

/-- The type `objects.XMLGameMap`, a `map[int]*XMLProfileGame`. -/
abbrev XMLGameMap := List (Int × XMLProfileGame)

/-- The record `objects.XMLProfile`. -/
structure XMLProfile where
  XMLName : xml.Name := {}
  SteamID : String := ""
  SteamID64 : Int := 0
  CustomURL : String := ""
  Status : String := ""
  Privacy : String := ""
  PrivacyState : Int := 0
  VACStatus : Bool := false
  TradeBan : String := ""
  IsLimited : Bool := false
  MemberSinceString : String := ""
  Location : String := ""
  MemberSince : Int := 0
  Games : XMLGameMap := []
  Updated : Int := 0
deriving DecidableEq, Repr

/-! ## time -/

/-- The largest `time.Duration`. -/
def maxDuration : Int := 2 ^ 63 - 1

/-- The smallest `time.Duration`. -/
def minDuration : Int := -(2 ^ 63)

/-- The method `Time.Sub`: the difference `t - u`, replaced by the largest or
smallest duration when it does not fit one. -/
def timeSub (t u : Int) : Int :=
  if t - u > maxDuration then maxDuration
  else if t - u < minDuration then minDuration
  else t - u

/-- The function `time.Since`, with the clock reading `now`. -/
def timeSince (now t : Int) : Int := timeSub now t

/-- One hour, `time.Hour`, in nanoseconds. -/
def hour : Int := 3600 * 1000000000

/-- The constant `MaxGameAge`: thirty days. -/
def MaxGameAge : Int := (hour * 24) * 30

/-- The constant `MaxProfileAge`: twelve hours. -/
def MaxProfileAge : Int := hour * 12

/-! ## strings -/

/-! The case tables of the Go library, which `unicode.ToLower` consults for a
rune outside ASCII (`unicode.To(unicode.LowerCase, r)`), are not part of the
repository: `caseTable` stands for them, and every statement below holds for
every table. -/

variable (caseTable : Char → Char)

/-- The function `unicode.ToLower`: up to `unicode.MaxASCII` the letters `A` to
`Z` are mapped to `a` to `z` and every other rune is kept; a rune above it is
looked up in the case tables. -/
def toLowerRune (r : Char) : Char :=
  if r.toNat ≤ 127 then Char.toLower r else caseTable r

/-- The function `strings.ToLower` on the runes of a text: each is mapped by
`unicode.ToLower`.  (The two shortcuts Go takes for ASCII text give that same
result.) -/
def toLower (s : String) : String := String.mk (s.data.map (toLowerRune caseTable))

/-- A case table that keeps every rune, for the examples: their text is ASCII,
for which the tables are not consulted. -/
def plainCaseTable : Char → Char := fun r => r

/-! ## sets of IDs -/

/-- A `map[int]struct{}`. -/
abbrev IDSet := List Int

/-- The assignment `s[id] = struct{}{}`. -/
def IDSet.insert (s : IDSet) (id : Int) : IDSet :=
  if id ∈ s then s else s ++ [id]

/-- The call `delete(s, id)`. -/
def IDSet.delete (s : IDSet) (id : Int) : IDSet :=
  s.filter (fun x => x != id)

/-! ## cache/games.go -/

/-- The type `GameCache`, a `map[int]*objects.JSONGame`. -/
abbrev GameCache := List (Int × JSONGame)

/-- The keys of the map, in the order of a `range`. -/
def GameCache.keys (g : GameCache) : List Int := g.map Prod.fst

/-- The values of the map, in the order of a `range`. -/
def GameCache.values (g : GameCache) : List JSONGame := g.map Prod.snd

/-- The method `GameCache.Get`. -/
def GameCache.Get (g : GameCache) (appid : Int) : Option JSONGame :=
  (g.find? (fun e => e.1 == appid)).map Prod.snd

/-- The method `GameCache.Add`: an unconditional upsert. -/
def GameCache.Add (g : GameCache) (appid : Int) (game : JSONGame) : GameCache :=
  if g.any (fun e => e.1 == appid) then
    g.map (fun e => if e.1 == appid then (appid, game) else e)
  else g ++ [(appid, game)]

/-- The variables `appIDMap` and `ret` of `GameCache.Select`. -/
structure SelectState where
  appIDMap : IDSet
  ret : JSONGameList
deriving DecidableEq, Repr

/-- The test `invalid || (!invalid && !game.Invalid)`. -/
def validityOK (invalid : Bool) (game : JSONGame) : Bool :=
  invalid || (!invalid && !game.Invalid)

/-- The innermost loop of `Select`, over the tags of `game`, for one wanted
tag.  Returns the state and the value of `done` when the loop is left. -/
def selectTagLoop (wantedTag : String) (game : JSONGame) (and invalid : Bool) :
    List String → SelectState → SelectState × Bool
  | [], st => (st, false)
  | tag :: rest, st =>
    if toLower caseTable tag == toLower caseTable wantedTag then
      if validityOK invalid game then
        if !and then
          (⟨st.appIDMap.delete game.AppID, st.ret ++ [game]⟩, true)
        else (st, true)
      else selectTagLoop wantedTag game and invalid rest st
    else selectTagLoop wantedTag game and invalid rest st

/-- The loop of `Select` over the wanted tags.  The third argument is the value
of `done` before the loop; the result carries its value after the loop. -/
def selectWantedLoop (game : JSONGame) (and invalid : Bool) :
    List String → SelectState → Bool → SelectState × Bool
  | [], st, done => (st, done)
  | wantedTag :: rest, st, _ =>
    let r := selectTagLoop caseTable wantedTag game and invalid game.tagList st
    if (and && !r.2) || (!and && r.2) then r
    else selectWantedLoop game and invalid rest r.1 r.2

/-- The body of the loop of `Select` over the games of the cache. -/
def selectStep (tags : List String) (and invalid : Bool)
    (st : SelectState) (game : JSONGame) : SelectState :=
  if st.appIDMap.length > 0 && !(st.appIDMap.contains game.AppID) then st
  else if tags.isEmpty && validityOK invalid game then
    ⟨st.appIDMap, st.ret ++ [game]⟩
  else
    let r := selectWantedLoop caseTable game and invalid tags st false
    if and && r.2 then
      ⟨r.1.appIDMap.delete game.AppID, r.1.ret ++ [game]⟩
    else r.1

/-- The map `appIDMap` as `Select` builds it from `appids`. -/
def mkAppIDMap (appids : List Int) : IDSet :=
  appids.foldl IDSet.insert []

/-- The method `GameCache.Select`.  A nil and an empty `tags` are both `[]`. -/
def GameCache.Select (g : GameCache) (tags : List String) (appids : List Int)
    (and invalid : Bool) : JSONGameList :=
  (g.values.foldl (selectStep caseTable tags and invalid) ⟨mkAppIDMap appids, []⟩).ret

/-- The function `gameExpired`, with the clock reading `now`. -/
def gameExpired (now : Int) (g : JSONGame) : Bool :=
  decide (timeSince now g.Updated > MaxGameAge)

/-- The method `GameCache.Delete`: the map afterwards, and whether the key was
found. -/
def GameCache.Delete (g : GameCache) (appid : Int) : GameCache × Bool :=
  if g.any (fun e => e.1 == appid) then
    (g.filter (fun e => e.1 != appid), true)
  else (g, false)

/-- The body of the loop of `GameCache.PurgeExpired` for the key `id`; the
state is the map and the counter `n`.  A `range` does not produce a key that
was removed before it was reached. -/
def purgeExpiredStep (now : Int) (st : GameCache × Int) (id : Int) :
    GameCache × Int :=
  match st.1.Get id with
  | none => st
  | some game =>
    if gameExpired now game then
      let r := st.1.Delete id
      if !r.2 then (r.1, st.2) else (r.1, st.2 + 1)
    else st

/-- The method `GameCache.PurgeExpired`: the map afterwards and the returned
count.  The loop ranges over the keys the map has when it starts. -/
def GameCache.PurgeExpired (now : Int) (g : GameCache) : GameCache × Int :=
  g.keys.foldl (purgeExpiredStep now) (g, 0)

/-! ## cache/profiles.go -/

/-- The type `ProfileCache`, a slice of profiles. -/
abbrev ProfileCache := List XMLProfile

/-- The function `profileExpired`, with the clock reading `now`. -/
def profileExpired (now : Int) (p : XMLProfile) : Bool :=
  decide (timeSince now p.Updated > MaxProfileAge)

/-- The loop of `ProfileCache.Add` over the indices of the slice: the slice
afterwards and the value of `updated`, given its value before. -/
def addLoop (profile : XMLProfile) : ProfileCache → Bool → ProfileCache × Bool
  | [], updated => ([], updated)
  | e :: rest, updated =>
    if e.SteamID64 == profile.SteamID64 then
      let r := addLoop profile rest true
      (profile :: r.1, r.2)
    else
      let r := addLoop profile rest updated
      (e :: r.1, r.2)

/-- The method `ProfileCache.Add`, with the clock reading `now`. -/
def ProfileCache.Add (now : Int) (p : ProfileCache) (profile : XMLProfile) :
    ProfileCache :=
  if profileExpired now profile then p
  else
    let r := addLoop profile p false
    if !r.2 then r.1 ++ [profile] else r.1

/-- The inner loop of `ProfileCache.PurgeExpired`: the index of the first
expired profile at or after position `i`, or `-1`. -/
def firstExpired (now : Int) : ProfileCache → Int → Int
  | [], _ => -1
  | e :: rest, i => if profileExpired now e then i else firstExpired now rest (i + 1)

/-- The statement `(*p) = append((*p)[:index], (*p)[index+1:]...)`. -/
def removeAt (p : ProfileCache) (index : Int) : ProfileCache :=
  p.take index.toNat ++ p.drop (index.toNat + 1)

/-- The method `ProfileCache.PurgeExpired`, run for at most `fuel` rounds of
its outer loop; `none` when the loop has not ended by then. -/
def ProfileCache.PurgeExpired (now : Int) : Nat → ProfileCache → Option ProfileCache
  | 0, _ => none
  | fuel + 1, p =>
    let index := firstExpired now p 0
    if index != -1 then ProfileCache.PurgeExpired now fuel (removeAt p index)
    else some p

/-! ## aggregator -/

/-- The record `profile.Client`; only its profile matters here. -/
structure Client where
  Profile : XMLProfile := {}
deriving DecidableEq, Repr

/-- The type `ClientMap`, a `map[string]*profile.Client`. -/
abbrev ClientMap := List (String × Client)

/-- The record `cache.Cache`. -/
structure Cache where
  Games : GameCache := []
  Profiles : ProfileCache := []
deriving DecidableEq, Repr

/-- The record `Aggregator`. -/
structure Aggregator where
  Clients : ClientMap := []
  Cache : Cache := {}
deriving DecidableEq, Repr

/-- The type `gameMatcher`, a slice of sets of IDs. -/
abbrev gameMatcher := List IDSet

/-- The method `gameMatcher.All`: the keys of the map `games` once every ID of
every section has been inserted. -/
def gameMatcher.All (m : gameMatcher) : List Int :=
  m.foldl (fun games section_ => section_.foldl IDSet.insert games) []

/-- The flag `inAll` of `gameMatcher.Common` for `game`: every section holds an
ID equal to it. -/
def inAllSections (m : gameMatcher) (game : Int) : Bool :=
  m.all (fun sectionAgain => sectionAgain.any (fun gameAgain => gameAgain == game))

/-- The body of the loop of `Common` over the IDs of section `i`.  A `range`
does not produce an ID that was removed before it was reached. -/
def commonStep (i : Nat) (m : gameMatcher) (game : Int) : gameMatcher :=
  if (m.getD i []).contains game then
    if !inAllSections m game then m.modify (fun s => IDSet.delete s game) i
    else m
  else m

/-- The body of the loop of `Common` over the sections: it ranges over the IDs
section `i` holds when it is reached. -/
def commonSection (m : gameMatcher) (i : Nat) : gameMatcher :=
  (m.getD i []).foldl (commonStep i) m

/-- The sections of the matcher when the elimination loop of `Common` ends. -/
def commonEliminate (m : gameMatcher) : gameMatcher :=
  (List.range m.length).foldl commonSection m

/-- The method `gameMatcher.Common`. -/
def gameMatcher.Common (m : gameMatcher) : List Int :=
  gameMatcher.All (commonEliminate m)

/-- The IDs a client owns, as `Aggregator.Select` collects them: the `AppID` of
every game of the profile. -/
def ownedIDs (c : Client) : IDSet :=
  c.Profile.Games.foldl (fun games g => IDSet.insert games g.2.AppID) []

/-- The matcher `Aggregator.Select` builds: one section per client. -/
def mkMatcher (clients : ClientMap) : gameMatcher :=
  clients.map (fun c => ownedIDs c.2)

/-- The method `Aggregator.Select`. -/
def Aggregator.Select (a : Aggregator) (tags : List String)
    (common and invalid : Bool) : JSONGameList :=
  let matcher := mkMatcher a.Clients
  let wantedIDs := if common then gameMatcher.Common matcher else gameMatcher.All matcher
  a.Cache.Games.Select caseTable tags wantedIDs and invalid

/-! ## predicates used in the statements -/

/-- Some tag of `game` equals `wantedTag` when case is ignored. -/
def hasTag (game : JSONGame) (wantedTag : String) : Bool :=
  game.tagList.any (fun tag => toLower caseTable tag == toLower caseTable wantedTag)

/-- The test `Select` applies to the tags of a game when `tags` is not empty. -/
def tagsOK (tags : List String) (and : Bool) (game : JSONGame) : Bool :=
  if and then tags.all (hasTag caseTable game) else tags.any (hasTag caseTable game)

/-! ## gameMatcher.Common: the invariant of the elimination, and the counting algorithm -/

/-- Section `j` of a matcher, empty when there is none. -/
def sectionAt (m : gameMatcher) (j : Nat) : IDSet := m.getD j []

/-- The invariant of the elimination: no section has grown, and no section has
lost an ID that every section of the matcher `m0` holds. -/
def CommonInv (m0 m : gameMatcher) : Prop :=
  m.length = m0.length ∧
    ∀ j x, (x ∈ sectionAt m j → x ∈ sectionAt m0 j) ∧
      ((∀ s ∈ m0, x ∈ s) → j < m0.length → x ∈ sectionAt m j)

/-- The number of sections that hold `x`. -/
def countSets (m : gameMatcher) (x : Int) : Nat :=
  (m.filter (fun s => s.contains x)).length

/-- The counting algorithm of the specification: every ID that occurs in a
section is counted once per section that holds it, and the IDs whose count
equals the number of sections are kept. -/
def CommonCounting (m : gameMatcher) : List Int :=
  (gameMatcher.All m).filter (fun x => countSets m x == m.length)

/-! ## example data -/

/-- A profile game with the given ID. -/
def exampleGame (id : Int) : Int × XMLProfileGame := (id, { AppID := id })

/-- Client A, owning the games 1, 2 and 3. -/
def exampleClientA : Client :=
  { Profile := { SteamID64 := 1, Games := [exampleGame 1, exampleGame 2, exampleGame 3] } }

/-- Client B, owning the games 2, 3 and 4. -/
def exampleClientB : Client :=
  { Profile := { SteamID64 := 2, Games := [exampleGame 2, exampleGame 3, exampleGame 4] } }

/-- The registry holding the clients A and B. -/
def exampleClients : ClientMap := [("A", exampleClientA), ("B", exampleClientB)]

/-- A game record with the given ID, valid and without tags. -/
def exampleRecord (id : Int) : JSONGame := { AppID := id }

/-- The aggregator of the clients A and B with the games 1 to 4 in its cache. -/
def exampleAggregator : Aggregator :=
  { Clients := exampleClients,
    Cache := { Games := [(1, exampleRecord 1), (2, exampleRecord 2),
      (3, exampleRecord 3), (4, exampleRecord 4)] } }

/-- Two clients with no game in common, one owning game 1 and one owning
game 2, and a cache that holds game 5. -/
def disjointAggregator : Aggregator :=
  { Clients := [("A", { Profile := { SteamID64 := 1, Games := [exampleGame 1] } }),
      ("B", { Profile := { SteamID64 := 2, Games := [exampleGame 2] } })],
    Cache := { Games := [(5, exampleRecord 5)] } }

/-- A game cache with three records, last updated at the instants 0, 10 and 0. -/
def exampleGameCache : GameCache :=
  [(1, { AppID := 1, Name := "One", Updated := 0 }),
   (2, { AppID := 2, Name := "Two", Updated := 10 }),
   (3, { AppID := 3, Name := "Three", Updated := 0 })]

/-- A profile cache with two entries of identity 5 around one of identity 6,
all last updated at the instant 100. -/
def exampleProfileCache : ProfileCache :=
  [{ SteamID64 := 5, SteamID := "five", Updated := 100 },
   { SteamID64 := 6, SteamID := "six", Updated := 100 },
   { SteamID64 := 5, SteamID := "five again", Updated := 100 }]

/-- A profile cache whose first and third entries were last updated at the
instant 0 and whose second entry at the instant 50. -/
def agedProfileCache : ProfileCache :=
  [{ SteamID64 := 5, Updated := 0 },
   { SteamID64 := 6, Updated := 50 },
   { SteamID64 := 7, Updated := 0 }]

/-- A fresh profile of identity 5, last updated at the instant 100. -/
def exampleProfile : XMLProfile := { SteamID64 := 5, SteamID := "new", Updated := 100 }

/-- A record with the given ID and the tags `Action` and `Indie`. -/
def taggedRecord (id : Int) : JSONGame := { AppID := id, Tags := some ["Action", "Indie"] }

/-- A cache of two tagged records, stored under their own IDs 1 and 2. -/
def taggedCache : GameCache := [(1, taggedRecord 1), (2, taggedRecord 2)]

/-! ## strconv -/

/-- The functions `strconv.FormatInt(n, 10)` and `strconv.Itoa`: the decimal
digits of `n`, after a minus sign when `n` is negative. -/
def formatInt (n : Int) : String := toString n

/-- The largest Go `int`. -/
def maxInt : Int := 2 ^ 63 - 1

/-- The smallest Go `int`. -/
def minInt : Int := -(2 ^ 63)

/-- The value of a decimal digit. -/
def digitValue (c : Char) : Int := (c.toNat : Int) - 48

/-- The number a list of decimal digits denotes. -/
def digitsValue (ds : List Char) : Int :=
  ds.foldl (fun acc c => acc * 10 + digitValue c) 0

/-- The function `strconv.Atoi`: an optional sign and at least one decimal
digit, denoting a number that fits a Go `int`; `none` for an error. -/
def atoi (s : String) : Option Int :=
  let neg := s.data.head? == some '-'
  let ds := if s.data.head? == some '-' || s.data.head? == some '+' then s.data.tail else s.data
  if ds.isEmpty || !ds.all Char.isDigit then none
  else
    let v := if neg then -digitsValue ds else digitsValue ds
    if v < minInt || v > maxInt then none else some v

/-! ## cache/profiles.go: Find, FindGame, Remove -/

/-- The loop of `ProfileCache.Find` over the profiles: the first profile whose
identity in decimal is `id` or whose non-empty `CustomURL` equals `id` when
case is ignored; `none` for the result `nil, false`. -/
def findLoop (id : String) : ProfileCache → Option XMLProfile
  | [] => none
  | p :: rest =>
    if formatInt p.SteamID64 == id then some p
    else if p.CustomURL != "" && toLower caseTable p.CustomURL == toLower caseTable id then some p
    else findLoop id rest

/-- The method `ProfileCache.Find`, with the clock reading `now` and at most
`fuel` rounds for the purge it starts with: the cache afterwards and the
profile found; `none` when the purge has not ended by then. -/
def ProfileCache.Find (now : Int) (fuel : Nat) (p : ProfileCache) (id : String) :
    Option (ProfileCache × Option XMLProfile) :=
  match ProfileCache.PurgeExpired now fuel p with
  | none => none
  | some purged => some (purged, findLoop caseTable id purged)

/-- The method `XMLGameMap.Contains`. -/
def XMLGameMap.Contains (g : XMLGameMap) (appid : Int) : Option XMLProfileGame :=
  (g.find? (fun e => e.1 == appid)).map Prod.snd

/-- The method `ProfileCache.FindGame`: the name and whether a profile owns the
game. -/
def ProfileCache.FindGame : ProfileCache → Int → String × Bool
  | [], _ => ("", false)
  | c :: rest, appid =>
    match XMLGameMap.Contains c.Games appid with
    | some g => (g.Name, true)
    | none => ProfileCache.FindGame rest appid

/-- The loop of `removeAll`: the index of the first profile at or after
position `i` whose identity in decimal is `id` or whose `CustomURL` is `id`,
or `-1`. -/
def removeAllIndex (id : String) : ProfileCache → Int → Int
  | [], _ => -1
  | pr :: rest, i =>
    if formatInt pr.SteamID64 == id then i
    else if pr.CustomURL == id then i
    else removeAllIndex id rest (i + 1)

/-- The method `ProfileCache.removeAll`: the slice afterwards and the result. -/
def ProfileCache.removeAll (p : ProfileCache) (id : String) : ProfileCache × Bool :=
  let index := removeAllIndex id p 0
  if index != -1 then (removeAt p index, true) else (p, false)

/-- The loop of `ProfileCache.Remove`, run for at most `fuel` calls of
`removeAll`; the third argument is the value of `removed` so far. -/
def removeLoop (id : String) : Nat → ProfileCache → Bool → Option (ProfileCache × Bool)
  | 0, _, _ => none
  | fuel + 1, p, removed =>
    let r := ProfileCache.removeAll p id
    if r.2 then removeLoop id fuel r.1 true else some (r.1, removed)

/-- The method `ProfileCache.Remove`, run for at most `fuel` calls of
`removeAll`: the slice afterwards and the result; `none` when the loop has not
ended by then. -/
def ProfileCache.Remove (fuel : Nat) (p : ProfileCache) (id : String) :
    Option (ProfileCache × Bool) :=
  removeLoop id fuel p false

/-- A cache in which the first profile has the vanity name `7` and the second
the numeric identity 7, both last updated at the instant 100. -/
def vanityProfileCache : ProfileCache :=
  [{ SteamID64 := 1, CustomURL := "7", Updated := 100 },
   { SteamID64 := 7, CustomURL := "seven", Updated := 100 }]

/-- A profile of identity 5 last updated at the instant 0. -/
def staleProfile : XMLProfile := { SteamID64 := 5, SteamID := "stale", Updated := 0 }

/-- The test of `removeAll` on one profile: its identity in decimal is `id`, or
its `CustomURL` is `id`. -/
def removeMatch (id : String) (e : XMLProfile) : Bool :=
  formatInt e.SteamID64 == id || e.CustomURL == id

/-- The test of `Find` on one profile: its identity in decimal is `id`, or its
`CustomURL` is not empty and equals `id` when case is ignored. -/
def findMatch (id : String) (e : XMLProfile) : Bool :=
  formatInt e.SteamID64 == id ||
    (e.CustomURL != "" && toLower caseTable e.CustomURL == toLower caseTable id)

/-! ## aggregator/aggregator.go -/

/-- The function `profile.NewClientPre`: a client for a profile at hand. -/
def NewClientPre (p : XMLProfile) : Client := { Profile := p }

/-- The assignment `clients[id] = c`. -/
def ClientMap.insert (clients : ClientMap) (id : String) (c : Client) : ClientMap :=
  if clients.any (fun e => e.1 == id) then
    clients.map (fun e => if e.1 == id then (id, c) else e)
  else clients ++ [(id, c)]

/-- What a call of `Aggregator.AddClient` leaves: the returned error (`none`
for `nil`), the aggregator afterwards, and the identifiers handed to
`profile.NewClient`, the profile resolver. -/
structure AddClientResult where
  err : Option String
  agg : Aggregator
  resolved : List String
deriving DecidableEq, Repr

/-- The method `Aggregator.AddClient`.  `newClient` stands for
`profile.NewClient`, which resolves an identifier over the network; `now` is
the clock reading and `fuel` bounds the purge inside `Find`, the result being
`none` when that purge has not ended by then. -/
def Aggregator.AddClient (newClient : String → Except String Client) (now : Int)
    (fuel : Nat) (a : Aggregator) (id : String) : Option AddClientResult :=
  if a.Clients.any (fun e => e.1 == id) then
    some ⟨some ("The client is already present: '" ++ id ++ "'"), a, []⟩
  else
    match ProfileCache.Find caseTable now fuel a.Cache.Profiles id with
    | none => none
    | some (profiles, some p) =>
      some ⟨none, ⟨ClientMap.insert a.Clients id (NewClientPre p),
        ⟨a.Cache.Games, profiles⟩⟩, []⟩
    | some (profiles, none) =>
      match newClient id with
      | Except.error e => some ⟨some e, ⟨a.Clients, ⟨a.Cache.Games, profiles⟩⟩, [id]⟩
      | Except.ok c =>
        some ⟨none, ⟨ClientMap.insert a.Clients id c,
          ⟨a.Cache.Games, ProfileCache.Add now profiles c.Profile⟩⟩, [id]⟩

/-- A resolver that knows no identifier. -/
def noResolver : String → Except String Client :=
  fun _ => Except.error "Could not retrieve profile"

/-- A resolver that answers every identifier with a fresh profile of identity
9. -/
def freshResolver : String → Except String Client :=
  fun _ => Except.ok { Profile := { SteamID64 := 9, Updated := 100 } }

/-! ## objects/json.go: Complete -/

/-- The first step of `JSONGame.Complete`: `RequiredAge` is read from
`RequiredAgeDummy` when that holds a string `strconv.Atoi` accepts, or a Go
`int`. -/
def JSONGame.completeAge (g : JSONGame) : JSONGame :=
  match g.RequiredAgeDummy with
  | AgeDummy.text x =>
    match atoi x with
    | some xx => { g with RequiredAge := xx }
    | none => g
  | AgeDummy.int x => { g with RequiredAge := x }
  | _ => g

/-- The method `JSONGame.Complete`, with the clock reading `now`. -/
def JSONGame.Complete (now : Int) (g : JSONGame) : JSONGame :=
  let g1 := JSONGame.completeAge g
  if g1.Updated == 0 then { g1 with Updated := now } else g1

/-! ## aggregator/games.go: UpdateGameCache -/

/-- One value of the decoded answer of the detail service: the members
`success` and `data`; `Data` is `none` for a nil pointer.  The value itself is
never nil. -/
structure DetailEntry where
  Success : Bool := false
  Data : Option JSONGame := none
deriving DecidableEq, Repr

/-- The decoded answer of the detail service, the map `obj` from requested ID,
as text, to entry. -/
abbrev DetailResponse := List (String × DetailEntry)

/-- The ways `UpdateGameCache` ends early: a returned error or a panic. -/
inductive UpdateAbort where
  | error (msg : String)
  | panic (msg : String)
deriving DecidableEq, Repr

/-- The game cache and the map `gameIDs`, the want-set, during
`UpdateGameCache`. -/
structure UpdateState where
  Games : GameCache
  gameIDs : IDSet
deriving DecidableEq, Repr

/-- The map `gameIDs` as `UpdateGameCache` builds it: every key of the games
of every client that `GameCache.Get` does not find. -/
def wantSet (a : Aggregator) : IDSet :=
  a.Clients.foldl
    (fun gameIDs c =>
      c.2.Profile.Games.foldl
        (fun ids g => if (a.Cache.Games.Get g.1).isSome then ids else IDSet.insert ids g.1)
        gameIDs)
    []

/-- The loop that fills `nextIDs` from a `range` over `gameIDs`, given in the
order of that `range`; `i` counts the IDs taken so far.  The slice is made
with the capacity `ParallelUpdates` before the loop, on which `make` panics
when that is negative: the loop is modelled for a capacity `make` accepts. -/
def nextIDsLoop (parallelUpdates : Int) : List Int → Int → List String
  | [], _ => []
  | g :: rest, i =>
    if i + 1 >= parallelUpdates then [formatInt g]
    else formatInt g :: nextIDsLoop parallelUpdates rest (i + 1)

/-- The body of the loop of `UpdateGameCache` over `nextIDs`, for the
requested ID `v`: the state afterwards and how the run ends there, if it
does. -/
def processID (now : Int) (profiles : ProfileCache) (obj : DetailResponse)
    (st : UpdateState) (v : String) : UpdateState × Option UpdateAbort :=
  match atoi v with
  | none => (st, some (UpdateAbort.error "couldn't convert AppID"))
  | some vi =>
    match obj.lookup v with
    | none => (st, some (UpdateAbort.panic "Didn't find game in response"))
    | some vg =>
      let data : Option JSONGame :=
        if !vg.Success then
          some { AppID := vi, Invalid := true, Name := (ProfileCache.FindGame profiles vi).1 }
        else vg.Data
      match data with
      | none => (st, some (UpdateAbort.panic "nil pointer dereference"))
      | some d0 =>
        let d := JSONGame.Complete now d0
        let games := GameCache.Add st.Games d.AppID d
        let st1 : UpdateState :=
          if d.AppID != vi then ⟨GameCache.Add games vi d, IDSet.delete st.gameIDs vi⟩
          else ⟨games, st.gameIDs⟩
        (⟨st1.Games, IDSet.delete st1.gameIDs d.AppID⟩, none)

/-- The loop of `UpdateGameCache` over `nextIDs`. -/
def processBatch (now : Int) (profiles : ProfileCache) (obj : DetailResponse) :
    List String → UpdateState → UpdateState × Option UpdateAbort
  | [], st => (st, none)
  | v :: rest, st =>
    match processID now profiles obj st v with
    | (st1, some ab) => (st1, some ab)
    | (st1, none) => processBatch now profiles obj rest st1

/-- What `UpdateGameCache` works with besides the aggregator: the batch size
`ParallelUpdates`; the order in which a `range` visits the map `gameIDs`, which
Go leaves open; the detail service, from the requested IDs to the decoded
answer or the error of the transport, of the rate limit or of the decoding;
`Cache.Save`, as the error it returns, if any; and the clock reading.  No batch
is requested twice in a run, so a service that is a function of the request is
no restriction. -/
structure UpdateEnv where
  ParallelUpdates : Int
  order : IDSet → List Int
  fetch : List String → Except String DetailResponse
  save : Cache → Option String
  now : Int

/-- What a run of `UpdateGameCache` leaves: how it ended (`none` for the
result `nil`), the game cache, the want-set, and the batches requested from
the detail service. -/
structure UpdateResult where
  err : Option UpdateAbort
  Games : GameCache
  gameIDs : IDSet
  requests : List (List String)
deriving DecidableEq, Repr

/-- The loop `for len(gameIDs) > 0` of `UpdateGameCache` with the `Save` that
follows it, run for at most `fuel` batches; `none` when the loop has not ended
by then. -/
def updateLoop (env : UpdateEnv) (profiles : ProfileCache) :
    Nat → UpdateState → List (List String) → Option UpdateResult
  | 0, _, _ => none
  | fuel + 1, st, reqs =>
    if st.gameIDs.length > 0 then
      let nextIDs := nextIDsLoop env.ParallelUpdates (env.order st.gameIDs) 0
      match env.fetch nextIDs with
      | Except.error e =>
        some ⟨some (UpdateAbort.error e), st.Games, st.gameIDs, reqs ++ [nextIDs]⟩
      | Except.ok obj =>
        match processBatch env.now profiles obj nextIDs st with
        | (st1, some ab) => some ⟨some ab, st1.Games, st1.gameIDs, reqs ++ [nextIDs]⟩
        | (st1, none) =>
          match env.save ⟨st1.Games, profiles⟩ with
          | some e =>
            some ⟨some (UpdateAbort.error e), st1.Games, st1.gameIDs, reqs ++ [nextIDs]⟩
          | none => updateLoop env profiles fuel st1 (reqs ++ [nextIDs])
    else
      match env.save ⟨st.Games, profiles⟩ with
      | some e => some ⟨some (UpdateAbort.error e), st.Games, st.gameIDs, reqs⟩
      | none => some ⟨none, st.Games, st.gameIDs, reqs⟩

/-- The method `Aggregator.UpdateGameCache`, run for at most `fuel` batches. -/
def Aggregator.UpdateGameCache (env : UpdateEnv) (fuel : Nat) (a : Aggregator) :
    Option UpdateResult :=
  updateLoop env a.Cache.Profiles fuel ⟨a.Cache.Games, wantSet a⟩ []

/-- A profile that owns game 42 under the name `Foo`. -/
def fooProfile : XMLProfile :=
  { SteamID64 := 1, Updated := 100, Games := [(42, { Name := "Foo", AppID := 42 })] }

/-- An aggregator whose one client owns game 42 under the name `Foo`, with the
profile of that client in the cache and no game cached. -/
def fooAggregator : Aggregator :=
  { Clients := [("A", { Profile := fooProfile })], Cache := { Profiles := [fooProfile] } }

/-- A detail service that marks every requested ID unsuccessful. -/
def failingService : List String → Except String DetailResponse :=
  fun ids => Except.ok (ids.map (fun v => (v, { Success := false })))

/-- A run with batches of one ID, the want-set visited in list order, the
detail service that marks every ID unsuccessful, saves that succeed, and the
clock at 100. -/
def failingEnv : UpdateEnv :=
  { ParallelUpdates := 1, order := (fun s => s), fetch := failingService,
    save := (fun _ => none), now := 100 }

/-- A profile that owns game 10. -/
def tenProfile : XMLProfile :=
  { SteamID64 := 1, Updated := 100, Games := [(10, { Name := "Ten", AppID := 10 })] }

/-- An aggregator whose one client owns game 10, with no game cached. -/
def tenAggregator : Aggregator :=
  { Clients := [("A", { Profile := tenProfile })] }

/-- The record the detail service returns for game 10: its own ID is 20. -/
def twentyRecord : JSONGame := { AppID := 20, Name := "Twenty", Updated := 7 }

/-- A detail service that answers every requested ID with the record of
ID 20. -/
def redirectingService : List String → Except String DetailResponse :=
  fun ids => Except.ok (ids.map (fun v => (v, { Success := true, Data := some twentyRecord })))

/-- A run like `failingEnv` with the detail service that answers with the
record of ID 20. -/
def redirectingEnv : UpdateEnv :=
  { ParallelUpdates := 1, order := (fun s => s), fetch := redirectingService,
    save := (fun _ => none), now := 100 }

/-- A profile that owns the games 42 and 43. -/
def twoGameProfile : XMLProfile :=
  { SteamID64 := 1, Updated := 100,
    Games := [(42, { Name := "Foo", AppID := 42 }), (43, { Name := "Bar", AppID := 43 })] }

/-- An aggregator whose one client owns the games 42 and 43, with game 43 in
the cache as an invalid record. -/
def partlyCachedAggregator : Aggregator :=
  { Clients := [("A", { Profile := twoGameProfile })],
    Cache := { Games := [(43, { AppID := 43, Invalid := true, Name := "Bar" })],
               Profiles := [twoGameProfile] } }

/-! ## aggregator/games.go: UpdateGameTags -/

/-- What the store answers when the page of a game is asked for: the request
fails, the page cannot be parsed, the page does not pass `tagReturnSuccess`,
or the page is the one of the game and `findTags` finds the given tags on
it. -/
inductive TagPage where
  | requestFailed (msg : String)
  | parseFailed (msg : String)
  | invalidPage
  | page (tags : List String)
deriving DecidableEq, Repr

/-- The function `fetchTags`: the returned slice, never nil, and the returned
error, `none` for `nil`.  `store` stands for the request and the parsing of
the answer. -/
def fetchTags (store : Int → TagPage) (appid : Int) : List String × Option String :=
  match store appid with
  | TagPage.requestFailed msg => ([], some ("could not retrieve data from the store: " ++ msg))
  | TagPage.parseFailed msg => ([], some ("could not parse HTML: " ++ msg))
  | TagPage.invalidPage => ([], some "returned page did not pass validity check")
  | TagPage.page tags => (tags, none)

/-- What a run of `UpdateGameTags` leaves: the returned error (`none` for
`nil`), the game cache, and the IDs handed to `fetchTags`, in order. -/
structure TagsResult where
  err : Option String
  Games : GameCache
  fetched : List Int
deriving DecidableEq, Repr

/-- The loop of `UpdateGameTags` over the game cache: `done` holds the entries
visited so far, the second list the entries still to visit, `fetched` the IDs
handed to `fetchTags` so far.  `save` stands for `Cache.Save`, as the error it
returns, if any. -/
def updateTagsLoop (store : Int → TagPage) (save : Cache → Option String)
    (profiles : ProfileCache) : GameCache → GameCache → List Int → TagsResult
  | done, [], fetched => ⟨none, done, fetched⟩
  | done, (i, g) :: rest, fetched =>
    if g.Tags.isNone then
      let r := fetchTags store i
      let g1 : JSONGame := { g with Tags := some r.1 }
      match save ⟨done ++ (i, g1) :: rest, profiles⟩ with
      | some e => ⟨some e, done ++ (i, g1) :: rest, fetched ++ [i]⟩
      | none => updateTagsLoop store save profiles (done ++ [(i, g1)]) rest (fetched ++ [i])
    else updateTagsLoop store save profiles (done ++ [(i, g)]) rest fetched

/-- The method `Aggregator.UpdateGameTags`.  Every key of the cache holds a
record of its own. -/
def Aggregator.UpdateGameTags (store : Int → TagPage)
    (save : Steamcli.Cache → Option String)
    (a : Aggregator) : TagsResult :=
  updateTagsLoop store save a.Cache.Profiles [] a.Cache.Games []

/-- A store whose every request fails. -/
def downStore : Int → TagPage := fun _ => TagPage.requestFailed "timeout"

/-- A store that finds the tag `Action` on every page. -/
def actionStore : Int → TagPage := fun _ => TagPage.page ["Action"]

/-- An aggregator with the games 1 and 2 cached, neither with tags yet. -/
def untaggedAggregator : Aggregator :=
  { Cache := { Games := [(1, exampleRecord 1), (2, exampleRecord 2)] } }

/-- The aggregator `untaggedAggregator` after a run of `UpdateGameTags` during
which every request of the store failed. -/
def afterFailedTags : Aggregator :=
  { Cache := { Games :=
      (Aggregator.UpdateGameTags downStore (fun _ => none) untaggedAggregator).Games } }

/-! ## cache/games.go: AllTags -/

/-- The assignment `tags[t] = struct{}{}` on a `map[string]struct{}`. -/
def tagInsert (tags : List String) (t : String) : List String :=
  if t ∈ tags then tags else tags ++ [t]

/-- The map `tags` of `GameCache.AllTags` when its first loop ends. -/
def allTagsSet (g : GameCache) : List String :=
  g.foldl (fun tags gm => gm.2.tagList.foldl tagInsert tags) []

/-- The method `GameCache.AllTags`.  Its second loop appends the keys of the
map `tags` in the order of a `range` over it, which Go leaves open: `order`
gives that order. -/
def GameCache.AllTags (order : List String → List String) (g : GameCache) : List String :=
  order (allTagsSet g)

/-- A cache whose records carry the tags `b`, `a` and `B`, `b`. -/
def unsortedTagCache : GameCache :=
  [(1, { AppID := 1, Tags := some ["b", "a"] }), (2, { AppID := 2, Tags := some ["B", "b"] })]

/-- The order of Go strings, byte by byte, which `sort.Strings` uses; on ASCII
text it is the order of the code points. -/
def stringLess (a b : String) : Bool :=
  decide (a.data.map Char.toNat < b.data.map Char.toNat)

/-- A list of strings is in sorted order: no string is followed, anywhere
later, by a smaller one. -/
def stringsSorted (l : List String) : Prop :=
  List.Pairwise (fun x y => stringLess y x = false) l

/-! ## cache/cache.go: Save and Load

The cache file holds a JSON text.  The text is written by `json.MarshalIndent`
and read by `json.Unmarshal`; what the two exchange is modelled as the JSON
value the text denotes, so the model of `Save` and `Load` is which members the
tags of the records put into that value and take out of it.  A `time.Time`
member is a string in the form of RFC 3339, kept here as the instant it
denotes; `json.MarshalIndent` fails when an instant has no such form, its
year lying outside 0 to 9999.  Writing is modelled when the file can be opened
and written. -/

/-- A JSON value. -/
inductive JSONValue where
  | null
  | bool (b : Bool)
  | number (n : Int)
  | string (s : String)
  | time (t : Int)
  | array (items : List JSONValue)
  | object (members : List (String × JSONValue))

/-- The member `key` of a JSON object, `null` when there is none: decoding
into a fresh record leaves a member that is absent or `null` at its zero
value. -/
def member (members : List (String × JSONValue)) (key : String) : JSONValue :=
  (members.lookup key).getD JSONValue.null

/-- Decoding into a `string`. -/
def decodeString : JSONValue → Option String
  | JSONValue.null => some ""
  | JSONValue.string s => some s
  | _ => none

/-- Decoding into an `int` or `int64`. -/
def decodeInt : JSONValue → Option Int
  | JSONValue.null => some 0
  | JSONValue.number n => some n
  | _ => none

/-- Decoding into a `bool`. -/
def decodeBool : JSONValue → Option Bool
  | JSONValue.null => some false
  | JSONValue.bool b => some b
  | _ => none

/-- Decoding into a `time.Time`. -/
def decodeTime : JSONValue → Option Int
  | JSONValue.null => some 0
  | JSONValue.time t => some t
  | _ => none

/-- Decoding into a record: its members. -/
def decodeMembers : JSONValue → Option (List (String × JSONValue))
  | JSONValue.null => some []
  | JSONValue.object members => some members
  | _ => none

/-- Decoding every item of an array. -/
def decodeAll {α : Type} (dec : JSONValue → Option α) : List JSONValue → Option (List α)
  | [] => some []
  | v :: rest =>
    match dec v with
    | none => none
    | some a =>
      match decodeAll dec rest with
      | none => none
      | some as => some (a :: as)

/-- Decoding into a slice. -/
def decodeSlice {α : Type} (dec : JSONValue → Option α) : JSONValue → Option (List α)
  | JSONValue.null => some []
  | JSONValue.array items => decodeAll dec items
  | _ => none

/-- Encoding a `[]string`. -/
def encodeStrings (l : List String) : JSONValue :=
  JSONValue.array (l.map JSONValue.string)

/-- Encoding the member `Tags`: `null` for a nil slice. -/
def encodeTags : Option (List String) → JSONValue
  | none => JSONValue.null
  | some l => encodeStrings l

/-- Decoding the member `Tags`. -/
def decodeTags : JSONValue → Option (Option (List String))
  | JSONValue.null => some none
  | JSONValue.array items => (decodeAll decodeString items).map some
  | _ => none

/-- Encoding the member `RequiredAgeDummy`. -/
def encodeAge : AgeDummy → JSONValue
  | AgeDummy.nil => JSONValue.null
  | AgeDummy.text s => JSONValue.string s
  | AgeDummy.int n => JSONValue.number n
  | AgeDummy.float n => JSONValue.number n

/-- The least `e` for which `m / 2 ^ e` is below `2 ^ 53`, the size of the
mantissa of a `float64`; the first argument bounds the search and is `m`
itself where the function is used. -/
def mantissaShift : Nat → Nat → Nat
  | 0, _ => 0
  | fuel + 1, m => if m < 2 ^ 53 then 0 else mantissaShift fuel (m / 2) + 1

/-- The whole number a `float64` holds after `strconv.ParseFloat` has read the
whole number `n`: `n` itself up to 53 bits, otherwise the nearest number of 53
significant bits, a tie going to the even mantissa. -/
def float64OfInt (n : Int) : Int :=
  let m := n.natAbs
  let e := mantissaShift m m
  if e = 0 then n
  else
    let q := m / 2 ^ e
    let rest := m % 2 ^ e
    let half := 2 ^ (e - 1)
    let q1 := if rest > half ∨ (rest = half ∧ q % 2 = 1) then q + 1 else q
    if n < 0 then -((q1 * 2 ^ e : Nat) : Int) else ((q1 * 2 ^ e : Nat) : Int)

/-- Decoding the member `RequiredAgeDummy`, an `interface{}`: a number becomes
the `float64` that `strconv.ParseFloat` makes of it. -/
def decodeAge : JSONValue → Option AgeDummy
  | JSONValue.null => some AgeDummy.nil
  | JSONValue.string s => some (AgeDummy.text s)
  | JSONValue.number n => some (AgeDummy.float (float64OfInt n))
  | _ => none

/-- Encoding the member `Price`, by the tags of its members. -/
def encodePrice (p : JSONPrice) : JSONValue :=
  JSONValue.object
    [("currency", JSONValue.string p.Currency),
     ("initial", JSONValue.number p.Initial),
     ("final", JSONValue.number p.Final),
     ("discount_percent", JSONValue.number p.DiscountPercent),
     ("initial_formatted", JSONValue.string p.InitialFormatted),
     ("final_formatted", JSONValue.string p.FinalFormatted)]

/-- Decoding the member `Price`. -/
def decodePrice (v : JSONValue) : Option JSONPrice :=
  match decodeMembers v with
  | none => none
  | some ms =>
    match decodeString (member ms "currency"), decodeInt (member ms "initial"),
      decodeInt (member ms "final"), decodeInt (member ms "discount_percent"),
      decodeString (member ms "initial_formatted"),
      decodeString (member ms "final_formatted") with
    | some a, some b, some c, some d, some e, some f => some ⟨a, b, c, d, e, f⟩
    | _, _, _, _, _, _ => none

/-- Encoding the member `Platforms`. -/
def encodePlatforms (p : JSONPlatforms) : JSONValue :=
  JSONValue.object
    [("windows", JSONValue.bool p.Windows),
     ("mac", JSONValue.bool p.Mac),
     ("linux", JSONValue.bool p.Linux)]

/-- Decoding the member `Platforms`. -/
def decodePlatforms (v : JSONValue) : Option JSONPlatforms :=
  match decodeMembers v with
  | none => none
  | some ms =>
    match decodeBool (member ms "windows"), decodeBool (member ms "mac"),
      decodeBool (member ms "linux") with
    | some a, some b, some c => some ⟨a, b, c⟩
    | _, _, _ => none

/-- Encoding one item of the member `Categories`. -/
def encodeCategory (c : JSONCategory) : JSONValue :=
  JSONValue.object
    [("id", JSONValue.number c.ID), ("description", JSONValue.string c.Description)]

/-- Decoding one item of the member `Categories`. -/
def decodeCategory (v : JSONValue) : Option JSONCategory :=
  match decodeMembers v with
  | none => none
  | some ms =>
    match decodeInt (member ms "id"), decodeString (member ms "description") with
    | some a, some b => some ⟨a, b⟩
    | _, _ => none

/-- The members of an encoded `objects.JSONGame`, by the tags of the record;
`Updated` has no tag and goes by its name. -/
def gameMembers (g : JSONGame) : List (String × JSONValue) :=
    [("_is_invalid", JSONValue.bool g.Invalid),
     ("type", JSONValue.string g.Type_),
     ("name", JSONValue.string g.Name),
     ("steam_appid", JSONValue.number g.AppID),
     ("_required_age", JSONValue.number g.RequiredAge),
     ("required_age", encodeAge g.RequiredAgeDummy),
     ("detailed_description", JSONValue.string g.Description),
     ("short_description", JSONValue.string g.DescriptionShort),
     ("supported_languages", JSONValue.string g.SupportedLanguages),
     ("website", JSONValue.string g.Website),
     ("developers", encodeStrings g.Developers),
     ("publishers", encodeStrings g.Publishers),
     ("price_overview", encodePrice g.Price),
     ("platforms", encodePlatforms g.Platforms),
     ("categories", JSONValue.array (g.Categories.map encodeCategory)),
     ("tags", encodeTags g.Tags),
     ("Updated", JSONValue.time g.Updated)]

/-- Encoding an `objects.JSONGame`. -/
def encodeGame (g : JSONGame) : JSONValue := JSONValue.object (gameMembers g)

/-- The first half of decoding an `objects.JSONGame`. -/
def decodeGameHead (ms : List (String × JSONValue)) (g : JSONGame) : Option JSONGame :=
  match decodeBool (member ms "_is_invalid"), decodeString (member ms "type"),
    decodeString (member ms "name"), decodeInt (member ms "steam_appid"),
    decodeInt (member ms "_required_age"), decodeAge (member ms "required_age"),
    decodeString (member ms "detailed_description"),
    decodeString (member ms "short_description") with
  | some a, some b, some c, some d, some e, some f, some h, some i =>
    some { g with Invalid := a, Type_ := b, Name := c, AppID := d, RequiredAge := e,
                  RequiredAgeDummy := f, Description := h, DescriptionShort := i }
  | _, _, _, _, _, _, _, _ => none

/-- The second half of decoding an `objects.JSONGame`. -/
def decodeGameTail (ms : List (String × JSONValue)) (g : JSONGame) : Option JSONGame :=
  match decodeString (member ms "supported_languages"), decodeString (member ms "website"),
    decodeSlice decodeString (member ms "developers"),
    decodeSlice decodeString (member ms "publishers"),
    decodePrice (member ms "price_overview"), decodePlatforms (member ms "platforms"),
    decodeSlice decodeCategory (member ms "categories"), decodeTags (member ms "tags"),
    decodeTime (member ms "Updated") with
  | some a, some b, some c, some d, some e, some f, some h, some i, some j =>
    some { g with SupportedLanguages := a, Website := b, Developers := c, Publishers := d,
                  Price := e, Platforms := f, Categories := h, Tags := i, Updated := j }
  | _, _, _, _, _, _, _, _, _ => none

/-- Decoding into a fresh `objects.JSONGame`; `none` when a member has the
wrong kind, or when the value is `null`, a nil pointer, which is not
modelled. -/
def decodeGame : JSONValue → Option JSONGame
  | JSONValue.object ms =>
    match decodeGameHead ms {} with
    | none => none
    | some g => decodeGameTail ms g
  | _ => none

/-- Encoding an `objects.XMLProfileGame`: the members tagged `-` are left
out. -/
def encodeProfileGame (g : XMLProfileGame) : JSONValue :=
  JSONValue.object
    [("name", JSONValue.string g.Name),
     ("appID", JSONValue.number g.AppID),
     ("playtime_total", JSONValue.string g.PlaytimeTotal)]

/-- Decoding into a fresh `objects.XMLProfileGame`. -/
def decodeProfileGame : JSONValue → Option XMLProfileGame
  | JSONValue.object ms =>
    match decodeString (member ms "name"), decodeInt (member ms "appID"),
      decodeString (member ms "playtime_total") with
    | some a, some b, some c => some { Name := a, AppID := b, PlaytimeTotal := c }
    | _, _, _ => none
  | _ => none

/-- The assignment `m[appid] = game` on an `objects.XMLGameMap`. -/
def XMLGameMap.insert (m : XMLGameMap) (appid : Int) (game : XMLProfileGame) : XMLGameMap :=
  if m.any (fun e => e.1 == appid) then
    m.map (fun e => if e.1 == appid then (appid, game) else e)
  else m ++ [(appid, game)]

/-- Encoding an `objects.XMLGameMap`: an object whose member names are the
keys in decimal. -/
def encodeGameMap (m : XMLGameMap) : JSONValue :=
  JSONValue.object (m.map (fun e => (formatInt e.1, encodeProfileGame e.2)))

/-- Decoding the members of an object into an `objects.XMLGameMap`. -/
def decodeGameMapInto : List (String × JSONValue) → XMLGameMap → Option XMLGameMap
  | [], m => some m
  | (k, v) :: rest, m =>
    match atoi k, decodeProfileGame v with
    | some appid, some game => decodeGameMapInto rest (XMLGameMap.insert m appid game)
    | _, _ => none

/-- Decoding into a fresh `objects.XMLGameMap`. -/
def decodeGameMap : JSONValue → Option XMLGameMap
  | JSONValue.null => some []
  | JSONValue.object ms => decodeGameMapInto ms []
  | _ => none

/-- The members of an encoded `objects.XMLProfile`, by the tags of the record:
`XMLName` is tagged `-` and left out; `MemberSince` and `Updated` have no tag
and go by their names. -/
def profileMembers (p : XMLProfile) : List (String × JSONValue) :=
    [("steamID", JSONValue.string p.SteamID),
     ("steamID64", JSONValue.number p.SteamID64),
     ("customURL", JSONValue.string p.CustomURL),
     ("stateMessage", JSONValue.string p.Status),
     ("privacyState", JSONValue.string p.Privacy),
     ("visibilityState", JSONValue.number p.PrivacyState),
     ("vacBanned", JSONValue.bool p.VACStatus),
     ("tradeBanState", JSONValue.string p.TradeBan),
     ("isLimitedAccount", JSONValue.bool p.IsLimited),
     ("memberSince", JSONValue.string p.MemberSinceString),
     ("location", JSONValue.string p.Location),
     ("MemberSince", JSONValue.time p.MemberSince),
     ("games", encodeGameMap p.Games),
     ("Updated", JSONValue.time p.Updated)]

/-- Encoding an `objects.XMLProfile`. -/
def encodeProfile (p : XMLProfile) : JSONValue := JSONValue.object (profileMembers p)

/-- The first half of decoding an `objects.XMLProfile`. -/
def decodeProfileHead (ms : List (String × JSONValue)) (p : XMLProfile) : Option XMLProfile :=
  match decodeString (member ms "steamID"), decodeInt (member ms "steamID64"),
    decodeString (member ms "customURL"), decodeString (member ms "stateMessage"),
    decodeString (member ms "privacyState"), decodeInt (member ms "visibilityState"),
    decodeBool (member ms "vacBanned") with
  | some a, some b, some c, some d, some e, some f, some h =>
    some { p with SteamID := a, SteamID64 := b, CustomURL := c, Status := d, Privacy := e,
                  PrivacyState := f, VACStatus := h }
  | _, _, _, _, _, _, _ => none

/-- The second half of decoding an `objects.XMLProfile`. -/
def decodeProfileTail (ms : List (String × JSONValue)) (p : XMLProfile) : Option XMLProfile :=
  match decodeString (member ms "tradeBanState"), decodeBool (member ms "isLimitedAccount"),
    decodeString (member ms "memberSince"), decodeString (member ms "location"),
    decodeTime (member ms "MemberSince"), decodeGameMap (member ms "games"),
    decodeTime (member ms "Updated") with
  | some a, some b, some c, some d, some e, some f, some h =>
    some { p with TradeBan := a, IsLimited := b, MemberSinceString := c, Location := d,
                  MemberSince := e, Games := f, Updated := h }
  | _, _, _, _, _, _, _ => none

/-- Decoding into a fresh `objects.XMLProfile`. -/
def decodeProfile : JSONValue → Option XMLProfile
  | JSONValue.object ms =>
    match decodeProfileHead ms {} with
    | none => none
    | some p => decodeProfileTail ms p
  | _ => none

/-- Encoding a `GameCache`: an object whose member names are the keys in
decimal. -/
def encodeGameCache (g : GameCache) : JSONValue :=
  JSONValue.object (g.map (fun e => (formatInt e.1, encodeGame e.2)))

/-- Decoding the members of an object into the `GameCache` `g`: each member is
decoded into a fresh record and assigned to its key. -/
def decodeGameCacheInto : List (String × JSONValue) → GameCache → Option GameCache
  | [], g => some g
  | (k, v) :: rest, g =>
    match atoi k, decodeGame v with
    | some appid, some game => decodeGameCacheInto rest (GameCache.Add g appid game)
    | _, _ => none

/-- Encoding a `Cache`: the members `games` and `profiles`. -/
def encodeCache (c : Cache) : JSONValue :=
  JSONValue.object
    [("games", encodeGameCache c.Games),
     ("profiles", JSONValue.array (c.Profiles.map encodeProfile))]

/-- A day, as a duration. -/
def day : Int := hour * 24

/-- The method `Time.MarshalJSON` yields a text: the year of the instant is
one of 0 to 9999.  Year 0, a leap year, begins 366 days before the zero
`time.Time`, and year 10000 begins 3652059 days after it. -/
def marshalTimeOK (t : Int) : Bool :=
  decide (-(366 * day) ≤ t) && decide (t < 3652059 * day)

/-- Every `time.Time` of the cache can be encoded: the member `Updated` of
every game record and the members `MemberSince` and `Updated` of every
profile. -/
def Cache.marshalable (c : Cache) : Bool :=
  c.Games.all (fun e => marshalTimeOK e.2.Updated) &&
    c.Profiles.all (fun p => marshalTimeOK p.MemberSince && marshalTimeOK p.Updated)

/-- The method `Cache.Save`, when the cache file can be opened and written: the
content of the file afterwards.  `none` when `json.MarshalIndent` fails, which
it does when a `time.Time` of the cache cannot be encoded: `Save` then returns
the error, after it has truncated the file. -/
def Cache.Save (c : Cache) : Option JSONValue :=
  if c.marshalable then some (encodeCache c) else none

/-- The member `games` read into the game cache `g`: absent it leaves `g`,
`null` makes the map nil, an object is decoded into `g`. -/
def loadGames (g : GameCache) : Option JSONValue → Option GameCache
  | none => some g
  | some JSONValue.null => some []
  | some (JSONValue.object ms) => decodeGameCacheInto ms g
  | some _ => none

/-- The member `profiles` read into the profile cache `p`: absent it leaves
`p`, otherwise the slice is replaced by what is decoded. -/
def loadProfiles (p : ProfileCache) : Option JSONValue → Option ProfileCache
  | none => some p
  | some v => decodeSlice decodeProfile v

/-- The method `Cache.Load` on the cache `c` for the content `file` of the
cache file: the cache afterwards, `none` when `json.Unmarshal` fails, on which
`Load` panics. -/
def Cache.Load (c : Cache) (file : JSONValue) : Option Cache :=
  match file with
  | JSONValue.null => some c
  | JSONValue.object ms =>
    match loadGames c.Games (ms.lookup "games"), loadProfiles c.Profiles (ms.lookup "profiles") with
    | some g, some p => some ⟨g, p⟩
    | _, _ => none
  | _ => none

/-- What the cache file keeps of a `RequiredAgeDummy`: a number, be it a Go
`int` or a `float64`, comes back as the `float64` nearest to it. -/
def persistedAge : AgeDummy → AgeDummy
  | AgeDummy.int n => AgeDummy.float (float64OfInt n)
  | AgeDummy.float n => AgeDummy.float (float64OfInt n)
  | a => a

/-- What the cache file keeps of a game record: every member, the dynamic
value of `RequiredAgeDummy` as `persistedAge` gives it. -/
def persistedGame (g : JSONGame) : JSONGame :=
  { g with RequiredAgeDummy := persistedAge g.RequiredAgeDummy }

/-- What the cache file keeps of an ownership entry: the name, the ID and the
total playtime. -/
def persistedProfileGame (g : XMLProfileGame) : XMLProfileGame :=
  { Name := g.Name, AppID := g.AppID, PlaytimeTotal := g.PlaytimeTotal }

/-- What the cache file keeps of a profile: all but `XMLName`, and of every
ownership entry what `persistedProfileGame` keeps. -/
def persistedProfile (p : XMLProfile) : XMLProfile :=
  { p with XMLName := {}, Games := p.Games.map (fun e => (e.1, persistedProfileGame e.2)) }

/-- What the cache file keeps of a cache. -/
def persistedCache (c : Cache) : Cache :=
  ⟨c.Games.map (fun e => (e.1, persistedGame e.2)), c.Profiles.map persistedProfile⟩

/-- A key or ID is a Go `int`. -/
def isGoInt (n : Int) : Prop := minInt ≤ n ∧ n ≤ maxInt

/-- Every map of the cache has pairwise distinct keys, all of them Go
`int`s. -/
def Cache.wellFormed (c : Cache) : Prop :=
  (GameCache.keys c.Games).Nodup ∧ (∀ k ∈ GameCache.keys c.Games, isGoInt k) ∧
    ∀ p ∈ c.Profiles, (p.Games.map Prod.fst).Nodup ∧ ∀ k ∈ p.Games.map Prod.fst, isGoInt k

/-- A cache of one game and one profile; the ownership entry of the profile
carries a store link and a playtime of the last two weeks. -/
def linkedCache : Cache :=
  { Games := [(42, { AppID := 42, Name := "Foo", Tags := some ["Action"], Updated := 100 })],
    Profiles := [{ SteamID64 := 1, SteamID := "one", Updated := 100,
                   Games := [(42, { Name := "Foo", AppID := 42, LinkStore := "https://store/42",
                                    PlaytimeTwoWeeks := "1.5", PlaytimeTotal := "20" })] }] }

/-- A cache of one game record whose `RequiredAgeDummy` holds the Go `int`
18. -/
def intAgeCache : Cache :=
  { Games := [(42, { AppID := 42, RequiredAgeDummy := AgeDummy.int 18, Updated := 100 })],
    Profiles := [] }

/-- A cache of one game record last updated at the first instant of the year
10000. -/
def lateCache : Cache :=
  { Games := [(42, { AppID := 42, Updated := 3652059 * day })], Profiles := [] }

/-- The game cache the run of `UpdateGameCache` on `tenAggregator` leaves when
the detail service answers the request for game 10 with the record of ID 20:
that record under the keys 20 and 10. -/
def mismatchCache : GameCache :=
  ((Aggregator.UpdateGameCache redirectingEnv 2 tenAggregator).map (fun res => res.Games)).getD []

/-- The end of the body of the loop of `UpdateGameCache` over `nextIDs`: the
completed record `d` is stored under its own ID, and under the requested ID
`vi` when that differs, and both IDs leave the want-set. -/
def storeRecord (st : UpdateState) (d : JSONGame) (vi : Int) : UpdateState :=
  let games := GameCache.Add st.Games d.AppID d
  let st1 : UpdateState :=
    if d.AppID != vi then ⟨GameCache.Add games vi d, IDSet.delete st.gameIDs vi⟩
    else ⟨games, st.gameIDs⟩
  ⟨st1.Games, IDSet.delete st1.gameIDs d.AppID⟩

/-- The detail service answers every request, with an entry for every
requested ID and a record in every entry it marks successful. -/
def answersEveryID (fetch : List String → Except String DetailResponse) : Prop :=
  ∀ ids, ∃ obj, fetch ids = Except.ok obj ∧
    ∀ v ∈ ids, ∃ entry, obj.lookup v = some entry ∧
      (entry.Success = true → entry.Data ≠ none)

/-- A case table that lowers `É` (U+00C9) to `é` (U+00E9) and keeps every
other rune. -/
def accentCaseTable : Char → Char :=
  fun r => if r = Char.ofNat 201 then Char.ofNat 233 else r

/-- A profile cache whose one profile has the vanity name `Émile`. -/
def accentProfileCache : ProfileCache :=
  [{ SteamID64 := 5, CustomURL := "Émile", Updated := 100 }]

/-! # Theorems -/

/-! ## sets of IDs: membership and multiplicity -/

theorem IDSet.mem_insert (s : IDSet) (id x : Int) :
    x ∈ IDSet.insert s id ↔ x ∈ s ∨ x = id := by
  unfold IDSet.insert
  split
  · constructor
    · intro h; exact Or.inl h
    · rintro (h | h)
      · exact h
      · subst h; assumption
  · simp

theorem IDSet.nodup_insert (s : IDSet) (id : Int) (h : s.Nodup) :
    (IDSet.insert s id).Nodup := by
  unfold IDSet.insert
  split
  · exact h
  · rename_i hn
    rw [List.nodup_append]
    refine ⟨h, List.nodup_singleton id, ?_⟩
    intro a ha hb
    simp at hb
    subst hb
    exact hn ha

theorem IDSet.mem_delete (s : IDSet) (id x : Int) :
    x ∈ IDSet.delete s id ↔ x ∈ s ∧ x ≠ id := by
  simp [IDSet.delete]

theorem IDSet.mem_foldl_insert (l : List Int) (acc : IDSet) (x : Int) :
    x ∈ l.foldl IDSet.insert acc ↔ x ∈ acc ∨ x ∈ l := by
  induction l generalizing acc with
  | nil => simp
  | cons a l ih =>
    rw [List.foldl_cons, ih, IDSet.mem_insert]
    simp only [List.mem_cons]
    tauto

theorem IDSet.nodup_foldl_insert (l : List Int) (acc : IDSet) (h : acc.Nodup) :
    (l.foldl IDSet.insert acc).Nodup := by
  induction l generalizing acc with
  | nil => exact h
  | cons a l ih => exact ih _ (IDSet.nodup_insert acc a h)

theorem mem_mkAppIDMap (appids : List Int) (x : Int) :
    x ∈ mkAppIDMap appids ↔ x ∈ appids := by
  simp [mkAppIDMap, IDSet.mem_foldl_insert]

theorem mkAppIDMap_eq_nil (appids : List Int) :
    mkAppIDMap appids = [] ↔ appids = [] := by
  constructor
  · intro h
    cases appids with
    | nil => rfl
    | cons a l =>
      have : a ∈ mkAppIDMap (a :: l) := (mem_mkAppIDMap _ _).2 (List.mem_cons_self a l)
      rw [h] at this
      cases this
  · intro h; subst h; rfl


/-! ## GameCache.Select in closed form -/

theorem selectTagLoop_eq (wantedTag : String) (game : JSONGame) (and invalid : Bool)
    (ts : List String) (st : SelectState) :
    selectTagLoop caseTable wantedTag game and invalid ts st =
      if validityOK invalid game &&
          ts.any (fun tag => toLower caseTable tag == toLower caseTable wantedTag) then
        (if !and then ⟨st.appIDMap.delete game.AppID, st.ret ++ [game]⟩ else st, true)
      else (st, false) := by
  induction ts with
  | nil => simp [selectTagLoop]
  | cons t ts ih =>
    unfold selectTagLoop
    by_cases h1 : (toLower caseTable t == toLower caseTable wantedTag) = true
    · by_cases h2 : validityOK invalid game = true
      · cases and <;> simp [h1, h2]
      · simp only [Bool.not_eq_true] at h2
        rw [ih]; simp [h1, h2]
    · simp only [Bool.not_eq_true] at h1
      rw [ih]; simp [h1]

theorem selectWantedLoop_or (game : JSONGame) (invalid : Bool)
    (tags : List String) (st : SelectState) :
    selectWantedLoop caseTable game false invalid tags st false =
      if validityOK invalid game && tags.any (hasTag caseTable game) then
        (⟨st.appIDMap.delete game.AppID, st.ret ++ [game]⟩, true)
      else (st, false) := by
  induction tags with
  | nil => simp [selectWantedLoop]
  | cons w ws ih =>
    unfold selectWantedLoop
    simp only [selectTagLoop_eq]
    by_cases h : (validityOK invalid game &&
        game.tagList.any (fun tag => toLower caseTable tag == toLower caseTable w)) = true
    · have h' := h
      simp only [Bool.and_eq_true] at h'
      simp [h, hasTag, h'.1, h'.2]
    · simp only [Bool.not_eq_true] at h
      simp only [h]
      simp only [Bool.false_eq_true, if_false, Bool.false_and, Bool.not_false, Bool.true_and,
        Bool.or_false]
      rw [ih]
      rcases Bool.and_eq_false_iff.1 h with h' | h'
      · simp [h']
      · simp [hasTag, h']

theorem selectWantedLoop_and (game : JSONGame) (invalid : Bool)
    (tags : List String) (st : SelectState) (done : Bool) :
    selectWantedLoop caseTable game true invalid tags st done =
      (st, if tags.isEmpty then done
        else validityOK invalid game && tags.all (hasTag caseTable game)) := by
  induction tags generalizing done with
  | nil => simp [selectWantedLoop]
  | cons w ws ih =>
    unfold selectWantedLoop
    simp only [selectTagLoop_eq]
    by_cases h : (validityOK invalid game &&
        game.tagList.any (fun tag => toLower caseTable tag == toLower caseTable w)) = true
    · have h' := h
      simp only [Bool.and_eq_true] at h'
      simp only [h]
      simp only [if_true, Bool.not_true, Bool.false_eq_true, if_false, Bool.and_false,
        Bool.or_false, Bool.false_and]
      rw [ih]
      cases ws with
      | nil => simp [hasTag, h'.1, h'.2]
      | cons v vs => simp [hasTag, h'.1, h'.2]
    · simp only [Bool.not_eq_true] at h
      simp only [h]
      rcases Bool.and_eq_false_iff.1 h with h' | h'
      · simp [h']
      · simp [hasTag, h']

theorem selectStep_eq (tags : List String) (and invalid : Bool)
    (st : SelectState) (game : JSONGame) :
    selectStep caseTable tags and invalid st game =
      if st.appIDMap.length > 0 && !(st.appIDMap.contains game.AppID) then st
      else if tags.isEmpty then
        (if validityOK invalid game then ⟨st.appIDMap, st.ret ++ [game]⟩ else st)
      else if validityOK invalid game && tagsOK caseTable tags and game then
        ⟨st.appIDMap.delete game.AppID, st.ret ++ [game]⟩
      else st := by
  unfold selectStep
  split
  · rfl
  · cases tags with
    | nil =>
      cases hv : validityOK invalid game <;> cases and <;> simp [selectWantedLoop]
    | cons w ws =>
      cases and
      · simp only [selectWantedLoop_or, tagsOK, List.isEmpty_cons, Bool.false_and,
          Bool.false_eq_true, if_false]
        by_cases hP : (validityOK invalid game && (w :: ws).any (hasTag caseTable game)) = true
        · rw [if_pos hP, if_pos hP]
        · rw [if_neg hP, if_neg hP]
      · simp only [selectWantedLoop_and, tagsOK, List.isEmpty_cons, Bool.false_and,
          Bool.false_eq_true, if_false, Bool.true_and, if_true]


/-! ## GameCache.Select: the loop over the games -/

theorem selectStep_appIDMap_nil (tags : List String) (and invalid : Bool)
    (ret : JSONGameList) (game : JSONGame) :
    (selectStep caseTable tags and invalid ⟨[], ret⟩ game).appIDMap = [] := by
  rw [selectStep_eq]
  simp only [List.length_nil, gt_iff_lt, lt_self_iff_false, decide_False, Bool.false_and,
    Bool.false_eq_true, if_false]
  split
  · split <;> rfl
  · split <;> rfl

theorem select_foldl_no_tags (and invalid : Bool) (l : List JSONGame) (st : SelectState) :
    l.foldl (selectStep caseTable [] and invalid) st =
      ⟨st.appIDMap, st.ret ++ l.filter (fun game =>
        !(decide (st.appIDMap.length > 0) && !(st.appIDMap.contains game.AppID))
          && validityOK invalid game)⟩ := by
  induction l generalizing st with
  | nil => simp
  | cons a l ih =>
    rw [List.foldl_cons]
    have hstep : selectStep caseTable [] and invalid st a =
        ⟨st.appIDMap, if (!(decide (st.appIDMap.length > 0) && !(st.appIDMap.contains a.AppID))
          && validityOK invalid a) = true then st.ret ++ [a] else st.ret⟩ := by
      rw [selectStep_eq]
      cases h1 : (decide (st.appIDMap.length > 0) && !(st.appIDMap.contains a.AppID)) <;>
        cases h2 : validityOK invalid a <;> simp
    rw [hstep, ih]
    simp only [List.filter_cons]
    split <;> simp

theorem select_foldl_no_filter (tags : List String) (and invalid : Bool)
    (l : List JSONGame) (ret : JSONGameList) :
    l.foldl (selectStep caseTable tags and invalid) ⟨[], ret⟩ =
      ⟨[], ret ++ l.filter (fun game =>
        validityOK invalid game && (tags.isEmpty || tagsOK caseTable tags and game))⟩ := by
  induction l generalizing ret with
  | nil => simp
  | cons a l ih =>
    rw [List.foldl_cons]
    have hstep : selectStep caseTable tags and invalid ⟨[], ret⟩ a =
        ⟨[], if validityOK invalid a && (tags.isEmpty || tagsOK caseTable tags and a)
          then ret ++ [a]
          else ret⟩ := by
      rw [selectStep_eq]
      cases hv : validityOK invalid a <;> cases ht : tags.isEmpty <;>
        cases hk : tagsOK caseTable tags and a <;> simp [IDSet.delete]
    rw [hstep, ih]
    by_cases h : (validityOK invalid a && (tags.isEmpty || tagsOK caseTable tags and a)) = true
    · simp [h, List.filter_cons]
    · simp [h, List.filter_cons]

theorem selectStep_ret (tags : List String) (and invalid : Bool)
    (st : SelectState) (game : JSONGame) :
    (selectStep caseTable tags and invalid st game).ret = st.ret ∨
      ((selectStep caseTable tags and invalid st game).ret = st.ret ++ [game] ∧
        validityOK invalid game = true ∧
          (tags.isEmpty = true ∨ tagsOK caseTable tags and game = true)) := by
  rw [selectStep_eq]
  split
  · exact Or.inl rfl
  · split
    · rename_i ht
      split
      · rename_i hv; exact Or.inr ⟨rfl, hv, Or.inl ht⟩
      · exact Or.inl rfl
    · split
      · rename_i hv
        simp only [Bool.and_eq_true] at hv
        exact Or.inr ⟨rfl, hv.1, Or.inr hv.2⟩
      · exact Or.inl rfl

theorem select_foldl_mem (tags : List String) (and invalid : Bool)
    (l : List JSONGame) (st : SelectState) (r : JSONGame)
    (h : r ∈ (l.foldl (selectStep caseTable tags and invalid) st).ret) :
    r ∈ st.ret ∨ (r ∈ l ∧ validityOK invalid r = true ∧
      (tags.isEmpty = true ∨ tagsOK caseTable tags and r = true)) := by
  induction l generalizing st with
  | nil => exact Or.inl h
  | cons a l ih =>
    rw [List.foldl_cons] at h
    rcases ih _ h with h1 | ⟨h1, h2⟩
    · rcases selectStep_ret caseTable tags and invalid st a with e | ⟨e, hv, ht⟩
      · rw [e] at h1; exact Or.inl h1
      · rw [e, List.mem_append, List.mem_singleton] at h1
        rcases h1 with h1 | h1
        · exact Or.inl h1
        · subst h1
          exact Or.inr ⟨List.mem_cons_self _ _, hv, ht⟩
    · exact Or.inr ⟨List.mem_cons_of_mem _ h1, h2⟩

theorem validityOK_iff (invalid : Bool) (game : JSONGame) :
    validityOK invalid game = true ↔ (invalid = true ∨ game.Invalid = false) := by
  cases invalid <;> cases h : game.Invalid <;> simp [validityOK, h]

/-! ## C7, C6: Select without tags, and the validity filter -/

/-- C7: with no tags, `GameCache.Select` returns exactly the stored records
that pass the ID restriction (all of them when `appids` is empty, otherwise the
ones whose `AppID` is in `appids`) and the validity test (all of them when
`invalid` is set, otherwise the ones whose `Invalid` flag is clear), one per
stored entry.  `Select` is a total function with no error result, and an ID of
`appids` that no stored record carries is the ID of no returned record. -/
theorem select_no_tags (g : GameCache) (appids : List Int) (and invalid : Bool) :
    g.Select caseTable [] appids and invalid =
        g.values.filter (fun game =>
          (appids.isEmpty || appids.contains game.AppID) && (invalid || !game.Invalid)) ∧
      (∀ id ∈ appids, (∀ e ∈ g, e.2.AppID ≠ id) →
        ∀ r ∈ g.Select caseTable [] appids and invalid, r.AppID ≠ id) := by
  have heq : g.Select caseTable [] appids and invalid =
      g.values.filter (fun game =>
        (appids.isEmpty || appids.contains game.AppID) && (invalid || !game.Invalid)) := by
    unfold GameCache.Select
    rw [select_foldl_no_tags]
    simp only [List.nil_append]
    apply List.filter_congr
    intro game _
    have hv : validityOK invalid game = (invalid || !game.Invalid) := by
      cases invalid <;> simp [validityOK]
    rw [hv]
    congr 1
    cases appids with
    | nil => simp [mkAppIDMap]
    | cons a l =>
      have hne : mkAppIDMap (a :: l) ≠ [] := fun h => by
        have := (mkAppIDMap_eq_nil (a :: l)).1 h
        cases this
      have hlen : 0 < (mkAppIDMap (a :: l)).length := List.length_pos.2 hne
      have hmem := mem_mkAppIDMap (a :: l) game.AppID
      by_cases hin : game.AppID ∈ a :: l
      · have hin' := hmem.2 hin
        simp [hlen, hin, hin']
      · have hin' : game.AppID ∉ mkAppIDMap (a :: l) := fun h => hin (hmem.1 h)
        simp only [List.mem_cons, not_or] at hin
        simp [hlen, hin, hin']
  refine ⟨heq, ?_⟩
  intro id _ habs r hr hid
  rw [heq, List.mem_filter] at hr
  obtain ⟨e, he, rfl⟩ := List.mem_map.1 hr.1
  exact habs e he hid

/-- C6: whatever the tags, the ID filter and the AND/OR mode, every record
`GameCache.Select` returns passes the validity test
`invalid || (!invalid && !game.Invalid)`; with `invalid = false` no returned
record has its `Invalid` flag set. -/
theorem select_validity (g : GameCache) (tags : List String) (appids : List Int)
    (and : Bool) :
    (∀ r ∈ g.Select caseTable tags appids and false, r.Invalid = false) ∧
      (∀ invalid : Bool, ∀ r ∈ g.Select caseTable tags appids and invalid,
        invalid = true ∨ r.Invalid = false) := by
  have key : ∀ invalid : Bool, ∀ r ∈ g.Select caseTable tags appids and invalid,
      invalid = true ∨ r.Invalid = false := by
    intro invalid r hr
    unfold GameCache.Select at hr
    rcases select_foldl_mem caseTable tags and invalid _ _ r hr with h | ⟨_, hv, _⟩
    · cases h
    · exact (validityOK_iff invalid r).1 hv
  refine ⟨?_, key⟩
  intro r hr
  rcases key false r hr with h | h
  · cases h
  · exact h

/-! ## gameMatcher.All -/

theorem mem_all_foldl (m : gameMatcher) (acc : IDSet) (x : Int) :
    x ∈ m.foldl (fun games section_ => section_.foldl IDSet.insert games) acc ↔
      x ∈ acc ∨ ∃ s ∈ m, x ∈ s := by
  induction m generalizing acc with
  | nil => simp
  | cons s m ih =>
    rw [List.foldl_cons, ih, IDSet.mem_foldl_insert]
    simp only [List.mem_cons, exists_eq_or_imp]
    tauto

theorem nodup_all_foldl (m : gameMatcher) (acc : IDSet) (h : acc.Nodup) :
    (m.foldl (fun games section_ => section_.foldl IDSet.insert games) acc).Nodup := by
  induction m generalizing acc with
  | nil => exact h
  | cons s m ih => exact ih _ (IDSet.nodup_foldl_insert s acc h)

theorem mem_All (m : gameMatcher) (x : Int) :
    x ∈ gameMatcher.All m ↔ ∃ s ∈ m, x ∈ s := by
  simp [gameMatcher.All, mem_all_foldl]

theorem nodup_All (m : gameMatcher) : (gameMatcher.All m).Nodup :=
  nodup_all_foldl m [] List.nodup_nil

theorem mem_ownedIDs (c : Client) (x : Int) :
    x ∈ ownedIDs c ↔ ∃ e ∈ c.Profile.Games, e.2.AppID = x := by
  unfold ownedIDs
  have aux : ∀ (l : XMLGameMap) (acc : IDSet),
      x ∈ l.foldl (fun games g => IDSet.insert games g.2.AppID) acc ↔
        x ∈ acc ∨ ∃ e ∈ l, e.2.AppID = x := by
    intro l
    induction l with
    | nil => simp
    | cons a l ih =>
      intro acc
      rw [List.foldl_cons, ih, IDSet.mem_insert]
      simp only [List.mem_cons, exists_eq_or_imp]
      constructor
      · rintro ((h | h) | h)
        · exact Or.inl h
        · exact Or.inr (Or.inl h.symm)
        · exact Or.inr (Or.inr h)
      · rintro (h | h | h)
        · exact Or.inl (Or.inl h)
        · exact Or.inl (Or.inr h.symm)
        · exact Or.inr h
  simpa using aux c.Profile.Games []

/-- C3: `gameMatcher.All` returns each ID at most once, and an ID is returned
exactly when at least one section holds it (the union).  With `common = false`
the result of `All` on the owned-ID sets of the clients is the list of IDs
`Aggregator.Select` passes to `GameCache.Select`; for the owned sets
`{1,2,3}` and `{2,3,4}` it is `1, 2, 3, 4`. -/
theorem All_is_union (m : gameMatcher) :
    (gameMatcher.All m).Nodup ∧
      (∀ x, x ∈ gameMatcher.All m ↔ ∃ s ∈ m, x ∈ s) ∧
      (∀ (a : Aggregator) (tags : List String) (and invalid : Bool),
        a.Select caseTable tags false and invalid =
          a.Cache.Games.Select caseTable tags
            (gameMatcher.All (a.Clients.map (fun c => ownedIDs c.2))) and invalid) ∧
      gameMatcher.All (mkMatcher exampleClients) = [1, 2, 3, 4] :=
  ⟨nodup_All m, mem_All m, fun _ _ _ _ => rfl, by decide⟩

/-! ## gameMatcher.Common -/

theorem sectionAt_modify_delete (m : gameMatcher) (i j : Nat) (x : Int) :
    sectionAt (m.modify (fun s => IDSet.delete s x) i) j =
      if j = i then IDSet.delete (sectionAt m j) x else sectionAt m j := by
  unfold sectionAt
  simp only [List.getD_eq_getElem?_getD, List.getElem?_modify]
  by_cases h : i = j
  · subst h
    cases hm : m[i]? <;> simp [IDSet.delete]
  · have h' : ¬ j = i := fun e => h e.symm
    simp [h, h']

theorem inAllSections_iff (m : gameMatcher) (x : Int) :
    inAllSections m x = true ↔ ∀ s ∈ m, x ∈ s := by
  simp [inAllSections]

theorem mem_iff_sectionAt (m : gameMatcher) (s : IDSet) :
    s ∈ m ↔ ∃ j, j < m.length ∧ sectionAt m j = s := by
  unfold sectionAt
  constructor
  · intro h
    obtain ⟨j, hj, rfl⟩ := List.getElem_of_mem h
    exact ⟨j, hj, by simp [List.getD_eq_getElem?_getD, List.getElem?_eq_getElem hj]⟩
  · rintro ⟨j, hj, rfl⟩
    simp [List.getD_eq_getElem?_getD, List.getElem?_eq_getElem hj]

theorem CommonInv.inAll {m0 m : gameMatcher} (h : CommonInv m0 m) (x : Int) :
    inAllSections m x = true ↔ ∀ s ∈ m0, x ∈ s := by
  rw [inAllSections_iff]
  constructor
  · intro hx s hs
    obtain ⟨j, hj, rfl⟩ := (mem_iff_sectionAt m0 s).1 hs
    apply (h.2 j x).1
    apply hx
    exact (mem_iff_sectionAt m _).2 ⟨j, h.1 ▸ hj, rfl⟩
  · intro hx s hs
    obtain ⟨j, hj, rfl⟩ := (mem_iff_sectionAt m s).1 hs
    exact (h.2 j x).2 hx (h.1 ▸ hj)

theorem commonStep_spec {m0 m : gameMatcher} (h : CommonInv m0 m) (i : Nat) (a : Int) :
    CommonInv m0 (commonStep i m a) ∧
      (∀ j x, x ∈ sectionAt (commonStep i m a) j → x ∈ sectionAt m j) ∧
      (∀ x ∈ sectionAt (commonStep i m a) i, x = a → ∀ s ∈ m0, x ∈ s) := by
  unfold commonStep
  by_cases hc : (m.getD i []).contains a = true
  · by_cases hin : inAllSections m a = true
    · simp only [hc, hin, if_true, Bool.not_true, Bool.false_eq_true, if_false]
      refine ⟨h, fun _ _ hx => hx, ?_⟩
      intro x _ hxa
      subst hxa
      exact (h.inAll x).1 hin
    · have hnot : ¬ ∀ s ∈ m0, a ∈ s := fun hh => hin ((h.inAll a).2 hh)
      simp only [Bool.not_eq_true] at hin
      simp only [hc, hin, if_true, Bool.not_false]
      refine ⟨⟨?_, ?_⟩, ?_, ?_⟩
      · simp [h.1]
      · intro j x
        rw [sectionAt_modify_delete]
        constructor
        · intro hx
          apply (h.2 j x).1
          split at hx
          · exact ((IDSet.mem_delete _ _ _).1 hx).1
          · exact hx
        · intro hI hj
          have hx := (h.2 j x).2 hI hj
          split
          · refine (IDSet.mem_delete _ _ _).2 ⟨hx, ?_⟩
            intro e
            subst e
            exact hnot hI
          · exact hx
      · intro j x hx
        rw [sectionAt_modify_delete] at hx
        split at hx
        · exact ((IDSet.mem_delete _ _ _).1 hx).1
        · exact hx
      · intro x hx hxa
        rw [sectionAt_modify_delete] at hx
        simp only [if_true] at hx
        exact absurd hxa ((IDSet.mem_delete _ _ _).1 hx).2
  · simp only [hc, Bool.false_eq_true, if_false]
    refine ⟨h, fun _ _ hx => hx, ?_⟩
    intro x hx hxa
    subst hxa
    exfalso
    apply hc
    simpa [sectionAt] using hx

theorem commonSection_fold_spec {m0 : gameMatcher} (i : Nat) (l : List Int) :
    ∀ m, CommonInv m0 m →
      CommonInv m0 (l.foldl (commonStep i) m) ∧
        (∀ j x, x ∈ sectionAt (l.foldl (commonStep i) m) j → x ∈ sectionAt m j) ∧
        (∀ x ∈ sectionAt (l.foldl (commonStep i) m) i, x ∈ l → ∀ s ∈ m0, x ∈ s) := by
  induction l with
  | nil =>
    intro m h
    exact ⟨h, fun _ _ hx => hx, fun _ _ hx => by cases hx⟩
  | cons a l ih =>
    intro m h
    rw [List.foldl_cons]
    obtain ⟨h1, hsub1, hdone1⟩ := commonStep_spec h i a
    obtain ⟨h2, hsub2, hdone2⟩ := ih _ h1
    refine ⟨h2, fun j x hx => hsub1 j x (hsub2 j x hx), ?_⟩
    intro x hx hmem
    rcases List.mem_cons.1 hmem with e | e
    · exact hdone1 x (hsub2 i x hx) e
    · exact hdone2 x hx e

theorem commonSection_spec {m0 m : gameMatcher} (h : CommonInv m0 m) (i : Nat) :
    CommonInv m0 (commonSection m i) ∧
      (∀ j x, x ∈ sectionAt (commonSection m i) j → x ∈ sectionAt m j) ∧
      (∀ x ∈ sectionAt (commonSection m i) i, ∀ s ∈ m0, x ∈ s) := by
  unfold commonSection
  obtain ⟨h1, hsub, hdone⟩ := commonSection_fold_spec i (m.getD i []) m h
  refine ⟨h1, hsub, ?_⟩
  intro x hx
  exact hdone x hx (hsub i x hx)

theorem commonEliminate_fold_spec {m0 : gameMatcher} (idxs : List Nat) :
    ∀ m, CommonInv m0 m →
      CommonInv m0 (idxs.foldl commonSection m) ∧
        (∀ j x, x ∈ sectionAt (idxs.foldl commonSection m) j → x ∈ sectionAt m j) ∧
        (∀ j ∈ idxs, ∀ x ∈ sectionAt (idxs.foldl commonSection m) j, ∀ s ∈ m0, x ∈ s) := by
  induction idxs with
  | nil =>
    intro m h
    exact ⟨h, fun _ _ hx => hx, fun j hj => by cases hj⟩
  | cons i idxs ih =>
    intro m h
    rw [List.foldl_cons]
    obtain ⟨h1, hsub1, hdone1⟩ := commonSection_spec h i
    obtain ⟨h2, hsub2, hdone2⟩ := ih _ h1
    refine ⟨h2, fun j x hx => hsub1 j x (hsub2 j x hx), ?_⟩
    intro j hj x hx
    rcases List.mem_cons.1 hj with e | e
    · subst e
      exact hdone1 x (hsub2 j x hx)
    · exact hdone2 j e x hx

theorem CommonInv.refl (m : gameMatcher) : CommonInv m m :=
  ⟨rfl, fun j _ => ⟨fun h => h, fun h hj =>
    h _ ((mem_iff_sectionAt m _).2 ⟨j, hj, rfl⟩)⟩⟩

/-- When the elimination loop of `Common` ends, every section holds exactly the
IDs that all sections held at the start. -/
theorem commonEliminate_spec (m : gameMatcher) :
    (commonEliminate m).length = m.length ∧
      ∀ j, j < m.length → ∀ x, x ∈ sectionAt (commonEliminate m) j ↔ ∀ s ∈ m, x ∈ s := by
  obtain ⟨h, _, hdone⟩ := commonEliminate_fold_spec (List.range m.length) m (CommonInv.refl m)
  refine ⟨h.1, ?_⟩
  intro j hj x
  constructor
  · intro hx
    exact hdone j (List.mem_range.2 hj) x hx
  · intro hx
    exact (h.2 j x).2 hx hj

theorem mem_Common (m : gameMatcher) (x : Int) :
    x ∈ gameMatcher.Common m ↔ m ≠ [] ∧ ∀ s ∈ m, x ∈ s := by
  unfold gameMatcher.Common
  rw [mem_All]
  obtain ⟨hlen, hsec⟩ := commonEliminate_spec m
  constructor
  · rintro ⟨s, hs, hx⟩
    obtain ⟨j, hj, rfl⟩ := (mem_iff_sectionAt _ s).1 hs
    rw [hlen] at hj
    refine ⟨?_, (hsec j hj x).1 hx⟩
    intro e
    subst e
    cases hj
  · rintro ⟨hne, hx⟩
    have hpos : 0 < m.length := List.length_pos.2 hne
    refine ⟨sectionAt (commonEliminate m) 0, ?_, (hsec 0 hpos x).2 hx⟩
    exact (mem_iff_sectionAt _ _).2 ⟨0, hlen ▸ hpos, rfl⟩

theorem countSets_eq_length_iff (m : gameMatcher) (x : Int) :
    countSets m x = m.length ↔ ∀ s ∈ m, x ∈ s := by
  unfold countSets
  rw [List.filter_length_eq_length]
  simp

theorem mem_CommonCounting (m : gameMatcher) (x : Int) :
    x ∈ CommonCounting m ↔ m ≠ [] ∧ ∀ s ∈ m, x ∈ s := by
  unfold CommonCounting
  rw [List.mem_filter, mem_All, beq_iff_eq, countSets_eq_length_iff]
  constructor
  · rintro ⟨⟨s, hs, _⟩, hall⟩
    exact ⟨List.ne_nil_of_mem hs, hall⟩
  · rintro ⟨hne, hall⟩
    obtain ⟨s, hs⟩ := List.exists_mem_of_ne_nil m hne
    exact ⟨⟨s, hs, hall s hs⟩, hall⟩

/-- C2, as the claim states it, fails for the empty list of sets: every ID is
contained in every set of an empty list, and `Common` returns no ID. -/
theorem Common_empty_counterexample :
    ¬ ((7 : Int) ∈ gameMatcher.Common [] ↔ ∀ s ∈ ([] : gameMatcher), (7 : Int) ∈ s) := by
  decide

/-- C2, amended: `gameMatcher.Common` returns each ID at most once; an ID is
returned exactly when the list of sets is not empty and every set holds it (so
for the empty list no ID is returned); and the IDs returned are exactly those
the counting algorithm keeps. -/
theorem Common_is_intersection (m : gameMatcher) :
    (gameMatcher.Common m).Nodup ∧
      (∀ x, x ∈ gameMatcher.Common m ↔ (m ≠ [] ∧ ∀ s ∈ m, x ∈ s)) ∧
      (∀ x, x ∈ gameMatcher.Common m ↔ x ∈ CommonCounting m) := by
  refine ⟨nodup_All _, mem_Common m, ?_⟩
  intro x
  rw [mem_Common, mem_CommonCounting]

/-- C2, amended, at the sets `{1,2,3}` and `{2,3,4}`: the IDs 2 and 3. -/
theorem Common_is_intersection_witness :
    gameMatcher.Common [[1, 2, 3], [2, 3, 4]] = [2, 3] ∧
      ∀ x, x ∈ gameMatcher.Common [[1, 2, 3], [2, 3, 4]] ↔
        (([[1, 2, 3], [2, 3, 4]] : gameMatcher) ≠ [] ∧
          ∀ s ∈ ([[1, 2, 3], [2, 3, 4]] : gameMatcher), x ∈ s) :=
  ⟨by decide, (Common_is_intersection [[1, 2, 3], [2, 3, 4]]).2.1⟩

/-- C1, as the claim states it, fails when no ID is owned by every client: for
a client owning game 1, a client owning game 2 and a cache holding game 5,
`Select` with `common = true` returns game 5, which neither client owns. -/
theorem Select_common_counterexample :
    disjointAggregator.Select plainCaseTable [] true false false = [exampleRecord 5] ∧
      ¬ (∀ r ∈ disjointAggregator.Select plainCaseTable [] true false false,
          ∀ c ∈ disjointAggregator.Clients, r.AppID ∈ ownedIDs c.2) := by
  decide

/-- With `common = true`, when no ID is owned by every registered client the
list of wanted IDs is empty and `Aggregator.Select` is `GameCache.Select`
without an ID filter. -/
theorem Select_common_unrestricted (a : Aggregator) (tags : List String)
    (and invalid : Bool) (h : ¬ ∃ x, ∀ c ∈ a.Clients, x ∈ ownedIDs c.2) :
    a.Select caseTable tags true and invalid =
      a.Cache.Games.Select caseTable tags [] and invalid := by
  have hnil : gameMatcher.Common (mkMatcher a.Clients) = [] := by
    rw [List.eq_nil_iff_forall_not_mem]
    intro x hx
    apply h
    refine ⟨x, fun c hc => ?_⟩
    exact ((mem_Common _ _).1 hx).2 _ (List.mem_map.2 ⟨c, hc, rfl⟩)
  show a.Cache.Games.Select caseTable tags (gameMatcher.Common (mkMatcher a.Clients)) and
    invalid = _
  rw [hnil]

/-- C1, amended: with `common = true`, `Aggregator.Select` hands
`GameCache.Select` as its ID filter exactly the IDs that every registered
client owns (no ID when no client is registered); and when at least one ID is
owned by every registered client, every record returned for an empty tag list
has an ID that every registered client owns. -/
theorem Select_common_restricts (a : Aggregator) (tags : List String) (and invalid : Bool)
    (h : ∃ x, ∀ c ∈ a.Clients, x ∈ ownedIDs c.2) :
    a.Select caseTable tags true and invalid =
        a.Cache.Games.Select caseTable tags (gameMatcher.Common (mkMatcher a.Clients)) and
          invalid ∧
      (∀ x, x ∈ gameMatcher.Common (mkMatcher a.Clients) ↔
        (a.Clients ≠ [] ∧ ∀ c ∈ a.Clients, x ∈ ownedIDs c.2)) ∧
      (∀ r ∈ a.Select caseTable [] true and invalid,
        ∀ c ∈ a.Clients, r.AppID ∈ ownedIDs c.2) := by
  have hmem : ∀ x, x ∈ gameMatcher.Common (mkMatcher a.Clients) ↔
      (a.Clients ≠ [] ∧ ∀ c ∈ a.Clients, x ∈ ownedIDs c.2) := by
    intro x
    rw [mem_Common]
    constructor
    · rintro ⟨hne, hall⟩
      refine ⟨fun e => hne (by rw [e]; rfl), fun c hc => ?_⟩
      exact hall _ (List.mem_map.2 ⟨c, hc, rfl⟩)
    · rintro ⟨hne, hall⟩
      refine ⟨fun e => hne (List.map_eq_nil_iff.1 e), fun s hs => ?_⟩
      obtain ⟨c, hc, rfl⟩ := List.mem_map.1 hs
      exact hall c hc
  refine ⟨rfl, hmem, ?_⟩
  intro r hr c hc
  obtain ⟨x, hx⟩ := h
  have hxc : x ∈ gameMatcher.Common (mkMatcher a.Clients) :=
    (hmem x).2 ⟨List.ne_nil_of_mem hc, hx⟩
  have hsel : a.Select caseTable [] true and invalid =
      a.Cache.Games.Select caseTable [] (gameMatcher.Common (mkMatcher a.Clients)) and
        invalid := rfl
  rw [hsel, (select_no_tags caseTable _ _ _ _).1, List.mem_filter] at hr
  have hcond := hr.2
  simp only [Bool.and_eq_true, Bool.or_eq_true, List.isEmpty_iff] at hcond
  rcases hcond.1 with he | hin
  · rw [he] at hxc
    cases hxc
  · have hin' : r.AppID ∈ gameMatcher.Common (mkMatcher a.Clients) := by
      simpa using hin
    exact ((hmem r.AppID).1 hin').2 c hc

/-- C1, amended, at the clients A and B of the specification: only the games 2
and 3 are returned. -/
theorem Select_common_restricts_witness :
    (∃ x, ∀ c ∈ exampleAggregator.Clients, x ∈ ownedIDs c.2) ∧
      exampleAggregator.Select plainCaseTable [] true false false =
        [exampleRecord 2, exampleRecord 3] ∧
      ∀ r ∈ exampleAggregator.Select plainCaseTable [] true false false,
        ∀ c ∈ exampleAggregator.Clients, r.AppID ∈ ownedIDs c.2 :=
  ⟨⟨2, by decide⟩, by decide,
    (Select_common_restricts plainCaseTable exampleAggregator [] false false
      ⟨2, by decide⟩).2.2⟩

/-! ## expiry -/

theorem timeSince_gt_iff (now t d : Int) (h0 : minDuration ≤ d) (h1 : d < maxDuration) :
    timeSince now t > d ↔ now - t > d := by
  unfold timeSince timeSub
  split
  · constructor
    · intro _; omega
    · intro _; omega
  · split
    · constructor
      · intro h; omega
      · intro h; omega
    · exact Iff.rfl

theorem gameExpired_iff (now : Int) (g : JSONGame) :
    gameExpired now g = true ↔ now - g.Updated > 30 * 24 * 3600 * 1000000000 := by
  unfold gameExpired
  rw [decide_eq_true_iff, timeSince_gt_iff now g.Updated MaxGameAge (by decide) (by decide)]
  have : MaxGameAge = 30 * 24 * 3600 * 1000000000 := by decide
  rw [this]

theorem profileExpired_iff (now : Int) (p : XMLProfile) :
    profileExpired now p = true ↔ now - p.Updated > 12 * 3600 * 1000000000 := by
  unfold profileExpired
  rw [decide_eq_true_iff, timeSince_gt_iff now p.Updated MaxProfileAge (by decide) (by decide)]
  have : MaxProfileAge = 12 * 3600 * 1000000000 := by decide
  rw [this]

/-! ## GameCache.PurgeExpired -/

theorem Get_append_cons (kept rest : GameCache) (k : Int) (r : JSONGame)
    (hk : k ∉ GameCache.keys kept) : GameCache.Get (kept ++ (k, r) :: rest) k = some r := by
  unfold GameCache.Get
  induction kept with
  | nil => simp
  | cons e kept ih =>
    have hne : e.1 ≠ k := fun h => hk (by simp [GameCache.keys, ← h])
    have hk' : k ∉ GameCache.keys kept := fun h => hk (by
      simp only [GameCache.keys, List.map_cons, List.mem_cons]
      exact Or.inr h)
    simp only [List.cons_append, List.find?_cons]
    have : (e.1 == k) = false := by simpa using hne
    rw [this]
    exact ih hk'

theorem filter_ne_of_not_mem (l : GameCache) (k : Int) (hk : k ∉ GameCache.keys l) :
    l.filter (fun e => e.1 != k) = l := by
  rw [List.filter_eq_self]
  intro e he
  have : e.1 ≠ k := fun h => hk (by
    rw [← h]
    exact List.mem_map.2 ⟨e, he, rfl⟩)
  simpa using this

theorem Delete_append_cons (kept rest : GameCache) (k : Int) (r : JSONGame)
    (hk : k ∉ GameCache.keys kept) (hr : k ∉ GameCache.keys rest) :
    GameCache.Delete (kept ++ (k, r) :: rest) k = (kept ++ rest, true) := by
  unfold GameCache.Delete
  have hany : (kept ++ (k, r) :: rest).any (fun e => e.1 == k) = true := by
    simp
  rw [if_pos hany]
  simp [List.filter_append, List.filter_cons, filter_ne_of_not_mem _ _ hk,
    filter_ne_of_not_mem _ _ hr]

theorem purgeExpired_fold (now : Int) (rest : GameCache) :
    ∀ (kept : GameCache) (n : Int), (GameCache.keys (kept ++ rest)).Nodup →
      (GameCache.keys rest).foldl (purgeExpiredStep now) (kept ++ rest, n) =
        (kept ++ rest.filter (fun e => !gameExpired now e.2),
          n + ((rest.filter (fun e => gameExpired now e.2)).length : Int)) := by
  induction rest with
  | nil => intro kept n _; simp [GameCache.keys]
  | cons e rest ih =>
    intro kept n hnd
    obtain ⟨k, r⟩ := e
    have hnd' : (GameCache.keys kept ++ k :: GameCache.keys rest).Nodup := by
      simpa [GameCache.keys] using hnd
    have hk : k ∉ GameCache.keys kept := by
      intro h
      exact (List.nodup_append.1 hnd').2.2 h (List.mem_cons_self _ _)
    have hr : k ∉ GameCache.keys rest := by
      have := (List.nodup_append.1 hnd').2.1
      exact (List.nodup_cons.1 this).1
    have hkeys : GameCache.keys ((k, r) :: rest) = k :: GameCache.keys rest := rfl
    rw [hkeys, List.foldl_cons]
    have hget := Get_append_cons kept rest k r hk
    by_cases hexp : gameExpired now r = true
    · have hstep : purgeExpiredStep now (kept ++ (k, r) :: rest, n) k =
          (kept ++ rest, n + 1) := by
        unfold purgeExpiredStep
        simp only [hget, hexp, if_true, Delete_append_cons kept rest k r hk hr]
        simp
      rw [hstep]
      have hnd2 : (GameCache.keys (kept ++ rest)).Nodup := by
        have : (GameCache.keys kept ++ GameCache.keys rest).Nodup := by
          rw [List.nodup_append] at hnd' ⊢
          refine ⟨hnd'.1, (List.nodup_cons.1 hnd'.2.1).2, ?_⟩
          intro a ha hb
          exact hnd'.2.2 ha (List.mem_cons_of_mem _ hb)
        simpa [GameCache.keys] using this
      rw [ih kept (n + 1) hnd2]
      simp [List.filter_cons, hexp]
      omega
    · have hstep : purgeExpiredStep now (kept ++ (k, r) :: rest, n) k =
          ((kept ++ [(k, r)]) ++ rest, n) := by
        unfold purgeExpiredStep
        simp only [hget, hexp]
        simp
      rw [hstep]
      have hnd2 : (GameCache.keys ((kept ++ [(k, r)]) ++ rest)).Nodup := by
        simpa using hnd
      rw [ih (kept ++ [(k, r)]) n hnd2]
      simp [List.filter_cons, hexp]

theorem Get_eq_none_of_not_mem (g : GameCache) (k : Int) (hk : k ∉ GameCache.keys g) :
    GameCache.Get g k = none := by
  unfold GameCache.Get
  rw [Option.map_eq_none', List.find?_eq_none]
  intro e he
  have : e.1 ≠ k := fun h => hk (by
    rw [← h]
    exact List.mem_map.2 ⟨e, he, rfl⟩)
  simpa using this

theorem Get_filter (g : GameCache) (p : JSONGame → Bool) (k : Int)
    (h : (GameCache.keys g).Nodup) :
    GameCache.Get (g.filter (fun e => p e.2)) k = (GameCache.Get g k).filter p := by
  induction g with
  | nil => rfl
  | cons e g ih =>
    obtain ⟨k', r⟩ := e
    have hnd : k' ∉ GameCache.keys g ∧ (GameCache.keys g).Nodup := by
      simpa [GameCache.keys] using h
    by_cases hk : k' = k
    · subst hk
      have hg : GameCache.Get ((k', r) :: g) k' = some r := by
        simp [GameCache.Get]
      rw [hg]
      by_cases hp : p r = true
      · simp [List.filter_cons, hp, GameCache.Get, Option.filter]
      · have hnot : k' ∉ GameCache.keys (g.filter (fun e => p e.2)) := by
          intro hmem
          obtain ⟨e, he, hek⟩ := List.mem_map.1 hmem
          exact hnd.1 (List.mem_map.2 ⟨e, (List.mem_filter.1 he).1, hek⟩)
        simp only [List.filter_cons, hp, Bool.false_eq_true, if_false, Option.filter]
        exact Get_eq_none_of_not_mem _ _ hnot
    · have hg : GameCache.Get ((k', r) :: g) k = GameCache.Get g k := by
        simp [GameCache.Get, List.find?_cons, hk]
      rw [hg, ← ih hnd.2]
      by_cases hp : p r = true
      · simp [List.filter_cons, hp, GameCache.Get, List.find?_cons, hk]
      · simp [List.filter_cons, hp]

/-- C8: on a map (pairwise distinct keys) `GameCache.PurgeExpired` keeps, in
place and unchanged, exactly the entries whose record was last updated at most
30 days before `now`, and removes the others; a lookup afterwards finds what it
found before unless that record was updated more than 30 days before `now`;
the returned count is the number of entries removed. -/
theorem GameCache_PurgeExpired_spec (now : Int) (g : GameCache)
    (h : (GameCache.keys g).Nodup) :
    (GameCache.PurgeExpired now g).1 =
        g.filter (fun e => !decide (now - e.2.Updated > 30 * 24 * 3600 * 1000000000)) ∧
      (∀ k, GameCache.Get (GameCache.PurgeExpired now g).1 k =
        (GameCache.Get g k).filter
          (fun r => !decide (now - r.Updated > 30 * 24 * 3600 * 1000000000))) ∧
      (GameCache.PurgeExpired now g).2 =
        ((g.filter (fun e =>
          decide (now - e.2.Updated > 30 * 24 * 3600 * 1000000000))).length : Int) ∧
      (GameCache.PurgeExpired now g).2 =
        (g.length : Int) - ((GameCache.PurgeExpired now g).1.length : Int) := by
  have hexp : ∀ r : JSONGame, gameExpired now r =
      decide (now - r.Updated > 30 * 24 * 3600 * 1000000000) := by
    intro r
    rw [Bool.eq_iff_iff, gameExpired_iff, decide_eq_true_iff]
  have hfold := purgeExpired_fold now g [] 0 (by simpa using h)
  simp only [List.nil_append, zero_add] at hfold
  have h1 : (GameCache.PurgeExpired now g).1 =
      g.filter (fun e => !decide (now - e.2.Updated > 30 * 24 * 3600 * 1000000000)) := by
    unfold GameCache.PurgeExpired
    rw [hfold]
    simp only [hexp]
  have h3 : (GameCache.PurgeExpired now g).2 =
      ((g.filter (fun e =>
        decide (now - e.2.Updated > 30 * 24 * 3600 * 1000000000))).length : Int) := by
    unfold GameCache.PurgeExpired
    rw [hfold]
    simp only [hexp]
  refine ⟨h1, ?_, h3, ?_⟩
  · intro k
    rw [h1]
    exact Get_filter g (fun r => !decide (now - r.Updated > 30 * 24 * 3600 * 1000000000)) k h
  · rw [h3, h1]
    have := List.length_eq_length_filter_add (l := g)
      (fun e => decide (now - e.2.Updated > 30 * 24 * 3600 * 1000000000))
    rw [this]
    simp

/-- C8 at a cache of three records, two of them expired. -/
theorem GameCache_PurgeExpired_spec_witness :
    (GameCache.keys exampleGameCache).Nodup ∧
      GameCache.PurgeExpired (MaxGameAge + 5) exampleGameCache =
        ([(2, { AppID := 2, Name := "Two", Updated := 10 })], 2) ∧
      (GameCache.PurgeExpired (MaxGameAge + 5) exampleGameCache).1 =
        exampleGameCache.filter
          (fun e => !decide (MaxGameAge + 5 - e.2.Updated > 30 * 24 * 3600 * 1000000000)) :=
  ⟨by decide, by decide,
    (GameCache_PurgeExpired_spec (MaxGameAge + 5) exampleGameCache (by decide)).1⟩

/-! ## ProfileCache.PurgeExpired -/

theorem firstExpired_none (now : Int) (p : ProfileCache) (i : Int) (hi : 0 ≤ i)
    (h : ∀ e ∈ p, profileExpired now e = false) : firstExpired now p i = -1 := by
  induction p generalizing i with
  | nil => rfl
  | cons e p ih =>
    unfold firstExpired
    rw [h e (List.mem_cons_self _ _)]
    simp only [Bool.false_eq_true, if_false]
    exact ih (i + 1) (by omega) (fun e' he' => h e' (List.mem_cons_of_mem _ he'))

theorem firstExpired_some (now : Int) (p : ProfileCache) (i : Int)
    (h : ∃ e ∈ p, profileExpired now e = true) :
    ∃ pre x post, p = pre ++ x :: post ∧ (∀ e ∈ pre, profileExpired now e = false) ∧
      profileExpired now x = true ∧ firstExpired now p i = i + (pre.length : Int) := by
  induction p generalizing i with
  | nil =>
    obtain ⟨e, he, _⟩ := h
    cases he
  | cons a p ih =>
    by_cases ha : profileExpired now a = true
    · refine ⟨[], a, p, rfl, ?_, ha, ?_⟩
      · intro e he
        cases he
      unfold firstExpired
      simp [ha]
    · simp only [Bool.not_eq_true] at ha
      have h' : ∃ e ∈ p, profileExpired now e = true := by
        obtain ⟨e, he, hexp⟩ := h
        rcases List.mem_cons.1 he with e1 | e1
        · subst e1
          rw [ha] at hexp
          cases hexp
        · exact ⟨e, e1, hexp⟩
      obtain ⟨pre, x, post, hp, hpre, hx, hidx⟩ := ih (i + 1) h'
      refine ⟨a :: pre, x, post, by rw [hp]; rfl, ?_, hx, ?_⟩
      · intro e he
        rcases List.mem_cons.1 he with e1 | e1
        · subst e1; exact ha
        · exact hpre e e1
      · unfold firstExpired
        rw [ha]
        simp only [Bool.false_eq_true, if_false, hidx, List.length_cons]
        push_cast
        omega

theorem removeAt_append (pre post : ProfileCache) (x : XMLProfile) :
    removeAt (pre ++ x :: post) (0 + (pre.length : Int)) = pre ++ post := by
  unfold removeAt
  simp [List.take_append_eq_append_take, List.drop_append_eq_append_drop]

theorem ProfileCache_PurgeExpired_fuel (now : Int) (fuel : Nat) :
    ∀ p : ProfileCache, p.length < fuel →
      ProfileCache.PurgeExpired now fuel p =
        some (p.filter (fun e => !profileExpired now e)) := by
  induction fuel with
  | zero => intro p h; cases h
  | succ fuel ih =>
    intro p hlen
    unfold ProfileCache.PurgeExpired
    by_cases h : ∃ e ∈ p, profileExpired now e = true
    · obtain ⟨pre, x, post, hp, hpre, hx, hidx⟩ := firstExpired_some now p 0 h
      have hne : (firstExpired now p 0 != -1) = true := by
        rw [hidx]
        simp only [bne_iff_ne, ne_eq]
        omega
      simp only [hne, if_true]
      rw [hidx, hp, removeAt_append]
      have hlen' : (pre ++ post).length < fuel := by
        rw [hp] at hlen
        simp only [List.length_append, List.length_cons] at hlen ⊢
        omega
      rw [ih _ hlen']
      simp [List.filter_append, List.filter_cons, hx]
    · have hall : ∀ e ∈ p, profileExpired now e = false := by
        intro e he
        by_contra hc
        exact h ⟨e, he, by simpa using hc⟩
      have hidx := firstExpired_none now p 0 (le_refl 0) hall
      simp only [hidx, bne_self_eq_false, Bool.false_eq_true, if_false]
      congr 1
      symm
      rw [List.filter_eq_self]
      intro e he
      simp [hall e he]

/-- C9: `ProfileCache.PurgeExpired` ends after at most one round more than the
list has entries, and whenever it is given at least that many rounds its
result is the list filtered in one pass: the profiles last updated more than
12 hours before `now` are gone, the others are kept unchanged in their order. -/
theorem ProfileCache_PurgeExpired_spec (now : Int) (p : ProfileCache) (extra : Nat) :
    ProfileCache.PurgeExpired now (p.length + 1 + extra) p =
      some (p.filter (fun e => !decide (now - e.Updated > 12 * 3600 * 1000000000))) := by
  have hexp : ∀ e : XMLProfile, profileExpired now e =
      decide (now - e.Updated > 12 * 3600 * 1000000000) := by
    intro e
    rw [Bool.eq_iff_iff, profileExpired_iff, decide_eq_true_iff]
  rw [ProfileCache_PurgeExpired_fuel now _ p (by omega)]
  simp only [hexp]

/-- C9 at a list of three profiles, the first and the last expired: three
rounds end the loop with the second profile alone, two rounds do not end it. -/
theorem ProfileCache_PurgeExpired_spec_witness :
    ProfileCache.PurgeExpired (MaxProfileAge + 5) 3 agedProfileCache =
        some [{ SteamID64 := 6, Updated := 50 }] ∧
      ProfileCache.PurgeExpired (MaxProfileAge + 5) 2 agedProfileCache = none ∧
      ProfileCache.PurgeExpired (MaxProfileAge + 5) (agedProfileCache.length + 1 + 0)
          agedProfileCache =
        some (agedProfileCache.filter
          (fun e => !decide (MaxProfileAge + 5 - e.Updated > 12 * 3600 * 1000000000))) :=
  ⟨by decide, by decide,
    ProfileCache_PurgeExpired_spec (MaxProfileAge + 5) agedProfileCache 0⟩

/-! ## ProfileCache.Add -/

theorem addLoop_eq (profile : XMLProfile) (p : ProfileCache) (updated : Bool) :
    addLoop profile p updated =
      (p.map (fun e => if e.SteamID64 == profile.SteamID64 then profile else e),
        updated || p.any (fun e => e.SteamID64 == profile.SteamID64)) := by
  induction p generalizing updated with
  | nil => simp [addLoop]
  | cons e p ih =>
    unfold addLoop
    by_cases h : (e.SteamID64 == profile.SteamID64) = true
    · have h' : e.SteamID64 = profile.SteamID64 := by simpa using h
      simp [h, h', ih]
    · have h' : ¬ e.SteamID64 = profile.SteamID64 := by simpa using h
      simp [h, h', ih]

/-- C10: for a profile last updated at most 12 hours before `now`,
`ProfileCache.Add` overwrites every entry that has the numeric identity of the
profile with the profile itself and leaves every other entry, and the length,
as they were; when no entry has that identity it appends the profile to the
unchanged list. -/
theorem ProfileCache_Add_spec (now : Int) (p : ProfileCache) (profile : XMLProfile)
    (h : now - profile.Updated ≤ 12 * 3600 * 1000000000) :
    ProfileCache.Add now p profile =
        (if p.any (fun e => e.SteamID64 == profile.SteamID64) then
          p.map (fun e => if e.SteamID64 = profile.SteamID64 then profile else e)
        else p ++ [profile]) ∧
      (p.any (fun e => e.SteamID64 == profile.SteamID64) = true →
        (ProfileCache.Add now p profile).length = p.length) := by
  have hexp : profileExpired now profile = false := by
    rw [Bool.eq_false_iff]
    intro hc
    have := (profileExpired_iff now profile).1 hc
    omega
  have hmain : ProfileCache.Add now p profile =
      (if p.any (fun e => e.SteamID64 == profile.SteamID64) then
        p.map (fun e => if e.SteamID64 = profile.SteamID64 then profile else e)
      else p ++ [profile]) := by
    unfold ProfileCache.Add
    simp only [hexp, Bool.false_eq_true, if_false, addLoop_eq, Bool.false_or]
    by_cases hany : p.any (fun e => e.SteamID64 == profile.SteamID64) = true
    · simp [hany]
    · simp only [Bool.not_eq_true] at hany
      simp only [hany, Bool.not_false, if_true, Bool.false_eq_true, if_false]
      congr 1
      have hid : ∀ e ∈ p, (if (e.SteamID64 == profile.SteamID64) = true then profile else e)
          = id e := by
        intro e he
        have := List.any_eq_false.1 hany e he
        simp [this]
      rw [List.map_congr_left hid, List.map_id]
  refine ⟨hmain, ?_⟩
  intro hany
  rw [hmain, if_pos hany, List.length_map]

/-- C10 at a cache holding the identity 5 twice: both entries become the added
profile, the entry of identity 6 and the length stay. -/
theorem ProfileCache_Add_spec_witness :
    (100 : Int) - exampleProfile.Updated ≤ 12 * 3600 * 1000000000 ∧
      ProfileCache.Add 100 exampleProfileCache exampleProfile =
        [exampleProfile, { SteamID64 := 6, SteamID := "six", Updated := 100 },
          exampleProfile] ∧
      (ProfileCache.Add 100 exampleProfileCache exampleProfile).length =
        exampleProfileCache.length :=
  ⟨by decide, by decide,
    (ProfileCache_Add_spec 100 exampleProfileCache exampleProfile (by decide)).2 (by decide)⟩

/-! ## GameCache.Select with tags -/

/-- With no ID filter and at least one tag, `Select` in OR mode returns the
stored records that pass the validity test and have a tag equal, ignoring case,
to one of the wanted tags. -/
theorem select_or_no_filter (g : GameCache) (tags : List String) (invalid : Bool)
    (h : tags ≠ []) :
    g.Select caseTable tags [] false invalid =
      g.values.filter (fun game =>
        (invalid || !game.Invalid) &&
          tags.any (fun wanted =>
            game.tagList.any (fun tag => toLower caseTable tag == toLower caseTable wanted))) := by
  unfold GameCache.Select
  have : mkAppIDMap [] = [] := rfl
  rw [this, select_foldl_no_filter]
  simp only [List.nil_append]
  apply List.filter_congr
  intro game _
  have hv : validityOK invalid game = (invalid || !game.Invalid) := by
    cases invalid <;> simp [validityOK]
  have he : tags.isEmpty = false := by
    cases tags with
    | nil => exact absurd rfl h
    | cons _ _ => rfl
  rw [hv, he]
  simp only [tagsOK, Bool.false_or, Bool.false_eq_true, if_false, if_true]
  rfl

/-- With no ID filter and at least one tag, `Select` in AND mode returns the
stored records that pass the validity test and have, for every wanted tag, a
tag equal to it when case is ignored. -/
theorem select_and_no_filter (g : GameCache) (tags : List String) (invalid : Bool)
    (h : tags ≠ []) :
    g.Select caseTable tags [] true invalid =
      g.values.filter (fun game =>
        (invalid || !game.Invalid) &&
          tags.all (fun wanted =>
            game.tagList.any (fun tag => toLower caseTable tag == toLower caseTable wanted))) := by
  unfold GameCache.Select
  have : mkAppIDMap [] = [] := rfl
  rw [this, select_foldl_no_filter]
  simp only [List.nil_append]
  apply List.filter_congr
  intro game _
  have hv : validityOK invalid game = (invalid || !game.Invalid) := by
    cases invalid <;> simp [validityOK]
  have he : tags.isEmpty = false := by
    cases tags with
    | nil => exact absurd rfl h
    | cons _ _ => rfl
  rw [hv, he]
  simp only [tagsOK, Bool.false_or, Bool.false_eq_true, if_false, if_true]
  rfl

/-- C4 fails on the code: with the ID filter `[1]` and the tag `Action` in OR
mode, `Select` returns record 2 as well when the map is visited in the order
1, 2, although 2 is not in the filter; visited in the order 2, 1 it returns
record 1 alone.  Adding record 1 deletes 1 from `appIDMap`, which is then
empty and no longer restricts. -/
theorem select_or_loses_filter :
    GameCache.Select plainCaseTable taggedCache ["Action"] [1] false false =
        [taggedRecord 1, taggedRecord 2] ∧
      (taggedRecord 2).AppID ∉ [(1 : Int)] ∧
      GameCache.Select plainCaseTable taggedCache.reverse ["Action"] [1] false false =
        [taggedRecord 1] := by
  decide

/-- C5 fails on the code: with the ID filter `[1]` and the tags `Action` and
`Indie` in AND mode, `Select` returns record 2 as well when the map is visited
in the order 1, 2, although 2 is not in the filter; visited in the order 2, 1
it returns record 1 alone. -/
theorem select_and_loses_filter :
    GameCache.Select plainCaseTable taggedCache ["Action", "Indie"] [1] true false =
        [taggedRecord 1, taggedRecord 2] ∧
      (taggedRecord 2).AppID ∉ [(1 : Int)] ∧
      GameCache.Select plainCaseTable taggedCache.reverse ["Action", "Indie"] [1] true false =
        [taggedRecord 1] := by
  decide

/-! ## ProfileCache.Add of an expired profile -/

/-- C11: for a profile last updated more than 12 hours before `now`,
`ProfileCache.Add` leaves the list exactly as it was, whatever its entries. -/
theorem ProfileCache_Add_expired (now : Int) (p : ProfileCache) (profile : XMLProfile)
    (h : now - profile.Updated > 12 * 3600 * 1000000000) :
    ProfileCache.Add now p profile = p := by
  have hexp : profileExpired now profile = true := (profileExpired_iff now profile).2 h
  unfold ProfileCache.Add
  rw [if_pos hexp]

/-- C11 at a list that holds the identity of the expired profile twice. -/
theorem ProfileCache_Add_expired_witness :
    MaxProfileAge + 1 - staleProfile.Updated > 12 * 3600 * 1000000000 ∧
      (∃ e ∈ exampleProfileCache, e.SteamID64 = staleProfile.SteamID64) ∧
      ProfileCache.Add (MaxProfileAge + 1) exampleProfileCache staleProfile =
        exampleProfileCache :=
  ⟨by decide, by decide,
    ProfileCache_Add_expired (MaxProfileAge + 1) exampleProfileCache staleProfile (by decide)⟩

/-! ## ProfileCache.Remove -/

theorem removeAllIndex_none (id : String) (p : ProfileCache) (i : Int)
    (h : ∀ e ∈ p, removeMatch id e = false) : removeAllIndex id p i = -1 := by
  induction p generalizing i with
  | nil => rfl
  | cons e p ih =>
    have he := h e (List.mem_cons_self _ _)
    simp only [removeMatch, Bool.or_eq_false_iff] at he
    unfold removeAllIndex
    rw [if_neg (by simp [he.1]), if_neg (by simpa using he.2)]
    exact ih (i + 1) (fun e' he' => h e' (List.mem_cons_of_mem _ he'))

theorem removeAllIndex_some (id : String) (p : ProfileCache) (i : Int)
    (h : ∃ e ∈ p, removeMatch id e = true) :
    ∃ pre x post, p = pre ++ x :: post ∧ (∀ e ∈ pre, removeMatch id e = false) ∧
      removeMatch id x = true ∧ removeAllIndex id p i = i + (pre.length : Int) := by
  induction p generalizing i with
  | nil =>
    obtain ⟨e, he, _⟩ := h
    cases he
  | cons a p ih =>
    by_cases ha : removeMatch id a = true
    · refine ⟨[], a, p, rfl, ?_, ha, ?_⟩
      · intro e he
        cases he
      · unfold removeAllIndex
        simp only [removeMatch, Bool.or_eq_true] at ha
        rcases ha with ha | ha
        · rw [if_pos ha]; simp
        · by_cases h1 : (formatInt a.SteamID64 == id) = true
          · rw [if_pos h1]; simp
          · rw [if_neg h1, if_pos (by simpa using ha)]; simp
    · simp only [Bool.not_eq_true] at ha
      have h' : ∃ e ∈ p, removeMatch id e = true := by
        obtain ⟨e, he, hm⟩ := h
        rcases List.mem_cons.1 he with e1 | e1
        · subst e1
          rw [ha] at hm
          cases hm
        · exact ⟨e, e1, hm⟩
      obtain ⟨pre, x, post, hp, hpre, hx, hidx⟩ := ih (i + 1) h'
      refine ⟨a :: pre, x, post, by rw [hp]; rfl, ?_, hx, ?_⟩
      · intro e he
        rcases List.mem_cons.1 he with e1 | e1
        · subst e1; exact ha
        · exact hpre e e1
      · have ha' := ha
        simp only [removeMatch, Bool.or_eq_false_iff] at ha'
        unfold removeAllIndex
        rw [if_neg (by simp [ha'.1]), if_neg (by simpa using ha'.2), hidx]
        simp only [List.length_cons]
        push_cast
        omega

theorem removeLoop_spec (id : String) (fuel : Nat) :
    ∀ (p : ProfileCache) (removed : Bool), p.length < fuel →
      removeLoop id fuel p removed =
        some (p.filter (fun e => !removeMatch id e),
          removed || p.any (removeMatch id)) := by
  induction fuel with
  | zero => intro p _ h; cases h
  | succ fuel ih =>
    intro p removed hlen
    unfold removeLoop ProfileCache.removeAll
    by_cases h : ∃ e ∈ p, removeMatch id e = true
    · obtain ⟨pre, x, post, hp, hpre, hx, hidx⟩ := removeAllIndex_some id p 0 h
      have hne : (removeAllIndex id p 0 != -1) = true := by
        rw [hidx]
        simp only [bne_iff_ne, ne_eq]
        omega
      simp only [hne, if_true]
      rw [hidx, hp, removeAt_append]
      have hlen' : (pre ++ post).length < fuel := by
        rw [hp] at hlen
        simp only [List.length_append, List.length_cons] at hlen ⊢
        omega
      rw [ih _ true hlen']
      have hany : (pre ++ x :: post).any (removeMatch id) = true := by
        simp [hx]
      simp [List.filter_append, List.filter_cons, hx, hany]
    · have hall : ∀ e ∈ p, removeMatch id e = false := by
        intro e he
        by_contra hc
        exact h ⟨e, he, by simpa using hc⟩
      have hidx := removeAllIndex_none id p 0 hall
      simp only [hidx, bne_self_eq_false, Bool.false_eq_true, if_false]
      have hf : p.filter (fun e => !removeMatch id e) = p := by
        rw [List.filter_eq_self]
        intro e he
        simp [hall e he]
      have hany : p.any (removeMatch id) = false := by
        rw [List.any_eq_false]
        intro e he
        simp [hall e he]
      rw [hf, hany, Bool.or_false]

/-- C13: `ProfileCache.Remove` ends after at most one call of `removeAll` more
than the list has entries, and whenever it is given at least that many its
result is: the list without the entries whose identity in decimal is `id` or
whose `CustomURL` is `id` exactly, the other entries unchanged and in order;
and `true` exactly when the list held such an entry. -/
theorem ProfileCache_Remove_spec (p : ProfileCache) (id : String) (extra : Nat) :
    ProfileCache.Remove (p.length + 1 + extra) p id =
      some (p.filter (fun e => !(formatInt e.SteamID64 == id || e.CustomURL == id)),
        p.any (fun e => formatInt e.SteamID64 == id || e.CustomURL == id)) := by
  unfold ProfileCache.Remove
  rw [removeLoop_spec id _ p false (by omega)]
  rfl

/-- C13 at a list of two profiles, one matched by its vanity name and one by
its identity: two calls of `removeAll` do not end the loop, three do. -/
theorem ProfileCache_Remove_spec_witness :
    ProfileCache.Remove 3 vanityProfileCache "7" = some ([], true) ∧
      ProfileCache.Remove 2 vanityProfileCache "7" = none ∧
      ProfileCache.Remove 3 vanityProfileCache "SEVEN" = some (vanityProfileCache, false) ∧
      ProfileCache.Remove (vanityProfileCache.length + 1 + 0) vanityProfileCache "7" =
        some (vanityProfileCache.filter
            (fun e => !(formatInt e.SteamID64 == "7" || e.CustomURL == "7")),
          vanityProfileCache.any (fun e => formatInt e.SteamID64 == "7" || e.CustomURL == "7")) :=
  ⟨by decide, by decide, by decide, ProfileCache_Remove_spec vanityProfileCache "7" 0⟩

/-! ## ProfileCache.Find -/

theorem findLoop_eq (id : String) (p : ProfileCache) :
    findLoop caseTable id p = p.find? (findMatch caseTable id) := by
  induction p with
  | nil => rfl
  | cons e p ih =>
    unfold findLoop
    rw [List.find?_cons]
    by_cases h1 : (formatInt e.SteamID64 == id) = true
    · simp [findMatch, h1]
    · by_cases h2 : (e.CustomURL != "" &&
          toLower caseTable e.CustomURL == toLower caseTable id) = true
      · have hm : findMatch caseTable id e = true := by
          unfold findMatch
          rw [h2, Bool.or_true]
        rw [if_neg h1, if_pos h2, hm]
      · have hm : findMatch caseTable id e = false := by
          unfold findMatch
          simp only [Bool.not_eq_true] at h1 h2
          rw [h1, h2]
          rfl
        rw [if_neg h1, if_neg h2, hm, ih]

/-- C12, as the claim states it, fails: the first profile has the vanity name
`7` and the identity 1, the second has the identity 7, neither is expired, and
`Find` with `7` returns the first, whose identity is not 7. -/
theorem Find_vanity_counterexample :
    (∃ e ∈ vanityProfileCache, profileExpired 100 e = false ∧ formatInt e.SteamID64 = "7") ∧
      ProfileCache.Find plainCaseTable 100 3 vanityProfileCache "7" =
        some (vanityProfileCache, some { SteamID64 := 1, CustomURL := "7", Updated := 100 }) ∧
      formatInt (1 : Int) ≠ "7" := by
  decide

/-- C12, amended: `ProfileCache.Find` first drops the profiles last updated
more than 12 hours before `now`, which takes at most one round more than the
list has entries, and then returns the first remaining profile, in list order,
whose identity in decimal is `id` or whose non-empty `CustomURL` equals `id`
when case is ignored, that is, once `strings.ToLower` is applied to both; it
returns not found exactly when no remaining profile passes that test.  This
holds for every text `id`, ASCII or not, whatever the case tables. -/
theorem ProfileCache_Find_spec (now : Int) (p : ProfileCache) (id : String) (extra : Nat) :
    ProfileCache.Find caseTable now (p.length + 1 + extra) p id =
        some (p.filter (fun e => !decide (now - e.Updated > 12 * 3600 * 1000000000)),
          (p.filter (fun e => !decide (now - e.Updated > 12 * 3600 * 1000000000))).find?
            (fun e => formatInt e.SteamID64 == id ||
              (e.CustomURL != "" && toLower caseTable e.CustomURL == toLower caseTable id))) ∧
      (((p.filter (fun e => !decide (now - e.Updated > 12 * 3600 * 1000000000))).find?
            (fun e => formatInt e.SteamID64 == id ||
              (e.CustomURL != "" &&
                toLower caseTable e.CustomURL == toLower caseTable id))) = none ↔
        ∀ e ∈ p, now - e.Updated ≤ 12 * 3600 * 1000000000 →
          formatInt e.SteamID64 ≠ id ∧
            ¬ (e.CustomURL ≠ "" ∧ toLower caseTable e.CustomURL = toLower caseTable id)) := by
  constructor
  · unfold ProfileCache.Find
    rw [ProfileCache_PurgeExpired_spec now p extra]
    simp only [findLoop_eq]
    rfl
  · rw [List.find?_eq_none]
    constructor
    · intro h e he hfresh
      have hmem : e ∈ p.filter (fun e => !decide (now - e.Updated > 12 * 3600 * 1000000000)) := by
        rw [List.mem_filter]
        refine ⟨he, ?_⟩
        simp only [Bool.not_eq_true', decide_eq_false_iff_not, not_lt]
        exact hfresh
      have := h e hmem
      simp only [Bool.or_eq_true, Bool.and_eq_true, beq_iff_eq, bne_iff_ne, ne_eq, not_or,
        not_and] at this
      exact ⟨this.1, fun hc => this.2 hc.1 hc.2⟩
    · intro h e he
      rw [List.mem_filter] at he
      have hfresh : now - e.Updated ≤ 12 * 3600 * 1000000000 := by
        have := he.2
        simp only [Bool.not_eq_true', decide_eq_false_iff_not, not_lt] at this
        exact this
      obtain ⟨h1, h2⟩ := h e he.1 hfresh
      simp only [Bool.or_eq_true, Bool.and_eq_true, beq_iff_eq, bne_iff_ne, ne_eq, not_or,
        not_and]
      exact ⟨h1, fun ha hb => h2 ⟨ha, hb⟩⟩

/-- C12, amended, at a list of two fresh profiles: the vanity name of the first
is found ignoring case, and an unknown text is not found. -/
theorem ProfileCache_Find_spec_witness :
    ProfileCache.Find plainCaseTable 100 3 vanityProfileCache "SEVEN" =
        some (vanityProfileCache, some { SteamID64 := 7, CustomURL := "seven", Updated := 100 }) ∧
      ProfileCache.Find plainCaseTable 100 3 vanityProfileCache "8" =
        some (vanityProfileCache, none) ∧
      ProfileCache.Find plainCaseTable (101 + MaxProfileAge) 3 vanityProfileCache "7" =
        some ([], none) ∧
      ProfileCache.Find plainCaseTable 100 (vanityProfileCache.length + 1 + 0)
          vanityProfileCache "7" =
        some (vanityProfileCache.filter
            (fun e => !decide (100 - e.Updated > 12 * 3600 * 1000000000)),
          (vanityProfileCache.filter
            (fun e => !decide (100 - e.Updated > 12 * 3600 * 1000000000))).find?
            (fun e => formatInt e.SteamID64 == "7" ||
              (e.CustomURL != "" &&
                toLower plainCaseTable e.CustomURL == toLower plainCaseTable "7"))) :=
  ⟨by decide, by decide, by decide,
    (ProfileCache_Find_spec plainCaseTable 100 vanityProfileCache "7" 0).1⟩

/-! ## Aggregator.AddClient -/

/-- C14: for an identifier that is already a key of the registry,
`Aggregator.AddClient` returns the error `The client is already present`, the
aggregator afterwards (registry and cache) is the aggregator before, and the
resolver is handed no identifier; this holds whatever the resolver, the clock
and the bound on the purge. -/
theorem AddClient_duplicate (newClient : String → Except String Client) (now : Int)
    (fuel : Nat) (a : Aggregator) (id : String) (c : Client) (h : (id, c) ∈ a.Clients) :
    Aggregator.AddClient caseTable newClient now fuel a id =
      some ⟨some ("The client is already present: '" ++ id ++ "'"), a, []⟩ := by
  have hany : a.Clients.any (fun e => e.1 == id) = true := by
    rw [List.any_eq_true]
    exact ⟨(id, c), h, by simp⟩
  unfold Aggregator.AddClient
  rw [if_pos hany]

/-- C14 at the registry of the clients A and B: adding `A` again fails and
changes nothing, although the resolver would answer. -/
theorem AddClient_duplicate_witness :
    ("A", exampleClientA) ∈ exampleAggregator.Clients ∧
      Aggregator.AddClient plainCaseTable freshResolver 100 0 exampleAggregator "A" =
        some ⟨some "The client is already present: 'A'", exampleAggregator, []⟩ ∧
      (Aggregator.AddClient plainCaseTable freshResolver 100 1 exampleAggregator "C").map
          (fun r => r.resolved) = some ["C"] :=
  ⟨by decide,
    AddClient_duplicate plainCaseTable freshResolver 100 0 exampleAggregator "A" exampleClientA
      (by decide),
    by decide⟩

/-! ## strconv: reading back what was written -/


theorem digitChar_spec (k : Nat) (h : k < 10) :
    (Nat.digitChar k).isDigit = true ∧ digitValue (Nat.digitChar k) = (k : Int) ∧
      Nat.digitChar k ≠ '-' ∧ Nat.digitChar k ≠ '+' := by
  interval_cases k <;> decide

theorem toDigitsCore_spec (fuel : Nat) :
    ∀ (n : Nat) (ds : List Char), n < fuel →
      ∃ pre, Nat.toDigitsCore 10 fuel n ds = pre ++ ds ∧ pre ≠ [] ∧
        (∀ c ∈ pre, c.isDigit = true) ∧
        (∀ c, pre.head? = some c → c ≠ '-' ∧ c ≠ '+') ∧
        ∀ acc : Int, pre.foldl (fun acc c => acc * 10 + digitValue c) acc =
          acc * 10 ^ pre.length + (n : Int) := by
  induction fuel with
  | zero => intro n ds h; cases h
  | succ fuel ih =>
    intro n ds hn
    have hd := digitChar_spec (n % 10) (Nat.mod_lt n (by decide))
    unfold Nat.toDigitsCore
    by_cases h0 : n / 10 = 0
    · simp only [h0, if_true]
      refine ⟨[Nat.digitChar (n % 10)], rfl, by simp, ?_, ?_, ?_⟩
      · intro c hc
        rw [List.mem_singleton] at hc
        rw [hc]; exact hd.1
      · intro c hc
        simp only [List.head?_cons, Option.some.injEq] at hc
        rw [← hc]; exact ⟨hd.2.2.1, hd.2.2.2⟩
      · intro acc
        simp only [List.foldl_cons, List.foldl_nil, List.length_singleton, pow_one]
        rw [hd.2.1]
        have : n % 10 = n := by omega
        rw [this]
    · simp only [h0, if_false]
      have hlt : n / 10 < fuel := by omega
      obtain ⟨pre, hpre, hne, hdig, hhead, hval⟩ :=
        ih (n / 10) (Nat.digitChar (n % 10) :: ds) hlt
      refine ⟨pre ++ [Nat.digitChar (n % 10)], ?_, by simp, ?_, ?_, ?_⟩
      · rw [hpre]; simp
      · intro c hc
        rw [List.mem_append, List.mem_singleton] at hc
        rcases hc with hc | hc
        · exact hdig c hc
        · rw [hc]; exact hd.1
      · intro c hc
        apply hhead c
        cases pre with
        | nil => exact absurd rfl hne
        | cons a l => simpa using hc
      · intro acc
        rw [List.foldl_append, hval]
        simp only [List.foldl_cons, List.foldl_nil, List.length_append, List.length_singleton]
        rw [hd.2.1, pow_succ]
        have : (n : Int) = (n / 10 : Nat) * 10 + (n % 10 : Nat) := by
          have := Nat.div_add_mod n 10
          omega
        push_cast at this ⊢
        rw [this]
        ring_nf
        omega

theorem natRepr_spec (m : Nat) :
    (toString m).data ≠ [] ∧ (∀ c ∈ (toString m).data, c.isDigit = true) ∧
      (∀ c, (toString m).data.head? = some c → c ≠ '-' ∧ c ≠ '+') ∧
      digitsValue (toString m).data = (m : Int) := by
  obtain ⟨pre, hpre, hne, hdig, hhead, hval⟩ := toDigitsCore_spec (m + 1) m [] (by omega)
  have hdata : (toString m).data = pre := by
    show (Nat.repr m).data = pre
    unfold Nat.repr Nat.toDigits
    rw [hpre]
    simp [List.asString]
  rw [hdata]
  refine ⟨hne, hdig, hhead, ?_⟩
  unfold digitsValue
  rw [hval 0]
  simp

/-- Every Go `int` is read back by `strconv.Atoi` from what `strconv.Itoa`
wrote. -/
theorem atoi_formatInt (n : Int) (h0 : minInt ≤ n) (h1 : n ≤ maxInt) :
    atoi (formatInt n) = some n := by
  cases n with
  | ofNat m =>
    obtain ⟨hne, hdig, hhead, hval⟩ := natRepr_spec m
    have hdata : (formatInt (Int.ofNat m)).data = (toString m).data := rfl
    have hh1 : ((toString m).data.head? == some '-') = false := by
      rw [beq_eq_false_iff_ne]
      intro hc
      exact (hhead _ hc).1 rfl
    have hh2 : ((toString m).data.head? == some '+') = false := by
      rw [beq_eq_false_iff_ne]
      intro hc
      exact (hhead _ hc).2 rfl
    have hall : (toString m).data.all Char.isDigit = true := List.all_eq_true.2 hdig
    have hemp : (toString m).data.isEmpty = false := by
      cases hd : (toString m).data with
      | nil => exact absurd hd hne
      | cons _ _ => rfl
    unfold atoi
    simp only [hdata, hh1, hh2, Bool.or_self, Bool.false_eq_true, if_false, hemp, hall,
      Bool.not_true, hval]
    have h0' : ¬ ((m : Int) < minInt) := by
      have : (Int.ofNat m : Int) = (m : Int) := rfl
      rw [this] at h0
      omega
    have h1' : ¬ ((m : Int) > maxInt) := by
      have : (Int.ofNat m : Int) = (m : Int) := rfl
      rw [this] at h1
      omega
    simp [h0', h1']
  | negSucc m =>
    obtain ⟨hne, hdig, hhead, hval⟩ := natRepr_spec (m + 1)
    have hdata : (formatInt (Int.negSucc m)).data = '-' :: (toString (m + 1)).data := rfl
    have hall : (toString (m + 1)).data.all Char.isDigit = true := List.all_eq_true.2 hdig
    have hemp : (toString (m + 1)).data.isEmpty = false := by
      cases hd : (toString (m + 1)).data with
      | nil => exact absurd hd hne
      | cons _ _ => rfl
    unfold atoi
    simp only [hdata, List.head?_cons, beq_self_eq_true, Bool.true_or, if_true, List.tail_cons,
      hemp, hall, Bool.not_true, Bool.or_self, Bool.false_eq_true, if_false, hval]
    have hv : -((m + 1 : Nat) : Int) = Int.negSucc m := by
      rw [Int.negSucc_eq]; push_cast; ring
    rw [hv]
    have h0' : ¬ (Int.negSucc m < minInt) := by omega
    have h1' : ¬ (Int.negSucc m > maxInt) := by omega
    simp [h0', h1']

/-! ## GameCache.Add and GameCache.Get -/

theorem find_map_replace (g : GameCache) (k : Int) (v : JSONGame)
    (h : g.any (fun e => e.1 == k) = true) :
    (g.map (fun e => if e.1 == k then (k, v) else e)).find? (fun e => e.1 == k) =
      some (k, v) := by
  induction g with
  | nil => simp at h
  | cons e g ih =>
    by_cases he : (e.1 == k) = true
    · rw [List.map_cons, if_pos he, List.find?_cons]
      simp
    · simp only [List.any_cons, he, Bool.false_or] at h
      simp only [List.map_cons, he, Bool.false_eq_true, if_false, List.find?_cons]
      exact ih h

theorem find_map_replace_ne (g : GameCache) (k k' : Int) (v : JSONGame) (hne : k ≠ k') :
    ((g.map (fun e => if e.1 == k then (k, v) else e)).find? (fun e => e.1 == k')).map Prod.snd =
      (g.find? (fun e => e.1 == k')).map Prod.snd := by
  induction g with
  | nil => rfl
  | cons e g ih =>
    by_cases he : (e.1 == k) = true
    · have hek : e.1 = k := by simpa using he
      have h1 : ((k, v).1 == k') = false := by simpa using hne
      have h2 : (e.1 == k') = false := by rw [hek]; simpa using hne
      simp only [List.map_cons, he, if_true, List.find?_cons, h1, h2]
      exact ih
    · simp only [List.map_cons, he, Bool.false_eq_true, if_false, List.find?_cons]
      by_cases he' : (e.1 == k') = true
      · simp [he']
      · simp only [he']
        exact ih

theorem Get_Add_self (g : GameCache) (k : Int) (v : JSONGame) :
    GameCache.Get (GameCache.Add g k v) k = some v := by
  unfold GameCache.Get GameCache.Add
  by_cases h : g.any (fun e => e.1 == k) = true
  · rw [if_pos h, find_map_replace g k v h]
    rfl
  · rw [if_neg h]
    have hnone : g.find? (fun e => e.1 == k) = none := by
      rw [List.find?_eq_none]
      intro e he hc
      exact h (List.any_eq_true.2 ⟨e, he, hc⟩)
    simp [List.find?_append, hnone]

theorem Get_Add_ne (g : GameCache) (k k' : Int) (v : JSONGame) (hne : k ≠ k') :
    GameCache.Get (GameCache.Add g k v) k' = GameCache.Get g k' := by
  unfold GameCache.Get GameCache.Add
  by_cases h : g.any (fun e => e.1 == k) = true
  · rw [if_pos h]
    exact find_map_replace_ne g k k' v hne
  · rw [if_neg h]
    have h1 : ((k, v).1 == k') = false := by simpa using hne
    cases hf : g.find? (fun e => e.1 == k') with
    | none => simp [List.find?_append, hf, h1]
    | some e => simp [List.find?_append, hf]

theorem completeAge_AppID (g : JSONGame) : (JSONGame.completeAge g).AppID = g.AppID := by
  unfold JSONGame.completeAge
  split
  · split <;> rfl
  · rfl
  · rfl

theorem Complete_AppID (now : Int) (g : JSONGame) :
    (JSONGame.Complete now g).AppID = g.AppID := by
  unfold JSONGame.Complete
  simp only []
  split
  · exact completeAge_AppID g
  · exact completeAge_AppID g

theorem Complete_backfill (now vi : Int) (name : String) :
    JSONGame.Complete now { AppID := vi, Invalid := true, Name := name } =
      { AppID := vi, Invalid := true, Name := name, Updated := now } := by
  simp [JSONGame.Complete, JSONGame.completeAge]

/-- The name `FindGame` returns is the one under which the first profile that
owns the game lists it. -/
theorem FindGame_eq (p : ProfileCache) (appid : Int) :
    ProfileCache.FindGame p appid =
      match (p.filterMap (fun c => XMLGameMap.Contains c.Games appid)).head? with
      | some g => (g.Name, true)
      | none => ("", false) := by
  induction p with
  | nil => rfl
  | cons c p ih =>
    unfold ProfileCache.FindGame
    cases hc : XMLGameMap.Contains c.Games appid with
    | none => simp only [List.filterMap_cons, hc]; exact ih
    | some g => simp [List.filterMap_cons, hc]

/-! ## UpdateGameCache: one requested ID -/

/-- The step of `UpdateGameCache` for an ID marked unsuccessful: when the
answer of the detail service marks the requested ID `r` unsuccessful, the step
of `UpdateGameCache` for `r` does not end the run, and
right after it the game cache holds under the key `r` the record of ID `r`
with `Invalid` set, the name `ProfileCache.FindGame` gives for `r` (the name
under which the first cached profile that owns `r` lists it, the empty name
when none does), and the clock reading as its update time; `r` has left the
want-set. -/
theorem processID_unsuccessful (now : Int) (profiles : ProfileCache) (obj : DetailResponse)
    (st : UpdateState) (r : Int) (entry : DetailEntry)
    (hmin : minInt ≤ r) (hmax : r ≤ maxInt)
    (hlook : obj.lookup (formatInt r) = some entry) (hfail : entry.Success = false) :
    (processID now profiles obj st (formatInt r)).2 = none ∧
      GameCache.Get (processID now profiles obj st (formatInt r)).1.Games r =
        some { AppID := r, Invalid := true, Name := (ProfileCache.FindGame profiles r).1,
               Updated := now } ∧
      r ∉ (processID now profiles obj st (formatInt r)).1.gameIDs ∧
      ProfileCache.FindGame profiles r =
        (match (profiles.filterMap (fun c => XMLGameMap.Contains c.Games r)).head? with
          | some g => (g.Name, true)
          | none => ("", false)) := by
  have hstep : processID now profiles obj st (formatInt r) =
      (⟨GameCache.Add st.Games r
          { AppID := r, Invalid := true, Name := (ProfileCache.FindGame profiles r).1,
            Updated := now },
        IDSet.delete st.gameIDs r⟩, none) := by
    unfold processID
    simp only [atoi_formatInt r hmin hmax, hlook, hfail, Bool.not_false, if_true,
      Complete_backfill, bne_self_eq_false, Bool.false_eq_true, if_false]
  rw [hstep]
  refine ⟨rfl, Get_Add_self _ _ _, ?_, FindGame_eq profiles r⟩
  intro hmem
  exact ((IDSet.mem_delete _ _ _).1 hmem).2 rfl

/-- The step for an unsuccessful ID at the example of the specification: game
42 is owned by a cached profile under the name `Foo` and the detail service
marks it unsuccessful; the run ends without error after one batch and leaves
the record of ID 42, invalid, named `Foo`, under the key 42. -/
theorem processID_unsuccessful_witness :
    Aggregator.UpdateGameCache failingEnv 2 fooAggregator =
        some ⟨none, [(42, { AppID := 42, Invalid := true, Name := "Foo", Updated := 100 })],
          [], [["42"]]⟩ ∧
      GameCache.Get (processID 100 [fooProfile] [("42", { Success := false })]
          ⟨[], [42]⟩ (formatInt 42)).1.Games 42 =
        some { AppID := 42, Invalid := true,
               Name := (ProfileCache.FindGame [fooProfile] 42).1, Updated := 100 } :=
  ⟨by decide,
    (processID_unsuccessful 100 [fooProfile] [("42", { Success := false })] ⟨[], [42]⟩ 42
      { Success := false } (by decide) (by decide) (by decide) rfl).2.1⟩

/-- The step of `UpdateGameCache` for a mismatch: when the answer of the
detail service for the requested ID `r` is successful and carries a record
whose own ID `s` differs from `r`, the step of
`UpdateGameCache` for `r` does not end the run, and right after it the game
cache holds the same record, the one returned once completed, under the key
`r` and under the key `s`, and neither `r` nor `s` is in the want-set. -/
theorem processID_mismatch (now : Int) (profiles : ProfileCache) (obj : DetailResponse)
    (st : UpdateState) (r : Int) (entry : DetailEntry) (d : JSONGame)
    (hmin : minInt ≤ r) (hmax : r ≤ maxInt)
    (hlook : obj.lookup (formatInt r) = some entry) (hok : entry.Success = true)
    (hdata : entry.Data = some d) (hne : d.AppID ≠ r) :
    (processID now profiles obj st (formatInt r)).2 = none ∧
      GameCache.Get (processID now profiles obj st (formatInt r)).1.Games r =
        some (JSONGame.Complete now d) ∧
      GameCache.Get (processID now profiles obj st (formatInt r)).1.Games d.AppID =
        some (JSONGame.Complete now d) ∧
      r ∉ (processID now profiles obj st (formatInt r)).1.gameIDs ∧
      d.AppID ∉ (processID now profiles obj st (formatInt r)).1.gameIDs := by
  have hbne : (d.AppID != r) = true := by simpa using hne
  have hstep : processID now profiles obj st (formatInt r) =
      (⟨GameCache.Add (GameCache.Add st.Games d.AppID (JSONGame.Complete now d)) r
          (JSONGame.Complete now d),
        IDSet.delete (IDSet.delete st.gameIDs r) d.AppID⟩, none) := by
    unfold processID
    simp only [atoi_formatInt r hmin hmax, hlook, hok, Bool.not_true, Bool.false_eq_true,
      if_false, hdata, Complete_AppID, hbne, if_true]
  rw [hstep]
  refine ⟨rfl, Get_Add_self _ _ _, ?_, ?_, ?_⟩
  · rw [Get_Add_ne _ _ _ _ (fun e => hne e.symm)]
    exact Get_Add_self _ _ _
  · intro hmem
    have h1 := ((IDSet.mem_delete _ _ _).1 hmem).1
    exact ((IDSet.mem_delete _ _ _).1 h1).2 rfl
  · intro hmem
    exact ((IDSet.mem_delete _ _ _).1 hmem).2 rfl

/-- The step for a mismatch at the example of the specification: game 10 is
requested and the detail service returns the record of ID 20; the run ends
without error and leaves that record under the keys 10 and 20 and an empty
want-set. -/
theorem processID_mismatch_witness :
    (Aggregator.UpdateGameCache redirectingEnv 2 tenAggregator).map
        (fun res => (res.err, GameCache.Get res.Games 10, GameCache.Get res.Games 20,
          res.gameIDs)) =
        some (none, some twentyRecord, some twentyRecord, []) ∧
      GameCache.Get (processID 100 [] [("10", { Success := true, Data := some twentyRecord })]
          ⟨[], [10, 20]⟩ (formatInt 10)).1.Games 10 =
        some (JSONGame.Complete 100 twentyRecord) ∧
      (processID 100 [] [("10", { Success := true, Data := some twentyRecord })]
          ⟨[], [10, 20]⟩ (formatInt 10)).1.gameIDs = [] :=
  ⟨by decide,
    (processID_mismatch 100 [] [("10", { Success := true, Data := some twentyRecord })]
      ⟨[], [10, 20]⟩ 10 { Success := true, Data := some twentyRecord } twentyRecord
      (by decide) (by decide) (by decide) rfl rfl (by decide)).2.1,
    by decide⟩

/-! ## UpdateGameCache: the want-set -/

theorem Get_isSome_iff (g : GameCache) (k : Int) :
    (GameCache.Get g k).isSome = true ↔ k ∈ GameCache.keys g := by
  unfold GameCache.Get GameCache.keys
  rw [Option.isSome_map', List.find?_isSome]
  simp only [beq_iff_eq, List.mem_map]

theorem wantSet_inner_mem (cache : GameCache) (l : XMLGameMap) (acc : IDSet) (x : Int) :
    x ∈ l.foldl
        (fun ids g => if (GameCache.Get cache g.1).isSome then ids else IDSet.insert ids g.1)
        acc ↔
      x ∈ acc ∨ ((∃ e ∈ l, e.1 = x) ∧ x ∉ GameCache.keys cache) := by
  induction l generalizing acc with
  | nil => simp
  | cons e l ih =>
    rw [List.foldl_cons, ih]
    by_cases hc : (GameCache.Get cache e.1).isSome = true
    · have hk := (Get_isSome_iff cache e.1).1 hc
      rw [if_pos hc]
      constructor
      · rintro (h | ⟨⟨e', he', hx⟩, hn⟩)
        · exact Or.inl h
        · exact Or.inr ⟨⟨e', List.mem_cons_of_mem _ he', hx⟩, hn⟩
      · rintro (h | ⟨⟨e', he', hx⟩, hn⟩)
        · exact Or.inl h
        · rcases List.mem_cons.1 he' with e1 | e1
          · subst e1
            rw [hx] at hk
            exact absurd hk hn
          · exact Or.inr ⟨⟨e', e1, hx⟩, hn⟩
    · have hk : e.1 ∉ GameCache.keys cache := fun h => hc ((Get_isSome_iff cache e.1).2 h)
      rw [if_neg hc, IDSet.mem_insert]
      constructor
      · rintro ((h | h) | ⟨⟨e', he', hx⟩, hn⟩)
        · exact Or.inl h
        · exact Or.inr ⟨⟨e, List.mem_cons_self _ _, h.symm⟩, h ▸ hk⟩
        · exact Or.inr ⟨⟨e', List.mem_cons_of_mem _ he', hx⟩, hn⟩
      · rintro (h | ⟨⟨e', he', hx⟩, hn⟩)
        · exact Or.inl (Or.inl h)
        · rcases List.mem_cons.1 he' with e1 | e1
          · subst e1
            exact Or.inl (Or.inr hx.symm)
          · exact Or.inr ⟨⟨e', e1, hx⟩, hn⟩

theorem wantSet_inner_nodup (cache : GameCache) (l : XMLGameMap) (acc : IDSet)
    (h : acc.Nodup) :
    (l.foldl
        (fun ids g => if (GameCache.Get cache g.1).isSome then ids else IDSet.insert ids g.1)
        acc).Nodup := by
  induction l generalizing acc with
  | nil => exact h
  | cons e l ih =>
    rw [List.foldl_cons]
    apply ih
    split
    · exact h
    · exact IDSet.nodup_insert acc e.1 h

theorem wantSet_outer (cache : GameCache) (clients : ClientMap) (acc : IDSet) :
    (acc.Nodup →
      (clients.foldl
        (fun gameIDs c =>
          c.2.Profile.Games.foldl
            (fun ids g =>
              if (GameCache.Get cache g.1).isSome then ids else IDSet.insert ids g.1)
            gameIDs)
        acc).Nodup) ∧
      ∀ x, x ∈ clients.foldl
          (fun gameIDs c =>
            c.2.Profile.Games.foldl
              (fun ids g =>
                if (GameCache.Get cache g.1).isSome then ids else IDSet.insert ids g.1)
              gameIDs)
          acc ↔
        x ∈ acc ∨ ((∃ c ∈ clients, ∃ e ∈ c.2.Profile.Games, e.1 = x) ∧
          x ∉ GameCache.keys cache) := by
  induction clients generalizing acc with
  | nil => exact ⟨fun h => h, fun x => by simp⟩
  | cons c clients ih =>
    constructor
    · intro h
      rw [List.foldl_cons]
      exact (ih _).1 (wantSet_inner_nodup cache _ acc h)
    · intro x
      rw [List.foldl_cons, (ih _).2 x, wantSet_inner_mem]
      constructor
      · rintro ((h | ⟨he, hn⟩) | ⟨⟨c', hc', he⟩, hn⟩)
        · exact Or.inl h
        · exact Or.inr ⟨⟨c, List.mem_cons_self _ _, he⟩, hn⟩
        · exact Or.inr ⟨⟨c', List.mem_cons_of_mem _ hc', he⟩, hn⟩
      · rintro (h | ⟨⟨c', hc', he⟩, hn⟩)
        · exact Or.inl (Or.inl h)
        · rcases List.mem_cons.1 hc' with e1 | e1
          · subst e1
            exact Or.inl (Or.inr ⟨he, hn⟩)
          · exact Or.inr ⟨⟨c', e1, he⟩, hn⟩

theorem mem_wantSet (a : Aggregator) (x : Int) :
    x ∈ wantSet a ↔
      (∃ c ∈ a.Clients, ∃ e ∈ c.2.Profile.Games, e.1 = x) ∧
        x ∉ GameCache.keys a.Cache.Games := by
  unfold wantSet
  rw [(wantSet_outer a.Cache.Games a.Clients []).2 x]
  simp

/-! ## UpdateGameCache: what is requested -/

theorem processID_gameIDs (now : Int) (profiles : ProfileCache) (obj : DetailResponse)
    (st : UpdateState) (v : String) (x : Int)
    (h : x ∈ (processID now profiles obj st v).1.gameIDs) : x ∈ st.gameIDs := by
  unfold processID at h
  split at h
  · exact h
  · split at h
    · exact h
    · simp only [] at h
      split at h
      · exact h
      · simp only [] at h
        have h1 := ((IDSet.mem_delete _ _ _).1 h).1
        split at h1
        · exact ((IDSet.mem_delete _ _ _).1 h1).1
        · exact h1

theorem processBatch_gameIDs (now : Int) (profiles : ProfileCache) (obj : DetailResponse)
    (vs : List String) (st : UpdateState) (x : Int)
    (h : x ∈ (processBatch now profiles obj vs st).1.gameIDs) : x ∈ st.gameIDs := by
  induction vs generalizing st with
  | nil => exact h
  | cons v vs ih =>
    unfold processBatch at h
    split at h
    · rename_i st1 ab heq
      have := processID_gameIDs now profiles obj st v x
      rw [heq] at this
      exact this h
    · rename_i st1 heq
      have := processID_gameIDs now profiles obj st v x
      rw [heq] at this
      exact this (ih st1 h)

theorem mem_nextIDsLoop (parallelUpdates : Int) (l : List Int) (i : Int) (v : String)
    (h : v ∈ nextIDsLoop parallelUpdates l i) : ∃ x ∈ l, v = formatInt x := by
  induction l generalizing i with
  | nil => cases h
  | cons g l ih =>
    unfold nextIDsLoop at h
    split at h
    · rw [List.mem_singleton] at h
      exact ⟨g, List.mem_cons_self _ _, h⟩
    · rcases List.mem_cons.1 h with h1 | h1
      · exact ⟨g, List.mem_cons_self _ _, h1⟩
      · obtain ⟨x, hx, hv⟩ := ih (i + 1) h1
        exact ⟨x, List.mem_cons_of_mem _ hx, hv⟩

theorem updateLoop_requests (env : UpdateEnv) (profiles : ProfileCache) (W : IDSet)
    (horder : ∀ s x, x ∈ env.order s → x ∈ s) (fuel : Nat) :
    ∀ (st : UpdateState) (reqs : List (List String)) (res : UpdateResult),
      (∀ x ∈ st.gameIDs, x ∈ W) →
      (∀ batch ∈ reqs, ∀ v ∈ batch, ∃ x ∈ W, v = formatInt x) →
      updateLoop env profiles fuel st reqs = some res →
      ∀ batch ∈ res.requests, ∀ v ∈ batch, ∃ x ∈ W, v = formatInt x := by
  induction fuel with
  | zero =>
    intro st reqs res _ _ h
    cases h
  | succ fuel ih =>
    intro st reqs res hsub hreqs h
    have hnext : ∀ batch ∈ reqs ++ [nextIDsLoop env.ParallelUpdates (env.order st.gameIDs) 0],
        ∀ v ∈ batch, ∃ x ∈ W, v = formatInt x := by
      intro batch hb v hv
      rcases List.mem_append.1 hb with hb | hb
      · exact hreqs batch hb v hv
      · rw [List.mem_singleton] at hb
        subst hb
        obtain ⟨x, hx, hvx⟩ := mem_nextIDsLoop _ _ _ v hv
        exact ⟨x, hsub x (horder _ x hx), hvx⟩
    unfold updateLoop at h
    split at h
    · simp only [] at h
      split at h
      · simp only [Option.some.injEq] at h
        subst h
        exact hnext
      · rename_i obj _
        split at h
        · simp only [Option.some.injEq] at h
          subst h
          exact hnext
        · rename_i st1 heq
          have hsub1 : ∀ x ∈ st1.gameIDs, x ∈ W := by
            intro x hx
            apply hsub
            have := processBatch_gameIDs env.now profiles obj
              (nextIDsLoop env.ParallelUpdates (env.order st.gameIDs) 0) st x
            rw [heq] at this
            exact this hx
          split at h
          · simp only [Option.some.injEq] at h
            subst h
            exact hnext
          · exact ih st1 _ res hsub1 hnext h
    · split at h
      · simp only [Option.some.injEq] at h
        subst h
        exact hreqs
      · simp only [Option.some.injEq] at h
        subst h
        exact hreqs

/-- C18: the want-set `UpdateGameCache` starts from holds each ID once, and an
ID is in it exactly when it is a key of the games of at least one registered
client and not a key of the game cache; so a cached ID is left out whatever its
record, invalid or not.  In a run in which every `range` over the want-set
visits only IDs of the want-set, every ID requested from the detail service is
in the want-set the run started from. -/
theorem wantSet_spec (a : Aggregator) :
    (wantSet a).Nodup ∧
      (∀ x, x ∈ wantSet a ↔
        ((∃ c ∈ a.Clients, ∃ e ∈ c.2.Profile.Games, e.1 = x) ∧
          x ∉ GameCache.keys a.Cache.Games)) ∧
      (∀ x r, (x, r) ∈ a.Cache.Games → x ∉ wantSet a) ∧
      (∀ (env : UpdateEnv) (fuel : Nat) (res : UpdateResult),
        (∀ s x, x ∈ env.order s → x ∈ s) →
        Aggregator.UpdateGameCache env fuel a = some res →
        ∀ batch ∈ res.requests, ∀ v ∈ batch,
          ∃ x ∈ wantSet a, v = formatInt x ∧ x ∉ GameCache.keys a.Cache.Games) := by
  refine ⟨?_, mem_wantSet a, ?_, ?_⟩
  · unfold wantSet
    exact (wantSet_outer a.Cache.Games a.Clients []).1 List.nodup_nil
  · intro x r hmem hw
    exact ((mem_wantSet a x).1 hw).2 (List.mem_map.2 ⟨(x, r), hmem, rfl⟩)
  · intro env fuel res horder hrun batch hb v hv
    obtain ⟨x, hx, hvx⟩ := updateLoop_requests env a.Cache.Profiles (wantSet a) horder fuel
      ⟨a.Cache.Games, wantSet a⟩ [] res (fun x hx => hx) (fun b hb => by cases hb) hrun
      batch hb v hv
    exact ⟨x, hx, hvx, ((mem_wantSet a x).1 hx).2⟩

/-- C18 at a client that owns the games 42 and 43 while 43 is cached as an
invalid record: the want-set is 42 alone, and 42 alone is requested. -/
theorem wantSet_spec_witness :
    wantSet partlyCachedAggregator = [42] ∧
      (Aggregator.UpdateGameCache failingEnv 2 partlyCachedAggregator).map
          (fun res => res.requests) = some [["42"]] ∧
      (∀ x, x ∈ wantSet partlyCachedAggregator ↔
        ((∃ c ∈ partlyCachedAggregator.Clients, ∃ e ∈ c.2.Profile.Games, e.1 = x) ∧
          x ∉ GameCache.keys partlyCachedAggregator.Cache.Games)) :=
  ⟨by decide, by decide, (wantSet_spec partlyCachedAggregator).2.1⟩

/-! ## UpdateGameTags -/

theorem updateTagsLoop_saved (store : Int → TagPage) (profiles : ProfileCache)
    (todo : GameCache) :
    ∀ (done : GameCache) (fetched : List Int),
      updateTagsLoop store (fun _ => none) profiles done todo fetched =
        ⟨none,
          done ++ todo.map (fun e =>
            if e.2.Tags.isNone then (e.1, { e.2 with Tags := some (fetchTags store e.1).1 })
            else e),
          fetched ++ (todo.filter (fun e => e.2.Tags.isNone)).map Prod.fst⟩ := by
  induction todo with
  | nil => intro done fetched; simp [updateTagsLoop]
  | cons e todo ih =>
    intro done fetched
    obtain ⟨i, g⟩ := e
    unfold updateTagsLoop
    by_cases h : g.Tags.isNone = true
    · have h' : g.Tags = none := Option.isNone_iff_eq_none.1 h
      simp only [h, if_true]
      rw [ih]
      simp [List.filter_cons, h, h']
    · have h' : ¬ g.Tags = none := fun hc => h (by rw [hc]; rfl)
      simp only [h, Bool.false_eq_true, if_false]
      rw [ih]
      simp [List.filter_cons, h, h']

/-- When every `Save` succeeds, a run of `UpdateGameTags` ends without error
and leaves no record with an unset tag list: a record that had none holds the
slice `fetchTags` returned, which is empty, not nil, after a failure. -/
theorem UpdateGameTags_saved (store : Int → TagPage) (a : Aggregator) :
    Aggregator.UpdateGameTags store (fun _ => none) a =
        ⟨none,
          a.Cache.Games.map (fun e =>
            if e.2.Tags.isNone then (e.1, { e.2 with Tags := some (fetchTags store e.1).1 })
            else e),
          (a.Cache.Games.filter (fun e => e.2.Tags.isNone)).map Prod.fst⟩ ∧
      ∀ e ∈ (Aggregator.UpdateGameTags store (fun _ => none) a).Games, e.2.Tags ≠ none := by
  have h : Aggregator.UpdateGameTags store (fun _ => none) a =
      ⟨none,
        a.Cache.Games.map (fun e =>
          if e.2.Tags.isNone then (e.1, { e.2 with Tags := some (fetchTags store e.1).1 })
          else e),
        (a.Cache.Games.filter (fun e => e.2.Tags.isNone)).map Prod.fst⟩ := by
    unfold Aggregator.UpdateGameTags
    rw [updateTagsLoop_saved]
    simp
  refine ⟨h, ?_⟩
  rw [h]
  intro e he
  simp only [List.mem_map] at he
  obtain ⟨e0, _, rfl⟩ := he
  by_cases hn : e0.2.Tags.isNone = true
  · simp [hn]
  · simp only [hn, Bool.false_eq_true, if_false]
    intro hc
    rw [hc] at hn
    exact hn rfl

/-- C17 fails on the code: with the games 1 and 2 cached without tags and a
store whose every request fails, a run of `UpdateGameTags` ends without error
but leaves both records with the empty tag list instead of none; a second run,
with a store that answers, hands no ID to `fetchTags` and leaves the tag lists
empty. -/
theorem UpdateGameTags_failure_sets_tags :
    Aggregator.UpdateGameTags downStore (fun _ => none) untaggedAggregator =
        ⟨none, [(1, { AppID := 1, Tags := some [] }), (2, { AppID := 2, Tags := some [] })],
          [1, 2]⟩ ∧
      Aggregator.UpdateGameTags actionStore (fun _ => none) afterFailedTags =
        ⟨none, [(1, { AppID := 1, Tags := some [] }), (2, { AppID := 2, Tags := some [] })],
          []⟩ := by
  decide

/-! ## GameCache.AllTags -/

theorem mem_tagInsert (tags : List String) (t x : String) :
    x ∈ tagInsert tags t ↔ x ∈ tags ∨ x = t := by
  unfold tagInsert
  split
  · constructor
    · intro h; exact Or.inl h
    · rintro (h | h)
      · exact h
      · subst h; assumption
  · simp

theorem nodup_tagInsert (tags : List String) (t : String) (h : tags.Nodup) :
    (tagInsert tags t).Nodup := by
  unfold tagInsert
  split
  · exact h
  · rename_i hn
    rw [List.nodup_append]
    refine ⟨h, List.nodup_singleton t, ?_⟩
    intro a ha hb
    simp at hb
    subst hb
    exact hn ha

theorem mem_foldl_tagInsert (l acc : List String) (x : String) :
    x ∈ l.foldl tagInsert acc ↔ x ∈ acc ∨ x ∈ l := by
  induction l generalizing acc with
  | nil => simp
  | cons a l ih =>
    rw [List.foldl_cons, ih, mem_tagInsert]
    simp only [List.mem_cons]
    tauto

theorem nodup_foldl_tagInsert (l acc : List String) (h : acc.Nodup) :
    (l.foldl tagInsert acc).Nodup := by
  induction l generalizing acc with
  | nil => exact h
  | cons a l ih => exact ih _ (nodup_tagInsert acc a h)

theorem allTagsSet_fold (g : GameCache) (acc : List String) :
    (acc.Nodup → (g.foldl (fun tags gm => gm.2.tagList.foldl tagInsert tags) acc).Nodup) ∧
      ∀ x, x ∈ g.foldl (fun tags gm => gm.2.tagList.foldl tagInsert tags) acc ↔
        x ∈ acc ∨ ∃ e ∈ g, x ∈ e.2.tagList := by
  induction g generalizing acc with
  | nil => exact ⟨fun h => h, fun x => by simp⟩
  | cons e g ih =>
    constructor
    · intro h
      rw [List.foldl_cons]
      exact (ih _).1 (nodup_foldl_tagInsert _ _ h)
    · intro x
      rw [List.foldl_cons, (ih _).2 x, mem_foldl_tagInsert]
      simp only [List.mem_cons, exists_eq_or_imp]
      tauto

/-- C19, as the claim states it, fails: nothing in `AllTags` sorts.  For the
records tagged `b`, `a` and `B`, `b`, when the `range` over the collected tags
visits them in the order they were inserted, the result is `b`, `a`, `B`,
which is not ascending. -/
theorem AllTags_unsorted_counterexample :
    GameCache.AllTags id unsortedTagCache = ["b", "a", "B"] ∧
      stringLess "a" "b" = true ∧
      ¬ stringsSorted (GameCache.AllTags id unsortedTagCache) := by
  unfold stringsSorted
  decide

/-- C19, amended: whatever order the `range` over the collected tags takes,
`GameCache.AllTags` returns each tag once, and a string is returned exactly
when it is, letter for letter, a tag of some record; the order of the result
is the order of that `range`. -/
theorem AllTags_spec (order : List String → List String) (g : GameCache)
    (horder : ∀ l, (order l).Perm l) :
    (GameCache.AllTags order g).Nodup ∧
      (∀ t, t ∈ GameCache.AllTags order g ↔ ∃ e ∈ g, t ∈ e.2.tagList) ∧
      GameCache.AllTags order g = order (GameCache.AllTags id g) := by
  unfold GameCache.AllTags
  refine ⟨?_, ?_, rfl⟩
  · rw [(horder _).nodup_iff]
    exact (allTagsSet_fold g []).1 List.nodup_nil
  · intro t
    rw [(horder _).mem_iff]
    unfold allTagsSet
    rw [(allTagsSet_fold g []).2 t]
    simp

/-- C19, amended, at the records tagged `b`, `a` and `B`, `b`, with the
`range` in the order of insertion. -/
theorem AllTags_spec_witness :
    (∀ l : List String, (id l).Perm l) ∧
      (GameCache.AllTags id unsortedTagCache).Nodup ∧
      (∀ t, t ∈ GameCache.AllTags id unsortedTagCache ↔
        ∃ e ∈ unsortedTagCache, t ∈ e.2.tagList) :=
  ⟨fun l => List.Perm.refl l,
    (AllTags_spec id unsortedTagCache (fun l => List.Perm.refl l)).1,
    (AllTags_spec id unsortedTagCache (fun l => List.Perm.refl l)).2.1⟩

/-! ## Save and Load: one record -/

theorem decodeAll_map {α β : Type} (enc : α → JSONValue) (dec : JSONValue → Option β)
    (norm : α → β) (h : ∀ x, dec (enc x) = some (norm x)) (l : List α) :
    decodeAll dec (l.map enc) = some (l.map norm) := by
  induction l with
  | nil => rfl
  | cons a l ih => simp [decodeAll, h, ih]

theorem decodeStrings_encode (l : List String) :
    decodeSlice decodeString (encodeStrings l) = some l := by
  show decodeAll decodeString (l.map JSONValue.string) = some l
  rw [decodeAll_map JSONValue.string decodeString id (fun _ => rfl)]
  simp

theorem decodeTags_encode (t : Option (List String)) :
    decodeTags (encodeTags t) = some t := by
  cases t with
  | none => rfl
  | some l =>
    show (decodeAll decodeString (l.map JSONValue.string)).map some = some (some l)
    rw [decodeAll_map JSONValue.string decodeString id (fun _ => rfl)]
    simp

theorem decodeAge_encode (a : AgeDummy) : decodeAge (encodeAge a) = some (persistedAge a) := by
  cases a <;> rfl

theorem decodePrice_encode (p : JSONPrice) : decodePrice (encodePrice p) = some p := by
  rfl

theorem decodePlatforms_encode (p : JSONPlatforms) :
    decodePlatforms (encodePlatforms p) = some p := by
  rfl

theorem decodeCategory_encode (c : JSONCategory) :
    decodeCategory (encodeCategory c) = some c := by
  rfl

theorem decodeProfileGame_encode (g : XMLProfileGame) :
    decodeProfileGame (encodeProfileGame g) = some (persistedProfileGame g) := by
  rfl

theorem decodeCategories_encode (l : List JSONCategory) :
    decodeSlice decodeCategory (JSONValue.array (l.map encodeCategory)) = some l := by
  show decodeAll decodeCategory (l.map encodeCategory) = some l
  rw [decodeAll_map encodeCategory decodeCategory id decodeCategory_encode]
  simp

theorem decodeGame_encode (g : JSONGame) :
    decodeGame (encodeGame g) = some (persistedGame g) := by
  have hage : member (gameMembers g) "required_age" = encodeAge g.RequiredAgeDummy := rfl
  have hdev : member (gameMembers g) "developers" = encodeStrings g.Developers := rfl
  have hpub : member (gameMembers g) "publishers" = encodeStrings g.Publishers := rfl
  have hpri : member (gameMembers g) "price_overview" = encodePrice g.Price := rfl
  have hpla : member (gameMembers g) "platforms" = encodePlatforms g.Platforms := rfl
  have hcat : member (gameMembers g) "categories" =
      JSONValue.array (g.Categories.map encodeCategory) := rfl
  have htag : member (gameMembers g) "tags" = encodeTags g.Tags := rfl
  have hhead : decodeGameHead (gameMembers g) {} =
      some { Invalid := g.Invalid, Type_ := g.Type_, Name := g.Name, AppID := g.AppID,
             RequiredAge := g.RequiredAge, RequiredAgeDummy := persistedAge g.RequiredAgeDummy,
             Description := g.Description, DescriptionShort := g.DescriptionShort } := by
    unfold decodeGameHead
    rw [hage, decodeAge_encode]
    rfl
  show (match decodeGameHead (gameMembers g) {} with
    | none => none
    | some g1 => decodeGameTail (gameMembers g) g1) = some (persistedGame g)
  rw [hhead]
  show decodeGameTail (gameMembers g) _ = some (persistedGame g)
  unfold decodeGameTail
  rw [hdev, hpub, hpri, hpla, hcat, htag, decodeStrings_encode, decodeStrings_encode,
    decodePrice_encode, decodePlatforms_encode, decodeCategories_encode, decodeTags_encode]
  rfl

/-! ## Save and Load: the maps, the profiles, the cache -/

theorem XMLGameMap_insert_new (m : XMLGameMap) (k : Int) (v : XMLProfileGame)
    (h : k ∉ m.map Prod.fst) : XMLGameMap.insert m k v = m ++ [(k, v)] := by
  unfold XMLGameMap.insert
  have hany : ¬ m.any (fun e => e.1 == k) = true := by
    intro hc
    obtain ⟨e, he, hk⟩ := List.any_eq_true.1 hc
    exact h (List.mem_map.2 ⟨e, he, by simpa using hk⟩)
  rw [if_neg hany]

theorem GameCache_Add_new (g : GameCache) (k : Int) (v : JSONGame)
    (h : k ∉ GameCache.keys g) : GameCache.Add g k v = g ++ [(k, v)] := by
  unfold GameCache.Add
  have hany : ¬ g.any (fun e => e.1 == k) = true := by
    intro hc
    obtain ⟨e, he, hk⟩ := List.any_eq_true.1 hc
    exact h (List.mem_map.2 ⟨e, he, by simpa using hk⟩)
  rw [if_neg hany]

theorem decodeGameMapInto_encode (l : XMLGameMap) :
    ∀ m : XMLGameMap, (m.map Prod.fst ++ l.map Prod.fst).Nodup →
      (∀ k ∈ l.map Prod.fst, isGoInt k) →
      decodeGameMapInto (l.map (fun e => (formatInt e.1, encodeProfileGame e.2))) m =
        some (m ++ l.map (fun e => (e.1, persistedProfileGame e.2))) := by
  induction l with
  | nil => intro m _ _; simp [decodeGameMapInto]
  | cons e l ih =>
    intro m hnd hint
    obtain ⟨k, v⟩ := e
    have hk : isGoInt k := hint k (by simp)
    have hnot : k ∉ m.map Prod.fst := by
      intro hc
      exact (List.nodup_append.1 hnd).2.2 hc (by simp)
    simp only [List.map_cons, decodeGameMapInto, atoi_formatInt k hk.1 hk.2,
      decodeProfileGame_encode, XMLGameMap_insert_new m k _ hnot]
    rw [ih]
    · simp
    · simpa [List.nodup_append, List.nodup_cons, and_assoc] using hnd
    · intro k' hk'
      exact hint k' (by simp only [List.map_cons, List.mem_cons]; exact Or.inr hk')

theorem decodeGameCacheInto_encode (l : GameCache) :
    ∀ g : GameCache, (GameCache.keys g ++ GameCache.keys l).Nodup →
      (∀ k ∈ GameCache.keys l, isGoInt k) →
      decodeGameCacheInto (l.map (fun e => (formatInt e.1, encodeGame e.2))) g =
        some (g ++ l.map (fun e => (e.1, persistedGame e.2))) := by
  induction l with
  | nil => intro g _ _; simp [decodeGameCacheInto]
  | cons e l ih =>
    intro g hnd hint
    obtain ⟨k, v⟩ := e
    have hk : isGoInt k := hint k (by simp [GameCache.keys])
    have hnot : k ∉ GameCache.keys g := by
      intro hc
      exact (List.nodup_append.1 hnd).2.2 hc (by simp [GameCache.keys])
    simp only [List.map_cons, decodeGameCacheInto, atoi_formatInt k hk.1 hk.2,
      decodeGame_encode, GameCache_Add_new g k _ hnot]
    rw [ih]
    · simp
    · simpa [GameCache.keys, List.nodup_append, List.nodup_cons, and_assoc] using hnd
    · intro k' hk'
      exact hint k' (by
        simp only [GameCache.keys, List.map_cons, List.mem_cons]
        exact Or.inr hk')

theorem decodeProfile_encode (p : XMLProfile) (hnd : (p.Games.map Prod.fst).Nodup)
    (hint : ∀ k ∈ p.Games.map Prod.fst, isGoInt k) :
    decodeProfile (encodeProfile p) = some (persistedProfile p) := by
  have hgames : member (profileMembers p) "games" = encodeGameMap p.Games := rfl
  have hmap : decodeGameMap (encodeGameMap p.Games) =
      some (p.Games.map (fun e => (e.1, persistedProfileGame e.2))) := by
    show decodeGameMapInto (p.Games.map (fun e => (formatInt e.1, encodeProfileGame e.2))) [] = _
    rw [decodeGameMapInto_encode p.Games [] (by simpa using hnd) hint]
    simp
  have hhead : decodeProfileHead (profileMembers p) {} =
      some { SteamID := p.SteamID, SteamID64 := p.SteamID64, CustomURL := p.CustomURL,
             Status := p.Status, Privacy := p.Privacy, PrivacyState := p.PrivacyState,
             VACStatus := p.VACStatus } := rfl
  show (match decodeProfileHead (profileMembers p) {} with
    | none => none
    | some p1 => decodeProfileTail (profileMembers p) p1) = some (persistedProfile p)
  rw [hhead]
  show decodeProfileTail (profileMembers p) _ = some (persistedProfile p)
  unfold decodeProfileTail
  rw [hgames, hmap]
  rfl

theorem decodeProfiles_encode (l : ProfileCache)
    (h : ∀ p ∈ l, (p.Games.map Prod.fst).Nodup ∧ ∀ k ∈ p.Games.map Prod.fst, isGoInt k) :
    decodeAll decodeProfile (l.map encodeProfile) = some (l.map persistedProfile) := by
  induction l with
  | nil => rfl
  | cons p l ih =>
    have hp := h p (List.mem_cons_self _ _)
    simp only [List.map_cons, decodeAll, decodeProfile_encode p hp.1 hp.2,
      ih (fun q hq => h q (List.mem_cons_of_mem _ hq))]

theorem float64OfInt_small (n : Int) (h : n.natAbs < 2 ^ 53) : float64OfInt n = n := by
  have hshift : mantissaShift n.natAbs n.natAbs = 0 := by
    cases hm : n.natAbs with
    | zero => rfl
    | succ k =>
      rw [hm] at h
      unfold mantissaShift
      rw [if_pos h]
  unfold float64OfInt
  simp only [hshift, if_true]

/-- A `Save` of a cache that holds an instant outside the years 0 to 9999
fails. -/
theorem Save_unmarshalable (c : Cache) (h : c.marshalable = false) :
    Cache.Save c = none := by
  unfold Cache.Save
  rw [h]
  rfl

/-- C20, as the claim states it, fails: the ownership entry of the profile
carries a store link and a playtime of the last two weeks, members tagged `-`,
and after `Save` and `Load` into an empty cache both are empty.  Two more
ways in which it fails: a `RequiredAgeDummy` that holds the Go `int` 18 comes
back holding a `float64`, and the `Save` of a cache with a record updated in
the year 10000 fails. -/
theorem Save_Load_counterexample :
    (Cache.Save linkedCache).bind (Cache.Load {}) ≠ some linkedCache ∧
      (Cache.Save linkedCache).bind (Cache.Load {}) =
        some { Games := linkedCache.Games,
               Profiles := [{ SteamID64 := 1, SteamID := "one", Updated := 100,
                              Games := [(42, { Name := "Foo", AppID := 42,
                                               PlaytimeTotal := "20" })] }] } ∧
      (Cache.Save intAgeCache).bind (Cache.Load {}) =
        some { Games := [(42, { AppID := 42, RequiredAgeDummy := AgeDummy.float 18,
                                Updated := 100 })],
               Profiles := [] } ∧
      (Cache.Save lateCache).isNone = true := by
  decide

/-- C20, amended: for a cache whose maps have pairwise distinct keys that are
Go `int`s and whose instants all lie in the years 0 to 9999, `Save` succeeds,
and `Save` followed by `Load` into an empty cache yields the same keys and, in
the same order, the game records and profiles that `persistedCache` describes:
of a game record every member comes back equal, except that a number held by
`RequiredAgeDummy` comes back as the `float64` nearest to it (so a Go `int`
comes back as a `float64`); of a profile every member but `XMLName`; of an
ownership entry the name, the ID and the total playtime, the other members
coming back empty.  When no record is changed by that, the cache comes back
as it was. -/
theorem Save_Load_persisted (c : Cache) (h : Cache.wellFormed c)
    (ht : c.marshalable = true) :
    Cache.Save c = some (encodeCache c) ∧
      (Cache.Save c).bind (Cache.Load {}) = some (persistedCache c) ∧
      ((∀ e ∈ c.Games, persistedAge e.2.RequiredAgeDummy = e.2.RequiredAgeDummy) →
        (∀ p ∈ c.Profiles, p.XMLName = {} ∧
          ∀ e ∈ p.Games, e.2 = persistedProfileGame e.2) →
        (Cache.Save c).bind (Cache.Load {}) = some c) := by
  have hsave : Cache.Save c = some (encodeCache c) := by
    unfold Cache.Save
    rw [ht]
    rfl
  rw [hsave, Option.some_bind]
  refine ⟨rfl, ?_⟩
  have hload : Cache.Load {} (encodeCache c) = some (persistedCache c) := by
    have hg : loadGames [] (some (encodeGameCache c.Games)) =
        some (c.Games.map (fun e => (e.1, persistedGame e.2))) := by
      show decodeGameCacheInto (c.Games.map (fun e => (formatInt e.1, encodeGame e.2))) [] = _
      rw [decodeGameCacheInto_encode c.Games [] (by simpa [GameCache.keys] using h.1) h.2.1]
      simp
    have hp : loadProfiles [] (some (JSONValue.array (c.Profiles.map encodeProfile))) =
        some (c.Profiles.map persistedProfile) := by
      show decodeAll decodeProfile (c.Profiles.map encodeProfile) = _
      exact decodeProfiles_encode c.Profiles h.2.2
    show (match loadGames [] (some (encodeGameCache c.Games)),
        loadProfiles [] (some (JSONValue.array (c.Profiles.map encodeProfile))) with
      | some g, some p => some (Cache.mk g p)
      | _, _ => none) = some (persistedCache c)
    rw [hg, hp]
    rfl
  refine ⟨hload, ?_⟩
  intro hage hprof
  rw [hload]
  congr 1
  unfold persistedCache
  have hgames : c.Games.map (fun e => (e.1, persistedGame e.2)) = c.Games := by
    have : ∀ e ∈ c.Games, (fun e : Int × JSONGame => (e.1, persistedGame e.2)) e = id e := by
      intro e he
      have hne := hage e he
      have : persistedGame e.2 = e.2 := by
        unfold persistedGame
        rw [hne]
      simp [this]
    rw [List.map_congr_left this, List.map_id]
  have hprofiles : c.Profiles.map persistedProfile = c.Profiles := by
    have : ∀ p ∈ c.Profiles, persistedProfile p = id p := by
      intro p hp
      obtain ⟨hx, hg⟩ := hprof p hp
      have hmap : p.Games.map (fun e => (e.1, persistedProfileGame e.2)) = p.Games := by
        have : ∀ e ∈ p.Games,
            (fun e : Int × XMLProfileGame => (e.1, persistedProfileGame e.2)) e = id e := by
          intro e he
          simp [← hg e he]
        rw [List.map_congr_left this, List.map_id]
      unfold persistedProfile
      rw [hmap, ← hx]
      rfl
    rw [List.map_congr_left this, List.map_id]
  rw [hgames, hprofiles]

theorem linkedCache_wellFormed : Cache.wellFormed linkedCache := by
  simp only [Cache.wellFormed, isGoInt]
  decide

/-- C20, amended, at a cache of one game and one profile: the game record and
the persisted members of the profile come back, and once the members that are
not written are empty the cache comes back as it was. -/
theorem Save_Load_persisted_witness :
    Cache.wellFormed linkedCache ∧ linkedCache.marshalable = true ∧
      (Cache.Save linkedCache).bind (Cache.Load {}) = some (persistedCache linkedCache) ∧
      (Cache.Save (persistedCache linkedCache)).bind (Cache.Load {}) =
        some (persistedCache linkedCache) :=
  ⟨linkedCache_wellFormed, by decide,
    (Save_Load_persisted linkedCache linkedCache_wellFormed (by decide)).2.1, by decide⟩

/-! ## ProfileCache.Add keeps identities apart -/

/-- C23: when no two entries of the list share a numeric identity, no two
entries of the list after `ProfileCache.Add` do, whatever the profile added,
expired or not. -/
theorem ProfileCache_Add_unique (now : Int) (p : ProfileCache) (profile : XMLProfile)
    (h : (p.map (fun e => e.SteamID64)).Nodup) :
    ((ProfileCache.Add now p profile).map (fun e => e.SteamID64)).Nodup := by
  unfold ProfileCache.Add
  by_cases hexp : profileExpired now profile = true
  · rw [if_pos hexp]
    exact h
  · rw [if_neg hexp]
    simp only [addLoop_eq, Bool.false_or]
    have hids : (p.map (fun e => if e.SteamID64 == profile.SteamID64 then profile else e)).map
        (fun e => e.SteamID64) = p.map (fun e => e.SteamID64) := by
      rw [List.map_map]
      apply List.map_congr_left
      intro e _
      by_cases he : (e.SteamID64 == profile.SteamID64) = true
      · simp only [Function.comp, he, if_true]
        exact (by simpa using he : e.SteamID64 = profile.SteamID64).symm
      · simp only [Function.comp, he, Bool.false_eq_true, if_false]
    by_cases hany : p.any (fun e => e.SteamID64 == profile.SteamID64) = true
    · simp only [hany, Bool.not_true, Bool.false_eq_true, if_false]
      rw [hids]
      exact h
    · simp only [hany, Bool.not_false, if_true, List.map_append, List.map_cons, List.map_nil]
      rw [hids, List.nodup_append]
      refine ⟨h, List.nodup_singleton _, ?_⟩
      intro a ha hb
      rw [List.mem_singleton] at hb
      subst hb
      obtain ⟨e, he, hid⟩ := List.mem_map.1 ha
      apply hany
      rw [List.any_eq_true]
      exact ⟨e, he, by simpa using hid⟩

/-- C23 at a list of three identities: adding a fresh profile of a listed
identity, of a new identity, and an expired profile each leave the identities
pairwise distinct. -/
theorem ProfileCache_Add_unique_witness :
    (agedProfileCache.map (fun e => e.SteamID64)).Nodup ∧
      (ProfileCache.Add 100 agedProfileCache exampleProfile).map (fun e => e.SteamID64) =
        [5, 6, 7] ∧
      (ProfileCache.Add 100 agedProfileCache { SteamID64 := 8, Updated := 100 }).map
          (fun e => e.SteamID64) = [5, 6, 7, 8] ∧
      ((ProfileCache.Add 100 agedProfileCache exampleProfile).map
          (fun e => e.SteamID64)).Nodup :=
  ⟨by decide, by decide, by decide,
    ProfileCache_Add_unique 100 agedProfileCache exampleProfile (by decide)⟩

/-! ## GameCache.Select: how often a record is returned -/

theorem select_foldl_sublist (tags : List String) (and invalid : Bool) (l : List JSONGame) :
    ∀ st : SelectState, ∃ added : List JSONGame, added.Sublist l ∧
      (l.foldl (selectStep caseTable tags and invalid) st).ret = st.ret ++ added := by
  induction l with
  | nil => intro st; exact ⟨[], List.Sublist.refl _, by simp⟩
  | cons a l ih =>
    intro st
    rw [List.foldl_cons]
    obtain ⟨added, hsub, hret⟩ := ih (selectStep caseTable tags and invalid st a)
    rcases selectStep_ret caseTable tags and invalid st a with e | ⟨e, _, _⟩
    · exact ⟨added, List.Sublist.cons a hsub, by rw [hret, e]⟩
    · exact ⟨a :: added, List.Sublist.cons₂ a hsub, by rw [hret, e]; simp⟩

/-- C21, as the claim states it, fails: after the detail service has answered
the request for game 10 with the record of ID 20, the cache holds that record
under the keys 20 and 10, and `Select` without tags and without ID filter
returns it twice. -/
theorem select_duplicate_counterexample :
    mismatchCache = [(20, twentyRecord), (10, twentyRecord)] ∧
      GameCache.Select plainCaseTable mismatchCache [] [] false false =
        [twentyRecord, twentyRecord] ∧
      ¬ (GameCache.Select plainCaseTable mismatchCache [] [] false false).Nodup := by
  decide

/-- C21, amended: the list `GameCache.Select` returns is drawn from the stored
records in the order of the `range`, each stored entry giving at most one
element; so no record is returned more often than it is stored, and when no
record is stored under two keys no record is returned twice. -/
theorem select_sublist (g : GameCache) (tags : List String) (appids : List Int)
    (and invalid : Bool) :
    (g.Select caseTable tags appids and invalid).Sublist g.values ∧
      (∀ r, (g.Select caseTable tags appids and invalid).count r ≤ g.values.count r) ∧
      (g.values.Nodup → (g.Select caseTable tags appids and invalid).Nodup) := by
  have hsub : (g.Select caseTable tags appids and invalid).Sublist g.values := by
    obtain ⟨added, hsub, hret⟩ :=
      select_foldl_sublist caseTable tags and invalid g.values ⟨mkAppIDMap appids, []⟩
    unfold GameCache.Select
    rw [hret]
    simpa using hsub
  exact ⟨hsub, fun r => hsub.count_le r, fun hnd => hsub.nodup hnd⟩

/-- C21, amended, at a cache of two distinct records. -/
theorem select_sublist_witness :
    taggedCache.values.Nodup ∧
      (GameCache.Select plainCaseTable taggedCache ["Action"] [1] false false).Nodup :=
  ⟨by decide,
    (select_sublist plainCaseTable taggedCache ["Action"] [1] false false).2.2 (by decide)⟩

/-! ## UpdateGameCache: the batch loop ends -/

theorem mem_keys_Add (g : GameCache) (k k' : Int) (v : JSONGame) :
    k' ∈ GameCache.keys (GameCache.Add g k v) ↔ k' ∈ GameCache.keys g ∨ k' = k := by
  unfold GameCache.Add
  by_cases h : g.any (fun e => e.1 == k) = true
  · rw [if_pos h]
    have hkeys : GameCache.keys (g.map (fun e => if e.1 == k then (k, v) else e)) =
        GameCache.keys g := by
      unfold GameCache.keys
      rw [List.map_map]
      apply List.map_congr_left
      intro e _
      by_cases he : (e.1 == k) = true
      · simp only [Function.comp, he, if_true]
        exact (by simpa using he : e.1 = k).symm
      · simp only [Function.comp, he, Bool.false_eq_true, if_false]
    rw [hkeys]
    constructor
    · intro hk; exact Or.inl hk
    · rintro (hk | hk)
      · exact hk
      · obtain ⟨e, he, hek⟩ := List.any_eq_true.1 h
        rw [hk]
        exact List.mem_map.2 ⟨e, he, by simpa using hek⟩
  · rw [if_neg h]
    simp [GameCache.keys]

theorem storeRecord_spec (st : UpdateState) (d : JSONGame) (vi : Int) :
    (storeRecord st d vi).gameIDs.Sublist st.gameIDs ∧
      vi ∉ (storeRecord st d vi).gameIDs ∧
      (∀ k ∈ GameCache.keys st.Games, k ∈ GameCache.keys (storeRecord st d vi).Games) ∧
      (∀ y ∈ st.gameIDs, y ∈ (storeRecord st d vi).gameIDs ∨
        y ∈ GameCache.keys (storeRecord st d vi).Games) := by
  unfold storeRecord
  by_cases hne : (d.AppID != vi) = true
  · simp only [hne, if_true]
    refine ⟨?_, ?_, ?_, ?_⟩
    · exact (List.filter_sublist _).trans (List.filter_sublist _)
    · intro hmem
      have h1 := ((IDSet.mem_delete _ _ _).1 hmem).1
      exact ((IDSet.mem_delete _ _ _).1 h1).2 rfl
    · intro k hk
      rw [mem_keys_Add, mem_keys_Add]
      exact Or.inl (Or.inl hk)
    · intro y hy
      by_cases hy1 : y = vi
      · right
        rw [mem_keys_Add]
        exact Or.inr hy1
      · by_cases hy2 : y = d.AppID
        · right
          rw [mem_keys_Add, mem_keys_Add]
          exact Or.inl (Or.inr hy2)
        · left
          rw [IDSet.mem_delete, IDSet.mem_delete]
          exact ⟨⟨hy, hy1⟩, hy2⟩
  · have heq : d.AppID = vi := by simpa using hne
    simp only [hne, Bool.false_eq_true, if_false]
    refine ⟨?_, ?_, ?_, ?_⟩
    · exact List.filter_sublist _
    · intro hmem
      exact ((IDSet.mem_delete _ _ _).1 hmem).2 heq.symm
    · intro k hk
      rw [mem_keys_Add]
      exact Or.inl hk
    · intro y hy
      by_cases hy2 : y = d.AppID
      · right
        rw [mem_keys_Add]
        exact Or.inr hy2
      · left
        rw [IDSet.mem_delete]
        exact ⟨hy, hy2⟩

theorem processID_answered (now : Int) (profiles : ProfileCache) (obj : DetailResponse)
    (st : UpdateState) (x : Int) (entry : DetailEntry) (hint : isGoInt x)
    (hlook : obj.lookup (formatInt x) = some entry)
    (hdata : entry.Success = true → entry.Data ≠ none) :
    ∃ d, processID now profiles obj st (formatInt x) = (storeRecord st d x, none) := by
  by_cases hs : entry.Success = true
  · cases hd : entry.Data with
    | none => exact absurd hd (hdata hs)
    | some d0 =>
      refine ⟨JSONGame.Complete now d0, ?_⟩
      unfold processID storeRecord
      simp only [atoi_formatInt x hint.1 hint.2, hlook, hs, Bool.not_true, Bool.false_eq_true,
        if_false, hd]
  · simp only [Bool.not_eq_true] at hs
    refine ⟨JSONGame.Complete now
      { AppID := x, Invalid := true, Name := (ProfileCache.FindGame profiles x).1 }, ?_⟩
    unfold processID storeRecord
    simp only [atoi_formatInt x hint.1 hint.2, hlook, hs, Bool.not_false, if_true]

theorem processBatch_answered (now : Int) (profiles : ProfileCache) (obj : DetailResponse)
    (xs : List Int) :
    ∀ st : UpdateState, (∀ x ∈ xs, isGoInt x) →
      (∀ x ∈ xs, ∃ entry, obj.lookup (formatInt x) = some entry ∧
        (entry.Success = true → entry.Data ≠ none)) →
      ∃ st1, processBatch now profiles obj (xs.map formatInt) st = (st1, none) ∧
        st1.gameIDs.Sublist st.gameIDs ∧
        (∀ x ∈ xs, x ∉ st1.gameIDs) ∧
        (∀ k ∈ GameCache.keys st.Games, k ∈ GameCache.keys st1.Games) ∧
        (∀ y ∈ st.gameIDs, y ∈ st1.gameIDs ∨ y ∈ GameCache.keys st1.Games) := by
  induction xs with
  | nil =>
    intro st _ _
    exact ⟨st, rfl, List.Sublist.refl _, fun x hx => absurd hx (List.not_mem_nil x), fun k hk => hk,
      fun y hy => Or.inl hy⟩
  | cons x xs ih =>
    intro st hint hans
    obtain ⟨entry, hlook, hdata⟩ := hans x (List.mem_cons_self _ _)
    obtain ⟨d, hstep⟩ := processID_answered now profiles obj st x entry
      (hint x (List.mem_cons_self _ _)) hlook hdata
    obtain ⟨hsub, hx, hkeys, hcov⟩ := storeRecord_spec st d x
    obtain ⟨st1, hrun, hsub1, hxs1, hkeys1, hcov1⟩ := ih (storeRecord st d x)
      (fun y hy => hint y (List.mem_cons_of_mem _ hy))
      (fun y hy => hans y (List.mem_cons_of_mem _ hy))
    refine ⟨st1, ?_, hsub1.trans hsub, ?_, fun k hk => hkeys1 k (hkeys k hk), ?_⟩
    · rw [List.map_cons]
      unfold processBatch
      rw [hstep]
      exact hrun
    · intro y hy hmem
      rcases List.mem_cons.1 hy with e | e
      · subst e
        exact hx (hsub1.subset hmem)
      · exact hxs1 y e hmem
    · intro y hy
      rcases hcov y hy with h1 | h1
      · exact hcov1 y h1
      · exact Or.inr (hkeys1 y h1)

theorem nextIDsLoop_eq (parallelUpdates : Int) (l : List Int) :
    ∀ i : Int, ∃ xs : List Int, nextIDsLoop parallelUpdates l i = xs.map formatInt ∧
      (∀ x ∈ xs, x ∈ l) ∧ (l ≠ [] → xs ≠ []) := by
  induction l with
  | nil => intro i; exact ⟨[], rfl, fun x hx => absurd hx (List.not_mem_nil x), fun h => absurd rfl h⟩
  | cons g l ih =>
    intro i
    unfold nextIDsLoop
    by_cases h : i + 1 ≥ parallelUpdates
    · rw [if_pos h]
      exact ⟨[g], rfl, fun x hx => by
        rw [List.mem_singleton] at hx
        rw [hx]
        exact List.mem_cons_self _ _, fun _ => by simp⟩
    · rw [if_neg h]
      obtain ⟨xs, hxs, hmem, _⟩ := ih (i + 1)
      refine ⟨g :: xs, by rw [hxs]; rfl, ?_, fun _ => by simp⟩
      intro x hx
      rcases List.mem_cons.1 hx with e | e
      · rw [e]; exact List.mem_cons_self _ _
      · exact List.mem_cons_of_mem _ (hmem x e)

theorem sublist_length_lt {l1 l2 : List Int} (hsub : l1.Sublist l2) (x : Int)
    (h2 : x ∈ l2) (h1 : x ∉ l1) : l1.length < l2.length := by
  rcases Nat.lt_or_ge l1.length l2.length with h | h
  · exact h
  · have := hsub.eq_of_length_le h
    rw [this] at h1
    exact absurd h2 h1

theorem updateLoop_terminates (env : UpdateEnv) (profiles : ProfileCache)
    (owned : Int → Prop)
    (horder : ∀ s, (env.order s).Perm s) (hfetch : answersEveryID env.fetch)
    (hsave : ∀ c, env.save c = none) (fuel : Nat) :
    ∀ (st : UpdateState) (reqs : List (List String)),
      st.gameIDs.length < fuel →
      (∀ x ∈ st.gameIDs, isGoInt x) →
      (∀ x, owned x → x ∈ GameCache.keys st.Games ∨ x ∈ st.gameIDs) →
      ∃ res, updateLoop env profiles fuel st reqs = some res ∧ res.err = none ∧
        res.gameIDs = [] ∧ res.requests.length ≤ reqs.length + st.gameIDs.length ∧
        (∀ x, owned x → x ∈ GameCache.keys res.Games) := by
  induction fuel with
  | zero => intro st reqs h; cases h
  | succ fuel ih =>
    intro st reqs hlen hint hcov
    unfold updateLoop
    by_cases hpos : st.gameIDs.length > 0
    · rw [if_pos hpos]
      have hne : st.gameIDs ≠ [] := List.length_pos.1 hpos
      have hone : env.order st.gameIDs ≠ [] := by
        intro hc
        have := (horder st.gameIDs).length_eq
        rw [hc] at this
        simp only [List.length_nil] at this
        omega
      obtain ⟨xs, hxs, hmem, hxne⟩ :=
        nextIDsLoop_eq env.ParallelUpdates (env.order st.gameIDs) 0
      have hxs_ne := hxne hone
      have hin : ∀ x ∈ xs, x ∈ st.gameIDs := fun x hx =>
        (horder st.gameIDs).mem_iff.1 (hmem x hx)
      obtain ⟨obj, hobj, hans⟩ := hfetch (xs.map formatInt)
      obtain ⟨st1, hrun, hsub, hgone, hkeys, hcov1⟩ :=
        processBatch_answered env.now profiles obj xs st (fun x hx => hint x (hin x hx))
          (fun x hx => hans (formatInt x) (List.mem_map.2 ⟨x, hx, rfl⟩))
      obtain ⟨x0, hx0⟩ := List.exists_mem_of_ne_nil xs hxs_ne
      have hlt : st1.gameIDs.length < st.gameIDs.length :=
        sublist_length_lt hsub x0 (hin x0 hx0) (hgone x0 hx0)
      have hcov' : ∀ x, owned x → x ∈ GameCache.keys st1.Games ∨ x ∈ st1.gameIDs := by
        intro x hx
        rcases hcov x hx with h | h
        · exact Or.inl (hkeys x h)
        · rcases hcov1 x h with h' | h'
          · exact Or.inr h'
          · exact Or.inl h'
      obtain ⟨res, hres, herr, hempty, hreq, hfin⟩ :=
        ih st1 (reqs ++ [xs.map formatInt]) (by omega)
          (fun x hx => hint x (hsub.subset hx)) hcov'
      refine ⟨res, ?_, herr, hempty, ?_, hfin⟩
      · simp only [hxs, hobj, hrun, hsave]
        exact hres
      · simp only [List.length_append, List.length_singleton] at hreq
        omega
    · rw [if_neg hpos]
      have hnil : st.gameIDs = [] := by
        cases hg : st.gameIDs with
        | nil => rfl
        | cons a l => rw [hg] at hpos; simp at hpos
      refine ⟨⟨none, st.Games, st.gameIDs, reqs⟩, ?_, rfl, hnil, by simp, ?_⟩
      · simp only [hsave]
      · intro x hx
        rcases hcov x hx with h | h
        · exact h
        · rw [hnil] at h
          cases h

theorem failingService_answers : answersEveryID failingService := by
  intro ids
  refine ⟨ids.map (fun v => (v, { Success := false })), rfl, ?_⟩
  intro v hv
  refine ⟨{ Success := false }, ?_, fun h => by cases h⟩
  induction ids with
  | nil => exact absurd hv (List.not_mem_nil v)
  | cons w ws ih =>
    rw [List.map_cons]
    by_cases hw : v = w
    · rw [hw]
      exact List.lookup_cons_self
    · rw [List.lookup_cons]
      have hb : (v == w) = false := by simpa using hw
      rw [hb]
      rcases List.mem_cons.1 hv with e | e
      · exact absurd e hw
      · exact ih e

/-- C22: when the `range` over the want-set visits exactly its IDs, the detail
service answers every request with an entry for every requested ID and a
record in every successful entry, every `Save` succeeds and the IDs the
clients own are Go `int`s, `UpdateGameCache` ends: one round more than the
want-set has IDs is enough, whatever the batch size (of those `make` accepts
as a capacity), since a batch requests at least one ID and leaves the want-set
without the IDs it requested.  The run
then returns no error, the want-set is empty, at most as many batches were
requested as the want-set had IDs, and every ID owned by a registered client
is a key of the game cache. -/
theorem UpdateGameCache_terminates (env : UpdateEnv) (a : Aggregator)
    (horder : ∀ s, (env.order s).Perm s) (hfetch : answersEveryID env.fetch)
    (hsave : ∀ c, env.save c = none)
    (hint : ∀ c ∈ a.Clients, ∀ e ∈ c.2.Profile.Games, isGoInt e.1) (extra : Nat) :
    ∃ res, Aggregator.UpdateGameCache env ((wantSet a).length + 1 + extra) a = some res ∧
      res.err = none ∧ res.gameIDs = [] ∧
      res.requests.length ≤ (wantSet a).length ∧
      (∀ c ∈ a.Clients, ∀ e ∈ c.2.Profile.Games, e.1 ∈ GameCache.keys res.Games) := by
  obtain ⟨res, hres, herr, hempty, hreq, hfin⟩ :=
    updateLoop_terminates env a.Cache.Profiles
      (fun x => ∃ c ∈ a.Clients, ∃ e ∈ c.2.Profile.Games, e.1 = x)
      horder hfetch hsave ((wantSet a).length + 1 + extra) ⟨a.Cache.Games, wantSet a⟩ []
      (by simp only []; omega)
      (by
        intro x hx
        obtain ⟨⟨c, hc, e, he, hxe⟩, _⟩ := (mem_wantSet a x).1 hx
        rw [← hxe]
        exact hint c hc e he)
      (by
        intro x hx
        by_cases hk : x ∈ GameCache.keys a.Cache.Games
        · exact Or.inl hk
        · exact Or.inr ((mem_wantSet a x).2 ⟨hx, hk⟩))
  refine ⟨res, hres, herr, hempty, by simpa using hreq, ?_⟩
  intro c hc e he
  exact hfin e.1 ⟨c, hc, e, he, rfl⟩

/-- The run over the aggregator whose client owns the games 42 and 43, with 43
cached, against the detail service that marks every ID unsuccessful, is a run
to which the termination theorem applies. -/
theorem UpdateGameCache_terminates_witness :
    (∀ s, (failingEnv.order s).Perm s) ∧ answersEveryID failingEnv.fetch ∧
      (∀ c, failingEnv.save c = none) ∧
      (∀ c ∈ partlyCachedAggregator.Clients, ∀ e ∈ c.2.Profile.Games, isGoInt e.1) ∧
      ∃ res, Aggregator.UpdateGameCache failingEnv
          ((wantSet partlyCachedAggregator).length + 1 + 0) partlyCachedAggregator = some res ∧
        res.err = none ∧ res.gameIDs = [] ∧
        res.requests.length ≤ (wantSet partlyCachedAggregator).length ∧
        (∀ c ∈ partlyCachedAggregator.Clients, ∀ e ∈ c.2.Profile.Games,
          e.1 ∈ GameCache.keys res.Games) :=
  ⟨fun s => List.Perm.refl s, failingService_answers, fun _ => rfl,
    by unfold isGoInt; decide,
    UpdateGameCache_terminates failingEnv partlyCachedAggregator
      (fun s => List.Perm.refl s) failingService_answers (fun _ => rfl)
      (by unfold isGoInt; decide) 0⟩

/-! ## UpdateGameCache: what a complete run leaves under a key -/

/-- On ASCII text `strings.ToLower` does not depend on the case tables. -/
theorem toLower_ascii (table1 table2 : Char → Char) (s : String)
    (h : ∀ c ∈ s.data, c.toNat ≤ 127) : toLower table1 s = toLower table2 s := by
  unfold toLower
  congr 1
  apply List.map_congr_left
  intro c hc
  unfold toLowerRune
  rw [if_pos (h c hc), if_pos (h c hc)]

/-- Outside ASCII the vanity match of `Find` follows the case tables: with a
table that lowers `É` the name `Émile` is found for `émile`, and with a table
that keeps it the name is not found. -/
theorem Find_non_ascii :
    ProfileCache.Find accentCaseTable 100 2 accentProfileCache "émile" =
        some (accentProfileCache, some { SteamID64 := 5, CustomURL := "Émile", Updated := 100 }) ∧
      ProfileCache.Find plainCaseTable 100 2 accentProfileCache "émile" =
        some (accentProfileCache, none) := by
  decide

/-- The rounding of `float64OfInt`: `2 ^ 53 + 1` goes down to `2 ^ 53`,
`2 ^ 53 + 3` goes up to `2 ^ 53 + 4`, and the largest `int64` goes to
`2 ^ 63`. -/
theorem float64OfInt_rounds :
    float64OfInt 18 = 18 ∧ float64OfInt (-9007199254740992) = -9007199254740992 ∧
      float64OfInt 9007199254740993 = 9007199254740992 ∧
      float64OfInt 9007199254740995 = 9007199254740996 ∧
      float64OfInt (-9007199254740995) = -9007199254740996 ∧
      float64OfInt 9223372036854775807 = 9223372036854775808 := by
  decide

end Steamcli
